import Mathlib

/-!
# microtar: record codec and archive cursor

A shallow embedding of `src/src/microtar.c`.  Bytes are natural numbers below
256, buffers are lists of bytes, `uint64_t` arithmetic is arithmetic on `Nat`
reduced modulo `2 ^ 64` wherever the C expression can wrap, and the status
codes are the integers of `microtar.h`.
-/

namespace Microtar

/-! ## Status codes and type flags (`microtar.h`) -/

def MTAR_ESUCCESS : Int := 0
def MTAR_EFAILURE : Int := -1
def MTAR_EOPENFAIL : Int := -2
def MTAR_EREADFAIL : Int := -3
def MTAR_EWRITEFAIL : Int := -4
def MTAR_ESEEKFAIL : Int := -5
def MTAR_EBADCHKSUM : Int := -6
def MTAR_ENULLRECORD : Int := -7
def MTAR_ENOTFOUND : Int := -8

def MTAR_TREG : Nat := 48
def MTAR_TLNK : Nat := 49
def MTAR_TSYM : Nat := 50
def MTAR_TCHR : Nat := 51
def MTAR_TBLK : Nat := 52
def MTAR_TDIR : Nat := 53
def MTAR_TFIFO : Nat := 54

/-- The modulus of `uint64_t` arithmetic. -/
def U64 : Nat := 2 ^ 64

/-- `MTAR_FILE_SIZE_MAX`, `0x1FFFFFFFF`. -/
def MTAR_FILE_SIZE_MAX : Nat := 0x1FFFFFFFF

/-- `sizeof(mtar_raw_header_t)`. -/
def RAW_SIZE : Nat := 512

/-- The logical header `mtar_header_t`.  `name` and `linkname` are the
`char[100]` arrays of the struct. -/
structure mtar_header_t where
  mode : Nat
  owner : Nat
  size : Nat
  mtime : Nat
  typeflag : Nat
  name : List Nat
  linkname : List Nat
deriving DecidableEq, Repr

/-! ## The C library routines the codec calls -/

/-- The C string held in a buffer: the bytes before the first NUL.  Where the
buffer holds no NUL the string ends with the buffer (C would read on past the
object, which is undefined). -/
def cstr (s : List Nat) : List Nat := s.takeWhile (fun c => c ≠ 0)

/-- Store `bs` into `buf` from offset `off` on. -/
def writeAt (buf : List Nat) (off : Nat) (bs : List Nat) : List Nat :=
  buf.take off ++ bs ++ buf.drop (off + bs.length)

/-- The function `strcpy(buf + off, src)`: the string and its terminator. -/
def strcpy (buf : List Nat) (off : Nat) (src : List Nat) : List Nat :=
  writeAt buf off (cstr src ++ [0])

/-- The function `strncpy(dst, src, n)` as the resulting `n` bytes of `dst`:
the string in the first `n` bytes of `src`, NUL padded to `n` bytes. -/
def strncpy (src : List Nat) (n : Nat) : List Nat :=
  cstr (src.take n) ++ List.replicate (n - (cstr (src.take n)).length) 0

/-- The function `strcmp(a, b) == 0`. -/
def streq (a b : List Nat) : Bool := cstr a == cstr b

/-- Octal digits of `n`, most significant first, in front of `acc`. -/
def octDigits : Nat → Nat → List Nat → List Nat
  | 0, _, acc => acc
  | fuel + 1, n, acc =>
    if n / 8 = 0 then (48 + n % 8) :: acc
    else octDigits fuel (n / 8) ((48 + n % 8) :: acc)

/-- The text `printf("%" PRIo64, v)` produces for a `uint64_t` argument: a
64-bit value has at most 22 octal digits. -/
def fmt_o64 (v : Nat) : List Nat := octDigits 22 (v % U64) []

/-- The text `printf("%06" PRIo64, v)` produces: zero padded to six digits. -/
def fmt_06o64 (v : Nat) : List Nat :=
  List.replicate (6 - (fmt_o64 v).length) 48 ++ fmt_o64 v

/-- The call `sprintf(buf + off, "%" PRIo64, v)`: the text and its terminator. -/
def sprintf_o64 (buf : List Nat) (off : Nat) (v : Nat) : List Nat :=
  writeAt buf off (fmt_o64 v ++ [0])

/-- The call `sprintf(buf + off, "%06" PRIo64, v)`. -/
def sprintf_06o64 (buf : List Nat) (off : Nat) (v : Nat) : List Nat :=
  writeAt buf off (fmt_06o64 v ++ [0])

/-- White space as `isspace` sees it in the C locale. -/
def isspace (c : Nat) : Bool := c == 32 || (decide (9 ≤ c) && decide (c ≤ 13))

/-- An octal digit. -/
def isodigit (c : Nat) : Bool := decide (48 ≤ c) && decide (c ≤ 55)

/-- Value of a run of octal digits. -/
def octValue (ds : List Nat) : Nat := ds.foldl (fun acc d => acc * 8 + (d - 48)) 0

/-- What `sscanf(s, "%" PRIo64, &x)` converts, `none` when nothing is converted
(`x` is then left as it was).  The directive skips white space, takes an
optional sign and then the longest run of octal digits, as `strtoull` with base
8 does: a value that does not fit 64 bits gives `UINT64_MAX`, a minus sign
negates modulo `2 ^ 64`.  The scan ends at the first byte that is no digit,
the terminating NUL included; `s` is the record from the field on, so a field
without terminator is read on into the fields behind it. -/
def scan_o64 (s : List Nat) : Option Nat :=
  let s1 := s.dropWhile isspace
  let neg := s1.head? == some 45
  let s2 := if s1.head? == some 43 || s1.head? == some 45 then s1.tail else s1
  let ds := s2.takeWhile isodigit
  if ds.isEmpty then none
  else
    let v := octValue ds
    if U64 ≤ v then some (U64 - 1)
    else if neg then some ((U64 - v) % U64)
    else some v

/-- The call `sscanf(s, "%" PRIo64, &x)` as the new value of `x`, whose old
value is `old`. -/
def sscanf_o64 (s : List Nat) (old : Nat) : Nat := (scan_o64 s).getD old

/-! ## `microtar.c`: the record codec -/

/-- Source function `round_up`. -/
def round_up (n : Nat) : Nat := (n + ((512 - (n % 512)) % 512)) % U64

/-- Source function `checksum`: `res` starts at 256 and takes the bytes before
the checksum field (offsets below `offsetof(checksum) = 148`) and from
`offsetof(typeflag) = 156` to the end of the record. -/
def checksum (rh : List Nat) : Nat :=
  let res := 256
  let res := (List.range' 0 148).foldl (fun res i => (res + rh.getD i 0) % U64) res
  (List.range' 156 (RAW_SIZE - 156)).foldl (fun res i => (res + rh.getD i 0) % U64) res

/-- Source function `raw_to_header`.  `h` is the header the caller passes in
(fields no conversion reaches keep their value) and `chksum2` the indeterminate
initial value of the local of that name.  Returns the status and the header. -/
def raw_to_header (chksum2 : Nat) (h : mtar_header_t) (rh : List Nat) :
    Int × mtar_header_t :=
  if rh.getD 148 0 = 0 then (MTAR_ENULLRECORD, h)
  else
    let chksum1 := checksum rh
    let chksum2 := sscanf_o64 (rh.drop 148) chksum2
    if chksum1 ≠ chksum2 then (MTAR_EBADCHKSUM, h)
    else
      (MTAR_ESUCCESS,
        { mode := sscanf_o64 (rh.drop 100) h.mode
          owner := sscanf_o64 (rh.drop 108) h.owner
          size := sscanf_o64 (rh.drop 124) h.size
          mtime := sscanf_o64 (rh.drop 136) h.mtime
          typeflag := rh.getD 156 0
          name := strncpy rh 100
          linkname := strncpy (rh.drop 157) 100 })

/-- Source function `header_to_raw`. -/
def header_to_raw (h : mtar_header_t) : List Nat :=
  let rh := List.replicate RAW_SIZE 0
  let rh := sprintf_o64 rh 100 h.mode
  let rh := sprintf_o64 rh 108 h.owner
  let rh := sprintf_o64 rh 124 h.size
  let rh := sprintf_o64 rh 136 h.mtime
  let rh := rh.set 156 (if h.typeflag ≠ 0 then h.typeflag else MTAR_TREG)
  let rh := strcpy rh 0 h.name
  let rh := strcpy rh 157 h.linkname
  let chksum := checksum rh
  let rh := sprintf_06o64 rh 148 chksum
  rh.set 155 32

/-! ## The stream backend and the cursor (`mtar_t`) -/

/-- The three callbacks of `mtar_t` the engine uses, over a stream state `σ`
(the `stream` pointer and what it points to).  `read st n` returns the status,
the bytes stored into the caller's buffer and the new stream; `write st bs`
and `seek st pos` return the status and the new stream. -/
structure Backend (σ : Type) where
  read : σ → Nat → Int × List Nat × σ
  write : σ → List Nat → Int × σ
  seek : σ → Nat → Int × σ

/-- The data fields of `mtar_t`. -/
structure mtar_t (σ : Type) where
  stream : σ
  pos : Nat
  remaining_data : Nat
  last_header : Nat

/-- Indeterminate initial values of the locals the code declares without an
initialiser and then hands to a routine that may leave them untouched:
`chksum2` in `raw_to_header`, and the `mtar_header_t` local of `mtar_next`,
`mtar_find` and `mtar_read_data`. -/
structure Indet where
  chksum2 : Nat
  h : mtar_header_t

/-- Conversion of a `uint64_t` value to `int`. -/
def castInt (v : Nat) : Int :=
  if v % 2 ^ 32 < 2 ^ 31 then ((v % 2 ^ 32 : Nat) : Int) else ((v % 2 ^ 32 : Nat) : Int) - 2 ^ 32

variable {σ : Type}

/-- Source function `tread`.  The position is advanced whatever the callback
returns. -/
def tread (B : Backend σ) (tar : mtar_t σ) (size : Nat) : Int × List Nat × mtar_t σ :=
  if size > MTAR_FILE_SIZE_MAX then (MTAR_EREADFAIL, [], tar)
  else
    let r := B.read tar.stream size
    (r.1, r.2.1, { tar with stream := r.2.2, pos := (tar.pos + size) % U64 })

/-- Source function `twrite`; `data` is the `size` bytes at the pointer. -/
def twrite (B : Backend σ) (tar : mtar_t σ) (data : List Nat) : Int × mtar_t σ :=
  if data.length > MTAR_FILE_SIZE_MAX then (MTAR_EWRITEFAIL, tar)
  else
    let r := B.write tar.stream data
    (r.1, { tar with stream := r.2, pos := (tar.pos + data.length) % U64 })

/-- The loop of `write_null_bytes`, `n` iterations left. -/
def write_null_loop (B : Backend σ) : Nat → mtar_t σ → Int × mtar_t σ
  | 0, tar => (MTAR_ESUCCESS, tar)
  | n + 1, tar =>
    let r := twrite B tar [0]
    if r.1 ≠ 0 then r else write_null_loop B n r.2

/-- Source function `write_null_bytes`; the loop `for (i = 0; i < n; i++)`
runs `n` times, and not at all for a negative `n`. -/
def write_null_bytes (B : Backend σ) (tar : mtar_t σ) (n : Int) : Int × mtar_t σ :=
  write_null_loop B n.toNat tar

/-- Source function `mtar_seek`. -/
def mtar_seek (B : Backend σ) (tar : mtar_t σ) (pos : Nat) : Int × mtar_t σ :=
  let r := B.seek tar.stream pos
  if r.1 = 0 then (r.1, { tar with stream := r.2, pos := pos })
  else (r.1, { tar with stream := r.2 })

/-- Source function `mtar_rewind`. -/
def mtar_rewind (B : Backend σ) (tar : mtar_t σ) : Int × mtar_t σ :=
  mtar_seek B { tar with remaining_data := 0, last_header := 0 } 0

/-- Source function `mtar_read_header`; `h` is the caller's header, returned
as the call leaves it. -/
def mtar_read_header (B : Backend σ) (u : Indet) (tar : mtar_t σ) (h : mtar_header_t) :
    Int × mtar_header_t × mtar_t σ :=
  let tar := { tar with last_header := tar.pos }
  let r := tread B tar RAW_SIZE
  if r.1 ≠ 0 then (r.1, h, r.2.2)
  else
    let s := mtar_seek B r.2.2 r.2.2.last_header
    if s.1 ≠ 0 then (s.1, h, s.2)
    else
      let d := raw_to_header u.chksum2 h r.2.1
      (d.1, d.2, s.2)

/-- Source function `mtar_next`. -/
def mtar_next (B : Backend σ) (u : Indet) (tar : mtar_t σ) : Int × mtar_t σ :=
  let r := mtar_read_header B u tar u.h
  if r.1 ≠ 0 then (r.1, r.2.2)
  else
    let n := (round_up r.2.1.size + RAW_SIZE) % U64
    mtar_seek B r.2.2 ((r.2.2.pos + n) % U64)

/-- The `while` loop of `mtar_find`, at most `fuel` header reads; `header` is
the local of that name.  Returns the status, the header stored through `h` on a
match, and the cursor; `none` when the reads are used up.  The status of
`mtar_next` is dropped, as in the source. -/
def mtar_find_loop (B : Backend σ) (u : Indet) (name : List Nat) :
    Nat → mtar_t σ → mtar_header_t → Option (Int × Option mtar_header_t × mtar_t σ)
  | 0, _, _ => none
  | fuel + 1, tar, header =>
    let r := mtar_read_header B u tar header
    if r.1 = MTAR_ESUCCESS then
      if streq r.2.1.name name then some (MTAR_ESUCCESS, some r.2.1, r.2.2)
      else mtar_find_loop B u name fuel (mtar_next B u r.2.2).2 r.2.1
    else some (if r.1 = MTAR_ENULLRECORD then MTAR_ENOTFOUND else r.1, none, r.2.2)

/-- Source function `mtar_find`. -/
def mtar_find (B : Backend σ) (u : Indet) (fuel : Nat) (tar : mtar_t σ) (name : List Nat) :
    Option (Int × Option mtar_header_t × mtar_t σ) :=
  let r := mtar_rewind B tar
  if r.1 ≠ 0 then some (r.1, none, r.2)
  else mtar_find_loop B u name fuel r.2 u.h

/-- The block of `mtar_read_data` guarded by `tar->remaining_data == 0`. -/
def read_data_begin (B : Backend σ) (u : Indet) (tar : mtar_t σ) : Int × mtar_t σ :=
  if tar.remaining_data = 0 then
    let r := mtar_read_header B u tar u.h
    if r.1 ≠ 0 then (r.1, r.2.2)
    else
      let s := mtar_seek B r.2.2 ((r.2.2.pos + RAW_SIZE) % U64)
      if s.1 ≠ 0 then s
      else (MTAR_ESUCCESS, { s.2 with remaining_data := r.2.1.size })
  else (MTAR_ESUCCESS, tar)

/-- Source function `mtar_read_data`.  Returns the status, the bytes stored
into `ptr` and the cursor. -/
def mtar_read_data (B : Backend σ) (u : Indet) (tar : mtar_t σ) (size : Nat) :
    Int × List Nat × mtar_t σ :=
  let b := read_data_begin B u tar
  if b.1 ≠ 0 then (b.1, [], b.2)
  else
    let r := tread B b.2 size
    if r.1 ≠ 0 then r
    else
      let tar : mtar_t σ := { r.2.2 with remaining_data := (r.2.2.remaining_data + U64 - size) % U64 }
      if tar.remaining_data = 0 then
        let s := mtar_seek B tar tar.last_header
        (s.1, r.2.1, s.2)
      else (MTAR_ESUCCESS, r.2.1, tar)

/-- Source function `mtar_write_header`: `sizeof(rh)` bytes of the record go
to `twrite`. -/
def mtar_write_header (B : Backend σ) (tar : mtar_t σ) (h : mtar_header_t) : Int × mtar_t σ :=
  let rh := header_to_raw h
  let tar := { tar with remaining_data := h.size }
  twrite B tar (rh.take RAW_SIZE)

/-- The header after `memset(&h, 0, sizeof(h))`. -/
def zero_header : mtar_header_t :=
  { mode := 0, owner := 0, size := 0, mtime := 0, typeflag := 0
    name := List.replicate 100 0, linkname := List.replicate 100 0 }

/-- The header `mtar_write_file_header` builds. -/
def file_header (name : List Nat) (size : Nat) : mtar_header_t :=
  let h := zero_header
  let h := { h with name := strcpy h.name 0 name }
  { h with size := size, typeflag := MTAR_TREG, mode := 0o664 }

/-- The header `mtar_write_dir_header` builds. -/
def dir_header (name : List Nat) : mtar_header_t :=
  let h := zero_header
  let h := { h with name := strcpy h.name 0 name }
  { h with typeflag := MTAR_TDIR, mode := 0o775 }

/-- Source function `mtar_write_file_header`. -/
def mtar_write_file_header (B : Backend σ) (tar : mtar_t σ) (name : List Nat) (size : Nat) :
    Int × mtar_t σ :=
  mtar_write_header B tar (file_header name size)

/-- Source function `mtar_write_dir_header`. -/
def mtar_write_dir_header (B : Backend σ) (tar : mtar_t σ) (name : List Nat) : Int × mtar_t σ :=
  mtar_write_header B tar (dir_header name)

/-- Source function `mtar_write_data`; `data` is the `size` bytes at the
pointer. -/
def mtar_write_data (B : Backend σ) (tar : mtar_t σ) (data : List Nat) : Int × mtar_t σ :=
  let r := twrite B tar data
  if r.1 ≠ 0 then r
  else
    let tar : mtar_t σ := { r.2 with remaining_data := (r.2.remaining_data + U64 - data.length) % U64 }
    if tar.remaining_data = 0 then
      write_null_bytes B tar (castInt ((round_up tar.pos + U64 - tar.pos) % U64))
    else (MTAR_ESUCCESS, tar)

/-- Source function `mtar_finalize`. -/
def mtar_finalize (B : Backend σ) (tar : mtar_t σ) : Int × mtar_t σ :=
  write_null_bytes B tar (2 * RAW_SIZE : Nat)

/-! ## The loops of `tests/mtar_test.cpp` -/

/-- The writing loop of `write_tar`: for each entry `mtar_write_file_header`
and one `mtar_write_data` of the whole payload.  Returns the statuses of all
calls, in order, and the cursor. -/
def write_entries (B : Backend σ) : List (List Nat × List Nat) → mtar_t σ → List Int × mtar_t σ
  | [], tar => ([], tar)
  | (name, data) :: es, tar =>
    let a := mtar_write_file_header B tar name data.length
    let b := mtar_write_data B a.2 data
    let r := write_entries B es b.2
    (a.1 :: b.1 :: r.1, r.2)

/-- Test function `write_tar`: the entries, then `mtar_finalize`. -/
def write_tar (B : Backend σ) (es : List (List Nat × List Nat)) (tar : mtar_t σ) :
    List Int × mtar_t σ :=
  let r := write_entries B es tar
  let f := mtar_finalize B r.2
  (r.1 ++ [f.1], f.2)

/-- One header obtained by the loop of `read_tar`: the status of
`mtar_read_header`, the header, and the statuses of `mtar_read_data` and
`mtar_next`. -/
structure ReadStep where
  err : Int
  h : mtar_header_t
  data_err : Int
  next_err : Int

/-- The loop of `read_tar`, at most `fuel` header reads: `mtar_read_header`
until it returns `MTAR_ENULLRECORD`; in between `mtar_read_data` of `h.size`
bytes (left out when `with_data` is false) and `mtar_next`.  `none` when the
reads are used up. -/
def read_tar (B : Backend σ) (u : Indet) (with_data : Bool) :
    Nat → mtar_t σ → mtar_header_t → Option (List ReadStep × mtar_t σ)
  | 0, _, _ => none
  | fuel + 1, tar, h =>
    let r := mtar_read_header B u tar h
    if r.1 = MTAR_ENULLRECORD then some ([], r.2.2)
    else
      let d := if with_data then mtar_read_data B u r.2.2 r.2.1.size
               else (MTAR_ESUCCESS, [], r.2.2)
      let n := mtar_next B u d.2.2
      (read_tar B u with_data fuel n.2 r.2.1).map
        (fun p => (⟨r.1, r.2.1, d.1, n.1⟩ :: p.1, p.2))

/-! ## An in-memory backend -/

/-- A byte buffer and the stream offset. -/
structure MemStream where
  data : List Nat
  off : Nat

/-- The buffer after storing `bs` at offset `off`; a gap between the end of
the buffer and `off` reads as NUL bytes. -/
def memStore (data : List Nat) (off : Nat) (bs : List Nat) : List Nat :=
  data.take off ++ List.replicate (off - data.length) 0 ++ bs ++ data.drop (off + bs.length)

/-- Modelled from the spec: the in-memory buffer backend of the design notes
(the repository has the file backend only).  Each operation transfers exactly
`n` bytes or fails: `write` and `seek` always succeed, `read` fails with
`MTAR_EREADFAIL`, leaving the offset where it was, when fewer than `n` bytes
lie behind the offset. -/
def memBackend : Backend MemStream where
  read st n :=
    if st.off + n ≤ st.data.length then
      (MTAR_ESUCCESS, (st.data.drop st.off).take n, { st with off := st.off + n })
    else (MTAR_EREADFAIL, [], st)
  write st bs := (MTAR_ESUCCESS, { data := memStore st.data st.off bs, off := st.off + bs.length })
  seek st pos := (MTAR_ESUCCESS, { st with off := pos })

/-- A cursor on a buffer as `memset(tar, 0, sizeof(*tar))` leaves it. -/
def mem_open (data : List Nat) : mtar_t MemStream :=
  { stream := { data := data, off := 0 }, pos := 0, remaining_data := 0, last_header := 0 }

/-! ## Vocabulary of the statements -/

/-- A text in a zero-filled field of `n` bytes. -/
def field (s : List Nat) (n : Nat) : List Nat := s ++ List.replicate (n - s.length) 0

/-- The ten fields of `mtar_raw_header_t` in order: name, mode, owner, group,
size, mtime, checksum, typeflag, linkname, padding. -/
def layout (name mode owner size mtime chk : List Nat) (typeflag : Nat) (linkname : List Nat) :
    List Nat :=
  field name 100 ++ (field mode 8 ++ (field owner 8 ++ (List.replicate 8 0 ++
    (field size 12 ++ (field mtime 12 ++ (chk ++ (typeflag :: (field linkname 100 ++
      List.replicate 255 0))))))))

/-- The type flag `header_to_raw` stores. -/
def raw_typeflag (h : mtar_header_t) : Nat := if h.typeflag ≠ 0 then h.typeflag else MTAR_TREG

/-- The record `header_to_raw` has built when it computes the checksum. -/
def layout_pre (h : mtar_header_t) : List Nat :=
  layout (cstr h.name) (fmt_o64 h.mode) (fmt_o64 h.owner) (fmt_o64 h.size) (fmt_o64 h.mtime)
    (List.replicate 8 0) (raw_typeflag h) (cstr h.linkname)

/-- The record `header_to_raw` returns, field by field. -/
def layout_full (h : mtar_header_t) : List Nat :=
  layout (cstr h.name) (fmt_o64 h.mode) (fmt_o64 h.owner) (fmt_o64 h.size) (fmt_o64 h.mtime)
    (fmt_06o64 (checksum (layout_pre h)) ++ [0, 32]) (raw_typeflag h) (cstr h.linkname)

/-- The field values fit the record: `mode` and `owner` have at most seven
octal digits, `size` is at most `MTAR_FILE_SIZE_MAX` and `mtime` has at most
eleven octal digits, the type flag is a byte, and `name` and `linkname` are
arrays of 100 bytes holding a string of at most 99 bytes and its terminator. -/
def FieldsFit (h : mtar_header_t) : Prop :=
  h.mode < 8 ^ 7 ∧ h.owner < 8 ^ 7 ∧ h.size ≤ MTAR_FILE_SIZE_MAX ∧ h.mtime < 8 ^ 11 ∧
  h.typeflag < 256 ∧
  h.name.length = 100 ∧ (cstr h.name).length ≤ 99 ∧ (∀ b ∈ h.name, b < 256) ∧
  h.linkname.length = 100 ∧ (cstr h.linkname).length ≤ 99 ∧ (∀ b ∈ h.linkname, b < 256)

instance (h : mtar_header_t) : Decidable (FieldsFit h) := by
  unfold FieldsFit
  infer_instance

/-- A header with valid field values: the fields fit and the type flag is one
of the seven kinds. -/
def ValidHeader (h : mtar_header_t) : Prop :=
  FieldsFit h ∧ MTAR_TREG ≤ h.typeflag ∧ h.typeflag ≤ MTAR_TFIFO

instance (h : mtar_header_t) : Decidable (ValidHeader h) := by
  unfold ValidHeader
  infer_instance

/-- The header that decoding the encoded record of `h` gives. -/
def decoded (h : mtar_header_t) : mtar_header_t :=
  { mode := h.mode, owner := h.owner, size := h.size, mtime := h.mtime,
    typeflag := raw_typeflag h, name := field (cstr h.name) 100,
    linkname := field (cstr h.linkname) 100 }

/-- Bytes of NUL padding behind a payload of `n` bytes. -/
def pad512 (n : Nat) : Nat := (512 - n % 512) % 512

/-- What one entry occupies in the stream: the record of its file header, the
payload, and the padding to the block boundary. -/
def entry_bytes (e : List Nat × List Nat) : List Nat :=
  header_to_raw (file_header e.1 e.2.length) ++ (e.2 ++ List.replicate (pad512 e.2.length) 0)

/-- The stream of an archive of the entries `es` (name and payload each): the
entries and two records of NUL bytes. -/
def archive_bytes (es : List (List Nat × List Nat)) : List Nat :=
  (es.map entry_bytes).flatten ++ List.replicate 1024 0

/-- An entry that can be written: a name of at most 99 bytes, none of them
NUL, and a payload of at most `MTAR_FILE_SIZE_MAX` bytes. -/
def ValidEntry (e : List Nat × List Nat) : Prop :=
  e.1.length ≤ 99 ∧ (∀ b ∈ e.1, b ≠ 0 ∧ b < 256) ∧ e.2.length ≤ MTAR_FILE_SIZE_MAX

instance (e : List Nat × List Nat) : Decidable (ValidEntry e) := by
  unfold ValidEntry
  infer_instance

/-- A run of `mtar_write_data` calls, one per chunk; the statuses and the
cursor. -/
def write_chunks {σ : Type} (B : Backend σ) : List (List Nat) → mtar_t σ → List Int × mtar_t σ
  | [], tar => ([], tar)
  | c :: cs, tar =>
    let r := mtar_write_data B tar c
    let rs := write_chunks B cs r.2
    (r.1 :: rs.1, rs.2)

/-- A header with valid field values. -/
def sample_header : mtar_header_t :=
  { mode := 0o644, owner := 1000, size := 1000, mtime := 0o17000000000, typeflag := MTAR_TSYM,
    name := [97, 46, 116, 120, 116] ++ List.replicate 95 0
    linkname := [98] ++ List.replicate 99 0 }

/-- The length of the archive of the entries `es`: per entry the record and
the padded payload, and the two records of the end marker. -/
def archive_size (es : List (List Nat × List Nat)) : Nat :=
  (es.map (fun e => 512 + (e.2.length + pad512 e.2.length))).sum + 1024

/-! ## The reference backend (`file_read`) -/

/-- Modelled from the spec: the buffered file behind `tar->stream`, which is
the C library's and not in the repository: the bytes of the file, the offset,
the end-of-file flag and the error flag, and `fail_at`, the offset from which
the device fails (none for a device that never fails). -/
structure CFile where
  data : List Nat
  off : Nat
  eof : Bool
  err : Bool
  fail_at : Option Nat

/-- Modelled from the spec: the call `fread(ptr, 1, n, stream)`, returning the
bytes stored and the file.  It returns the bytes available, fewer than `n` only
at the end of the file or at a device failure; a short read at the end of the
file sets the end-of-file flag and not the error flag, one at a failure sets
the error flag. -/
def fread (f : CFile) (n : Nat) : List Nat × CFile :=
  let upto := match f.fail_at with
    | some k => min k f.data.length
    | none => f.data.length
  let got := ((f.data.take upto).drop f.off).take n
  let failed := decide (got.length < n) && (f.fail_at.isSome && decide (upto < f.data.length))
  (got, { f with off := f.off + got.length
                 eof := f.eof || (decide (got.length < n) && !failed)
                 err := f.err || failed })

/-- `MTAR_CHUNK_SIZE`. -/
def MTAR_CHUNK_SIZE : Nat := 4096

/-- The `while` loop of `file_read`, at most `fuel` calls of `fread`: `buf` is
the caller's buffer, `ptr` the offset of `data` in it, `res` and `r_sz` the
locals.  Returns the status, the buffer and the file; `none` when the calls
are used up. -/
def file_read_loop (size : Nat) :
    Nat → CFile → List Nat → Nat → Nat → Nat → Option (Int × List Nat × CFile)
  | 0, _, _, _, _, _ => none
  | fuel + 1, f, buf, ptr, res, r_sz =>
    if res < size then
      let r_sz := if (r_sz + res) % U64 > size then (size + U64 - res) % U64 else r_sz
      let r := fread f r_sz
      let res := (res + r.1.length) % U64
      let buf := writeAt buf ptr r.1
      let ptr := ptr + r_sz
      if r.2.err then
        some (if res = size then MTAR_ESUCCESS else MTAR_EREADFAIL, buf, r.2)
      else file_read_loop size fuel r.2 buf ptr res r_sz
    else some (if res = size then MTAR_ESUCCESS else MTAR_EREADFAIL, buf, f)

/-- Source function `file_read`, with at most `fuel` calls of `fread`. -/
def file_read (fuel : Nat) (f : CFile) (buf : List Nat) (size : Nat) :
    Option (Int × List Nat × CFile) :=
  file_read_loop size fuel f buf 0 0 MTAR_CHUNK_SIZE

/-! ## Vocabulary of the statements on the cursor -/

/-- The read of a record `mtar_read_header` asks of the backend. -/
def rec_read {σ : Type} (B : Backend σ) (tar : mtar_t σ) : Int × List Nat × σ :=
  B.read tar.stream RAW_SIZE

/-- The seek back to the header that follows it. -/
def rec_back {σ : Type} (B : Backend σ) (tar : mtar_t σ) : Int × σ :=
  B.seek (rec_read B tar).2.2 tar.pos

/-- What `mtar_next` decodes: the record read, into its uninitialised header. -/
def next_decode {σ : Type} (B : Backend σ) (u : Indet) (tar : mtar_t σ) : Int × mtar_header_t :=
  raw_to_header u.chksum2 u.h (rec_read B tar).2.1

/-- The header `mtar_write_file_header` and `mtar_write_dir_header` pass on:
the name NUL filled to its array, no link name, no owner, no time. -/
def plain_header (mode size typeflag : Nat) (name : List Nat) : mtar_header_t :=
  { mode := mode, owner := 0, size := size, mtime := 0, typeflag := typeflag,
    name := name ++ List.replicate (100 - name.length) 0, linkname := List.replicate 100 0 }

/-- The stream after `n` writes of one NUL byte. -/
def nul_writes {σ : Type} (B : Backend σ) : Nat → σ → σ
  | 0, st => st
  | n + 1, st => nul_writes B n (B.write st [0]).2

/-- The position after `n` calls of `twrite` with one byte. -/
def pos_after : Nat → Nat → Nat
  | 0, p => p
  | n + 1, p => pos_after n ((p + 1) % U64)

/-- A record with a valid checksum whose size text, the twelve digits of the
size field read on into the ten digits of the mtime field, is
`0o1777777777777777777000 = 2 ^ 64 - 512`. -/
def wrap_record : List Nat :=
  layout [] [48] [48] [49, 55, 55, 55, 55, 55, 55, 55, 55, 55, 55, 55]
    [55, 55, 55, 55, 55, 55, 55, 48, 48, 48] ([48, 48, 51, 48, 53, 55] ++ [0, 32]) 48 []

/-- A record with a valid checksum whose mode field is filled by the eight
digits `00000644`; `o` is the one digit in the owner field and `c6` the
checksum text. -/
def full_mode_record (o : Nat) (c6 : List Nat) : List Nat :=
  layout [] [48, 48, 48, 48, 48, 54, 52, 52] [o] [48] [48] (c6 ++ [0, 32]) 48 []

/-- The stream of an archive of one entry, the file `a` holding the byte 9. -/
def one_entry_archive : List Nat := archive_bytes [([97], [9])]

/-- A record of NUL bytes but for the letter `x` in the first byte of the
checksum field, which so holds no number. -/
def stray_record : List Nat := layout [] [] [] [] [] [120, 0, 0, 0, 0, 0, 0, 0] 0 []

/-! ## Octal text -/

theorem octValue_append (a b : List Nat) :
    octValue (a ++ b) = b.foldl (fun acc d => acc * 8 + (d - 48)) (octValue a) := by
  simp [octValue, List.foldl_append]

theorem octValue_snoc (a : List Nat) (d : Nat) :
    octValue (a ++ [d]) = octValue a * 8 + (d - 48) := by
  simp [octValue_append]

/-- With enough fuel `octDigits` puts a non-empty run of octal digits in front
of the accumulator: at most `k` of them for a value below `8 ^ k`, without a
leading zero unless the value is zero, and of value `n`. -/
theorem octDigits_spec (fuel : Nat) : ∀ (n : Nat) (acc : List Nat) (k : Nat),
    0 < k → k ≤ fuel → n < 8 ^ k →
    ∃ ds : List Nat, octDigits fuel n acc = ds ++ acc ∧ ds ≠ [] ∧ ds.length ≤ k ∧
      (∀ c ∈ ds, 48 ≤ c ∧ c ≤ 55) ∧ octValue ds = n ∧ (ds.head? = some 48 → n = 0) := by
  induction fuel with
  | zero => intro n acc k hk hkf; omega
  | succ fuel ih =>
    intro n acc k hk hkf hn
    by_cases h8 : n / 8 = 0
    · have hlt : n < 8 := by omega
      refine ⟨[48 + n % 8], ?_, by simp, by simpa using hk, ?_, ?_, ?_⟩
      · simp [octDigits, h8]
      · intro c hc
        simp only [List.mem_singleton] at hc
        omega
      · simp [octValue]; omega
      · intro h
        simp at h
        omega
    · have hk2 : 2 ≤ k := by
        by_contra hc
        have : k = 1 := by omega
        subst this
        omega
      have hn8 : n / 8 < 8 ^ (k - 1) := by
        have : 8 ^ k = 8 * 8 ^ (k - 1) := by
          rw [← pow_succ']
          congr 1
          omega
        rw [Nat.div_lt_iff_lt_mul (by norm_num)]
        omega
      obtain ⟨ds, hds, hne, hlen, hdig, hval, hhead⟩ :=
        ih (n / 8) ((48 + n % 8) :: acc) (k - 1) (by omega) (by omega) hn8
      refine ⟨ds ++ [48 + n % 8], ?_, by simp, ?_, ?_, ?_, ?_⟩
      · simp [octDigits, h8, hds]
      · simp; omega
      · intro c hc
        rcases List.mem_append.1 hc with hc | hc
        · exact hdig c hc
        · simp only [List.mem_singleton] at hc
          omega
      · rw [octValue_snoc, hval]
        omega
      · intro h
        have : ds.head? = some 48 := by
          cases ds with
          | nil => exact absurd rfl hne
          | cons d t => simpa using h
        have := hhead this
        omega

/-- What `fmt_o64` gives for a 64-bit value below `8 ^ k`. -/
theorem fmt_o64_spec (v k : Nat) (hk : 0 < k) (hk22 : k ≤ 22) (hv : v < 8 ^ k) (hv64 : v < U64) :
    (fmt_o64 v) ≠ [] ∧ (fmt_o64 v).length ≤ k ∧ (∀ c ∈ fmt_o64 v, 48 ≤ c ∧ c ≤ 55) ∧
      octValue (fmt_o64 v) = v ∧ ((fmt_o64 v).head? = some 48 → v = 0) := by
  obtain ⟨ds, hds, hne, hlen, hdig, hval, hhead⟩ := octDigits_spec 22 v [] k hk hk22 hv
  have hfmt : fmt_o64 v = ds := by
    simp [fmt_o64, Nat.mod_eq_of_lt hv64, hds]
  rw [hfmt]
  exact ⟨hne, hlen, hdig, hval, hhead⟩

theorem octValue_replicate_zero (n : Nat) (ds : List Nat) :
    octValue (List.replicate n 48 ++ ds) = octValue ds := by
  induction n with
  | zero => simp
  | succ n ih =>
    have h0 : octValue (List.replicate (n + 1) 48) = 0 := by
      clear ih
      induction n with
      | zero => simp [octValue]
      | succ n ih2 =>
        rw [List.replicate_succ', octValue_snoc, ih2]
    rw [octValue_append, h0]
    rfl

/-- What `fmt_06o64` gives for a value below `8 ^ 6`: exactly six octal digits
of that value. -/
theorem fmt_06o64_spec (v : Nat) (hv : v < 8 ^ 6) :
    (fmt_06o64 v).length = 6 ∧ (∀ c ∈ fmt_06o64 v, 48 ≤ c ∧ c ≤ 55) ∧
      octValue (fmt_06o64 v) = v := by
  have hv64 : v < U64 := by
    simp only [U64]
    omega
  obtain ⟨hne, hlen, hdig, hval, -⟩ := fmt_o64_spec v 6 (by norm_num) (by norm_num) hv hv64
  refine ⟨?_, ?_, ?_⟩
  · simp [fmt_06o64]
    omega
  · intro c hc
    simp only [fmt_06o64, List.mem_append] at hc
    rcases hc with hc | hc
    · rw [List.mem_replicate] at hc
      omega
    · exact hdig c hc
  · rw [fmt_06o64, octValue_replicate_zero, hval]

/-! ## Scanning octal text -/

theorem takeWhile_isodigit_append (ds t : List Nat) (hdig : ∀ c ∈ ds, 48 ≤ c ∧ c ≤ 55)
    (ht : ∀ c, t.head? = some c → isodigit c = false) :
    (ds ++ t).takeWhile isodigit = ds := by
  induction ds with
  | nil =>
    cases t with
    | nil => rfl
    | cons c t =>
      have := ht c rfl
      simp [List.takeWhile, this]
  | cons d ds ih =>
    have hd := hdig d (List.mem_cons_self _ _)
    have : isodigit d = true := by simp [isodigit, hd.1, hd.2]
    rw [List.cons_append, List.takeWhile_cons_of_pos this,
      ih (fun c hc => hdig c (List.mem_cons_of_mem _ hc))]

/-- A non-empty run of octal digits of 64-bit value, followed by a byte that is
no octal digit (or by nothing), scans as its value. -/
theorem scan_o64_digits (ds t : List Nat) (hne : ds ≠ []) (hdig : ∀ c ∈ ds, 48 ≤ c ∧ c ≤ 55)
    (hv : octValue ds < U64) (ht : ∀ c, t.head? = some c → isodigit c = false) :
    scan_o64 (ds ++ t) = some (octValue ds) := by
  cases ds with
  | nil => exact absurd rfl hne
  | cons d ds' =>
    have hd := hdig d (List.mem_cons_self _ _)
    have hsp : isspace d = false := by
      simp [isspace]
      omega
    have h43 : d ≠ 43 := by omega
    have h45 : d ≠ 45 := by omega
    have htw := takeWhile_isodigit_append (d :: ds') t hdig ht
    simp only [List.cons_append] at htw
    have hdd : isodigit d = true := by simp [isodigit, hd.1, hd.2]
    have hs1 : (d :: (ds' ++ t)).dropWhile isspace = d :: (ds' ++ t) := by
      simp [List.dropWhile, hsp]
    have hsign : (some d == some 43) = false := by simp [h43]
    have hneg : (some d == some 45) = false := by simp [h45]
    simp only [scan_o64, List.cons_append, hs1, List.head?_cons, hsign, hneg,
      Bool.or_self, Bool.false_eq_true, if_false, htw, List.isEmpty_cons, Nat.not_le.2 hv]

theorem sscanf_o64_digits (ds t : List Nat) (old : Nat) (hne : ds ≠ [])
    (hdig : ∀ c ∈ ds, 48 ≤ c ∧ c ≤ 55)
    (hv : octValue ds < U64) (ht : ∀ c, t.head? = some c → isodigit c = false) :
    sscanf_o64 (ds ++ t) old = octValue ds := by
  simp [sscanf_o64, scan_o64_digits ds t hne hdig hv ht]

/-! ## The checksum -/

theorem foldl_add_getD (l : List Nat) (hb : ∀ b ∈ l, b < 256) :
    ∀ (n a acc : Nat), a + n ≤ l.length → acc + 256 * n < U64 →
      (List.range' a n).foldl (fun res i => (res + l.getD i 0) % U64) acc
        = acc + ((l.drop a).take n).sum := by
  intro n
  induction n with
  | zero => intro a acc _ _; simp
  | succ n ih =>
    intro a acc hlen hacc
    have ha : a < l.length := by omega
    have hget : l.getD a 0 = l[a] := by
      simp [List.getD_eq_getElem?_getD, List.getElem?_eq_getElem ha]
    have hlt : l[a] < 256 := hb _ (List.getElem_mem ha)
    have hdrop : l.drop a = l[a] :: l.drop (a + 1) := List.drop_eq_getElem_cons ha
    rw [List.range'_succ, List.foldl_cons, hget, Nat.mod_eq_of_lt (by omega),
      ih (a + 1) (acc + l[a]) (by omega) (by omega), hdrop, List.take_succ_cons, List.sum_cons]
    omega

theorem sum_le_of_bytes (l : List Nat) (hb : ∀ b ∈ l, b < 256) : l.sum ≤ 255 * l.length := by
  induction l with
  | nil => simp
  | cons x t ih =>
    have hx := hb x (List.mem_cons_self _ _)
    have := ih (fun b hm => hb b (List.mem_cons_of_mem _ hm))
    simp only [List.sum_cons, List.length_cons]
    omega

/-- The checksum of a record of 512 bytes is 256 plus the bytes in front of
and behind the checksum field. -/
theorem checksum_eq_sum (r : List Nat) (hlen : r.length = 512) (hb : ∀ b ∈ r, b < 256) :
    checksum r = 256 + ((r.take 148).sum + (r.drop 156).sum) := by
  have h1 := foldl_add_getD r hb 148 0 256 (by omega) (by simp [U64])
  have hs1 : ((r.drop 0).take 148).sum ≤ 255 * 148 := by
    have := sum_le_of_bytes ((r.drop 0).take 148)
      (fun b hm => hb b (List.mem_of_mem_drop (List.mem_of_mem_take hm)))
    simp only [List.length_take, List.length_drop] at this
    omega
  have h2 := foldl_add_getD r hb 356 156 (256 + ((r.drop 0).take 148).sum) (by omega)
    (by simp only [U64]; omega)
  have ht : (r.drop 156).take 356 = r.drop 156 := by
    apply List.take_of_length_le
    simp [hlen]
  simp only [checksum, RAW_SIZE]
  rw [h1, h2, ht]
  simp
  omega

theorem checksum_le (r : List Nat) (hlen : r.length = 512) (hb : ∀ b ∈ r, b < 256) :
    checksum r ≤ 128776 := by
  rw [checksum_eq_sum r hlen hb]
  have h1 := sum_le_of_bytes (r.take 148) (fun b hm => hb b (List.mem_of_mem_take hm))
  have h2 := sum_le_of_bytes (r.drop 156) (fun b hm => hb b (List.mem_of_mem_drop hm))
  simp only [List.length_take, List.length_drop, hlen] at h1 h2
  omega

/-! ## The layout of the encoded record -/

theorem field_length (s : List Nat) (n : Nat) (h : s.length ≤ n) : (field s n).length = n := by
  simp [field]
  omega

theorem drop_eq_of_append (l a b : List Nat) (n : Nat) (h1 : l = a ++ b) (h2 : a.length = n) :
    l.drop n = b := by
  subst h1
  exact List.drop_left' h2

theorem take_eq_of_append (l a b : List Nat) (n : Nat) (h1 : l = a ++ b) (h2 : a.length = n) :
    l.take n = a := by
  subst h1
  exact List.take_left' h2

/-- Printing a text and its terminator into a zero-filled field. -/
theorem writeAt_field (a c s : List Nat) (n off : Nat) (hoff : off = a.length)
    (hs : s.length < n) :
    writeAt (a ++ (List.replicate n 0 ++ c)) off (s ++ [0]) = a ++ (field s n ++ c) := by
  subst hoff
  have h1 : (a ++ (List.replicate n 0 ++ c)).take a.length = a := List.take_left' rfl
  have h2 : (a ++ (List.replicate n 0 ++ c)).drop (a.length + (s ++ [0]).length)
      = List.replicate (n - (s.length + 1)) 0 ++ c := by
    rw [← List.drop_drop, List.drop_left' rfl, List.drop_append_of_le_length (by simp; omega)]
    simp
  have h3 : (0 : Nat) :: List.replicate (n - (s.length + 1)) 0 = List.replicate (n - s.length) 0 := by
    rw [← List.replicate_succ]
    congr 1
    omega
  simp only [writeAt, h1, h2, field, List.append_assoc, List.singleton_append, ← h3]
  rfl

theorem writeAt_skip (p x bs : List Nat) (k off off' : Nat) (hp : p.length = k)
    (ho : off = k + off') :
    writeAt (p ++ x) off bs = p ++ writeAt x off' bs := by
  subst hp ho
  have h1 : (p ++ x).take (p.length + off') = p ++ x.take off' := by
    rw [List.take_append_eq_append_take]
    simp
  have h2 : (p ++ x).drop (p.length + off' + bs.length) = x.drop (off' + bs.length) := by
    rw [Nat.add_assoc, ← List.drop_drop, List.drop_left' rfl]
  simp only [writeAt, h1, h2, List.append_assoc]

theorem set_skip (p x : List Nat) (k off off' v : Nat) (hp : p.length = k)
    (ho : off = k + off') :
    (p ++ x).set off v = p ++ x.set off' v := by
  subst hp ho
  induction p with
  | nil => simp
  | cons y p ih =>
    simp only [List.cons_append, List.length_cons]
    rw [show p.length + 1 + off' = (p.length + off') + 1 by omega, List.set_cons_succ, ih]

theorem writeAt_field0 (c s : List Nat) (n : Nat) (hs : s.length < n) :
    writeAt (List.replicate n 0 ++ c) 0 (s ++ [0]) = field s n ++ c := by
  have := writeAt_field [] c s n 0 rfl hs
  simpa using this

theorem set_at (a c : List Nat) (x v off : Nat) (hoff : off = a.length) :
    (a ++ (x :: c)).set off v = a ++ (v :: c) := by
  subst hoff
  induction a with
  | nil => rfl
  | cons y a ih => simp [ih]

theorem zero_record : List.replicate RAW_SIZE 0 =
    List.replicate 100 0 ++ (List.replicate 8 0 ++ (List.replicate 8 0 ++ (List.replicate 8 0 ++
      (List.replicate 12 0 ++ (List.replicate 12 0 ++ (List.replicate 8 0 ++ ((0 : Nat) ::
        (List.replicate 100 0 ++ List.replicate 255 0)))))))) := by
  simp only [← List.replicate_succ, ← List.replicate_add, RAW_SIZE]

/-- The record in front of the checksum computation, as `header_to_raw` builds
it store by store. -/
theorem header_to_raw_pre (h : mtar_header_t) (hf : FieldsFit h) :
    strcpy (strcpy ((sprintf_o64 (sprintf_o64 (sprintf_o64 (sprintf_o64
      (List.replicate RAW_SIZE 0) 100 h.mode) 108 h.owner) 124 h.size) 136 h.mtime).set 156
        (if h.typeflag ≠ 0 then h.typeflag else MTAR_TREG)) 0 h.name) 157 h.linkname
      = layout_pre h := by
  obtain ⟨hmode, howner, hsize, hmtime, -, -, hname, -, -, hlink, -⟩ := hf
  have h64 : ∀ v, v < 8 ^ 11 → v < U64 := by
    intro v hv
    simp only [U64]
    omega
  have hM := (fmt_o64_spec h.mode 7 (by norm_num) (by norm_num) hmode (h64 _ (by omega))).2.1
  have hO := (fmt_o64_spec h.owner 7 (by norm_num) (by norm_num) howner (h64 _ (by omega))).2.1
  have hS := (fmt_o64_spec h.size 11 (by norm_num) (by norm_num)
    (by simp only [MTAR_FILE_SIZE_MAX] at hsize; omega)
    (h64 _ (by simp only [MTAR_FILE_SIZE_MAX] at hsize; omega))).2.1
  have hT := (fmt_o64_spec h.mtime 11 (by norm_num) (by norm_num) hmtime (h64 _ hmtime)).2.1
  simp only [layout_pre, layout, raw_typeflag, sprintf_o64, strcpy]
  generalize fmt_o64 h.mode = M at hM ⊢
  generalize fmt_o64 h.owner = O at hO ⊢
  generalize fmt_o64 h.size = S at hS ⊢
  generalize fmt_o64 h.mtime = T at hT ⊢
  generalize (if h.typeflag ≠ 0 then h.typeflag else MTAR_TREG) = tf
  have lM := field_length M 8 (by omega)
  have lO := field_length O 8 (by omega)
  have lS := field_length S 12 (by omega)
  have lT := field_length T 12 (by omega)
  have lN := field_length (cstr h.name) 100 (by omega)
  have l100 : (List.replicate 100 (0 : Nat)).length = 100 := List.length_replicate _ _
  have l8 : (List.replicate 8 (0 : Nat)).length = 8 := List.length_replicate _ _
  rw [zero_record]
  -- mode
  rw [writeAt_skip _ _ _ 100 100 0 l100 rfl, writeAt_field0 _ _ _ (by omega)]
  -- owner
  rw [writeAt_skip _ _ _ 100 108 8 l100 rfl, writeAt_skip _ _ _ 8 8 0 lM rfl,
    writeAt_field0 _ _ _ (by omega)]
  -- size
  rw [writeAt_skip _ _ _ 100 124 24 l100 rfl, writeAt_skip _ _ _ 8 24 16 lM rfl,
    writeAt_skip _ _ _ 8 16 8 lO rfl, writeAt_skip _ _ _ 8 8 0 l8 rfl,
    writeAt_field0 _ _ _ (by omega)]
  -- mtime
  rw [writeAt_skip _ _ _ 100 136 36 l100 rfl, writeAt_skip _ _ _ 8 36 28 lM rfl,
    writeAt_skip _ _ _ 8 28 20 lO rfl, writeAt_skip _ _ _ 8 20 12 l8 rfl,
    writeAt_skip _ _ _ 12 12 0 lS rfl, writeAt_field0 _ _ _ (by omega)]
  -- typeflag
  rw [set_skip _ _ 100 156 56 _ l100 rfl, set_skip _ _ 8 56 48 _ lM rfl,
    set_skip _ _ 8 48 40 _ lO rfl, set_skip _ _ 8 40 32 _ l8 rfl,
    set_skip _ _ 12 32 20 _ lS rfl, set_skip _ _ 12 20 8 _ lT rfl,
    set_skip _ _ 8 8 0 _ l8 rfl, List.set_cons_zero]
  -- name
  rw [writeAt_field0 _ _ _ (by omega)]
  -- linkname
  rw [writeAt_skip _ _ _ 100 157 57 lN rfl, writeAt_skip _ _ _ 8 57 49 lM rfl,
    writeAt_skip _ _ _ 8 49 41 lO rfl, writeAt_skip _ _ _ 8 41 33 l8 rfl,
    writeAt_skip _ _ _ 12 33 21 lS rfl, writeAt_skip _ _ _ 12 21 9 lT rfl,
    writeAt_skip _ _ _ 8 9 1 l8 rfl,
    show tf :: (List.replicate 100 0 ++ List.replicate 255 0)
      = [tf] ++ (List.replicate 100 0 ++ List.replicate 255 0) from rfl,
    writeAt_skip [tf] _ _ 1 1 0 rfl rfl, writeAt_field0 _ _ _ (by omega)]
  rfl

theorem layout_length (n m o s t c l : List Nat) (tf : Nat) (hn : n.length ≤ 100)
    (hm : m.length ≤ 8) (ho : o.length ≤ 8) (hs : s.length ≤ 12) (ht : t.length ≤ 12)
    (hc : c.length = 8) (hl : l.length ≤ 100) : (layout n m o s t c tf l).length = 512 := by
  simp only [layout, List.length_append, List.length_cons, List.length_replicate,
    field_length n 100 hn, field_length m 8 hm, field_length o 8 ho, field_length s 12 hs,
    field_length t 12 ht, field_length l 100 hl, hc]

theorem field_bytes (s : List Nat) (n : Nat) (hs : ∀ b ∈ s, b < 256) : ∀ b ∈ field s n, b < 256 := by
  intro b hb
  simp only [field, List.mem_append, List.mem_replicate] at hb
  rcases hb with hb | hb
  · exact hs b hb
  · omega

theorem layout_bytes (n m o s t c l : List Nat) (tf : Nat) (hn : ∀ b ∈ n, b < 256)
    (hm : ∀ b ∈ m, b < 256) (ho : ∀ b ∈ o, b < 256) (hs : ∀ b ∈ s, b < 256)
    (ht : ∀ b ∈ t, b < 256) (hc : ∀ b ∈ c, b < 256) (htf : tf < 256) (hl : ∀ b ∈ l, b < 256) :
    ∀ b ∈ layout n m o s t c tf l, b < 256 := by
  intro b hb
  simp only [layout, List.mem_append, List.mem_cons, List.mem_replicate] at hb
  rcases hb with hb | hb | hb | hb | hb | hb | hb | hb | hb | hb
  · exact field_bytes n 100 hn b hb
  · exact field_bytes m 8 hm b hb
  · exact field_bytes o 8 ho b hb
  · omega
  · exact field_bytes s 12 hs b hb
  · exact field_bytes t 12 ht b hb
  · exact hc b hb
  · omega
  · exact field_bytes l 100 hl b hb
  · omega

theorem cstr_bytes (s : List Nat) (hs : ∀ b ∈ s, b < 256) : ∀ b ∈ cstr s, b < 256 :=
  fun b hb => hs b ((List.takeWhile_sublist _).subset hb)

theorem cstr_nul_free (s : List Nat) : ∀ b ∈ cstr s, b ≠ 0 := by
  intro b hb
  have := List.mem_takeWhile_imp hb
  simpa using this

theorem raw_typeflag_lt (h : mtar_header_t) (hf : FieldsFit h) : raw_typeflag h < 256 := by
  have := hf.2.2.2.2.1
  simp only [raw_typeflag, MTAR_TREG]
  split <;> omega

/-- Digits, lengths and values of the four numeric texts of a header that fits. -/
theorem fmt_fields (h : mtar_header_t) (hf : FieldsFit h) :
    (∀ v ∈ [h.mode, h.owner], fmt_o64 v ≠ [] ∧ (fmt_o64 v).length ≤ 7 ∧
      (∀ c ∈ fmt_o64 v, 48 ≤ c ∧ c ≤ 55) ∧ octValue (fmt_o64 v) = v ∧ v < U64) ∧
    (∀ v ∈ [h.size, h.mtime], fmt_o64 v ≠ [] ∧ (fmt_o64 v).length ≤ 11 ∧
      (∀ c ∈ fmt_o64 v, 48 ≤ c ∧ c ≤ 55) ∧ octValue (fmt_o64 v) = v ∧ v < U64) := by
  obtain ⟨hmode, howner, hsize, hmtime, -⟩ := hf
  simp only [MTAR_FILE_SIZE_MAX] at hsize
  have h64 : ∀ v, v < 8 ^ 11 → v < U64 := by
    intro v hv
    simp only [U64]
    omega
  constructor
  · intro v hv
    have hv7 : v < 8 ^ 7 := by
      simp only [List.mem_cons, List.mem_singleton, List.not_mem_nil, or_false] at hv
      rcases hv with rfl | rfl <;> assumption
    have h := fmt_o64_spec v 7 (by norm_num) (by norm_num) hv7 (h64 _ (by omega))
    exact ⟨h.1, h.2.1, h.2.2.1, h.2.2.2.1, h64 _ (by omega)⟩
  · intro v hv
    have hv11 : v < 8 ^ 11 := by
      simp only [List.mem_cons, List.mem_singleton, List.not_mem_nil, or_false] at hv
      rcases hv with rfl | rfl
      · omega
      · assumption
    have h := fmt_o64_spec v 11 (by norm_num) (by norm_num) hv11 (h64 _ hv11)
    exact ⟨h.1, h.2.1, h.2.2.1, h.2.2.2.1, h64 _ hv11⟩

theorem digits_bytes (ds : List Nat) (h : ∀ c ∈ ds, 48 ≤ c ∧ c ≤ 55) : ∀ b ∈ ds, b < 256 := by
  intro b hb
  have := h b hb
  omega

theorem layout_pre_length (h : mtar_header_t) (hf : FieldsFit h) : (layout_pre h).length = 512 := by
  obtain ⟨h7, h11⟩ := fmt_fields h hf
  have hM := (h7 h.mode (by simp)).2.1
  have hO := (h7 h.owner (by simp)).2.1
  have hS := (h11 h.size (by simp)).2.1
  have hT := (h11 h.mtime (by simp)).2.1
  have hn := hf.2.2.2.2.2.2.1
  have hl := hf.2.2.2.2.2.2.2.2.2.1
  exact layout_length _ _ _ _ _ _ _ _ (by omega) (by omega) (by omega) (by omega) (by omega)
    (by simp) (by omega)

theorem layout_pre_bytes (h : mtar_header_t) (hf : FieldsFit h) : ∀ b ∈ layout_pre h, b < 256 := by
  obtain ⟨h7, h11⟩ := fmt_fields h hf
  exact layout_bytes _ _ _ _ _ _ _ _ (cstr_bytes _ hf.2.2.2.2.2.2.2.1)
    (digits_bytes _ (h7 h.mode (by simp)).2.2.1) (digits_bytes _ (h7 h.owner (by simp)).2.2.1)
    (digits_bytes _ (h11 h.size (by simp)).2.2.1) (digits_bytes _ (h11 h.mtime (by simp)).2.2.1)
    (by intro b hb; rw [List.mem_replicate] at hb; omega) (raw_typeflag_lt h hf)
    (cstr_bytes _ hf.2.2.2.2.2.2.2.2.2.2)

theorem checksum_pre_lt (h : mtar_header_t) (hf : FieldsFit h) :
    checksum (layout_pre h) < 8 ^ 6 := by
  have := checksum_le _ (layout_pre_length h hf) (layout_pre_bytes h hf)
  omega

/-- The record `header_to_raw` returns for a header that fits, field by field. -/
theorem header_to_raw_eq_layout (h : mtar_header_t) (hf : FieldsFit h) :
    header_to_raw h = layout_full h := by
  have hpre := header_to_raw_pre h hf
  obtain ⟨hlen6, -, -⟩ := fmt_06o64_spec _ (checksum_pre_lt h hf)
  simp only [header_to_raw]
  rw [hpre]
  simp only [layout_full]
  generalize checksum (layout_pre h) = c at hlen6 ⊢
  obtain ⟨h7, h11⟩ := fmt_fields h hf
  have lM := field_length _ 8 (show (fmt_o64 h.mode).length ≤ 8 by
    have := (h7 h.mode (by simp)).2.1; omega)
  have lO := field_length _ 8 (show (fmt_o64 h.owner).length ≤ 8 by
    have := (h7 h.owner (by simp)).2.1; omega)
  have lS := field_length _ 12 (show (fmt_o64 h.size).length ≤ 12 by
    have := (h11 h.size (by simp)).2.1; omega)
  have lT := field_length _ 12 (show (fmt_o64 h.mtime).length ≤ 12 by
    have := (h11 h.mtime (by simp)).2.1; omega)
  have lN := field_length (cstr h.name) 100 (by have := hf.2.2.2.2.2.2.1; omega)
  have l8 : (List.replicate 8 (0 : Nat)).length = 8 := List.length_replicate _ _
  have l7 : (fmt_06o64 c ++ [0]).length = 7 := by simp [hlen6]
  simp only [layout_pre, layout, sprintf_06o64]
  rw [writeAt_skip _ _ _ 100 148 48 lN rfl, writeAt_skip _ _ _ 8 48 40 lM rfl,
    writeAt_skip _ _ _ 8 40 32 lO rfl, writeAt_skip _ _ _ 8 32 24 l8 rfl,
    writeAt_skip _ _ _ 12 24 12 lS rfl, writeAt_skip _ _ _ 12 12 0 lT rfl,
    writeAt_field0 _ _ _ (by omega)]
  rw [set_skip _ _ 100 155 55 _ lN rfl, set_skip _ _ 8 55 47 _ lM rfl,
    set_skip _ _ 8 47 39 _ lO rfl, set_skip _ _ 8 39 31 _ l8 rfl,
    set_skip _ _ 12 31 19 _ lS rfl, set_skip _ _ 12 19 7 _ lT rfl]
  have hfield : field (fmt_06o64 c) 8 = (fmt_06o64 c ++ [0]) ++ [0] := by
    simp [field, hlen6, List.replicate]
  rw [hfield, List.append_assoc (fmt_06o64 c ++ [0]), set_skip _ _ 7 7 0 _ l7 rfl]
  simp only [List.singleton_append, List.cons_append, List.nil_append, List.set_cons_zero,
    List.append_assoc]

/-! ## Decoding -/

theorem getD_of_drop (r t : List Nat) (i d : Nat) (h : r.drop i = d :: t) : r.getD i 0 = d := by
  have h1 : (r.drop i)[0]? = some d := by rw [h]; simp
  rw [List.getElem?_drop] at h1
  simp only [Nat.add_zero] at h1
  simp [List.getD_eq_getElem?_getD, h1]

theorem not_isodigit_head_zero (t : List Nat) :
    ∀ c, ((0 : Nat) :: t).head? = some c → isodigit c = false := by
  intro c hc
  simp only [List.head?_cons, Option.some.injEq] at hc
  subst hc
  rfl

theorem cstr_nil : cstr [] = [] := rfl

theorem cstr_cons (x : Nat) (s : List Nat) :
    cstr (x :: s) = if x = 0 then [] else x :: cstr s := by
  by_cases hx : x = 0 <;> simp [cstr, List.takeWhile_cons, hx]

theorem cstr_append_zero (s t : List Nat) (hs : ∀ b ∈ s, b ≠ 0) : cstr (s ++ 0 :: t) = s := by
  induction s with
  | nil => simp [cstr_cons]
  | cons x s ih =>
    have hx := hs x (List.mem_cons_self _ _)
    rw [List.cons_append, cstr_cons, if_neg hx, ih (fun b hb => hs b (List.mem_cons_of_mem _ hb))]

theorem cstr_eq_self (s : List Nat) (hs : ∀ b ∈ s, b ≠ 0) : cstr s = s := by
  induction s with
  | nil => rfl
  | cons x s ih =>
    have hx := hs x (List.mem_cons_self _ _)
    rw [cstr_cons, if_neg hx, ih (fun b hb => hs b (List.mem_cons_of_mem _ hb))]

theorem cstr_cstr (s : List Nat) : cstr (cstr s) = cstr s :=
  cstr_eq_self _ (cstr_nul_free s)

theorem cstr_field (s : List Nat) (n : Nat) (hs : ∀ b ∈ s, b ≠ 0) : cstr (field s n) = s := by
  rcases Nat.eq_zero_or_pos (n - s.length) with h | h
  · simp only [field, h, List.replicate_zero, List.append_nil]
    exact cstr_eq_self s hs
  · obtain ⟨k, hk⟩ := Nat.exists_eq_succ_of_ne_zero (Nat.pos_iff_ne_zero.1 h)
    simp only [field, hk, List.replicate_succ]
    exact cstr_append_zero s _ hs

/-- The string in a field of 100 bytes comes back from `strncpy` as the field. -/
theorem strncpy_field (s rest : List Nat) (hs : ∀ b ∈ s, b ≠ 0) (hlen : s.length ≤ 100) :
    strncpy (field s 100 ++ rest) 100 = field s 100 := by
  have h1 : (field s 100 ++ rest).take 100 = field s 100 :=
    List.take_left' (field_length s 100 hlen)
  simp only [strncpy, h1, cstr_field s 100 hs]
  rfl

/-- A record whose checksum field holds a run of octal digits and a terminator
is rejected when the run is not its checksum. -/
theorem raw_to_header_bad (u : Nat) (h0 : mtar_header_t) (r c6 rest : List Nat)
    (hdrop : r.drop 148 = c6 ++ 0 :: rest) (hne : c6 ≠ [])
    (hdig : ∀ c ∈ c6, 48 ≤ c ∧ c ≤ 55) (hv : octValue c6 < U64)
    (hsum : checksum r ≠ octValue c6) :
    raw_to_header u h0 r = (MTAR_EBADCHKSUM, h0) := by
  obtain ⟨d, c6', rfl⟩ := List.exists_cons_of_ne_nil hne
  have hd := hdig d (List.mem_cons_self _ _)
  have hget : r.getD 148 0 = d := getD_of_drop r _ 148 d (by simpa using hdrop)
  have hscan := sscanf_o64_digits (d :: c6') (0 :: rest) u hne hdig hv (not_isodigit_head_zero _)
  simp only [raw_to_header, hget, hdrop, hscan]
  rw [if_neg (by omega), if_pos hsum]

theorem field_zero_tail (s rest : List Nat) (n : Nat) (h : s.length < n) :
    ∃ X, field s n ++ rest = s ++ 0 :: X := by
  obtain ⟨k, hk⟩ := Nat.exists_eq_succ_of_ne_zero (show n - s.length ≠ 0 by omega)
  exact ⟨List.replicate k 0 ++ rest, by simp [field, hk, List.replicate_succ]⟩

/-- Where the fields of a laid-out record start. -/
theorem layout_drops (n m o s t c l : List Nat) (tf : Nat) (hn : n.length ≤ 100)
    (hm : m.length ≤ 8) (ho : o.length ≤ 8) (hs : s.length ≤ 12) (ht : t.length ≤ 12)
    (hc : c.length = 8) :
    (layout n m o s t c tf l).drop 100 = field m 8 ++ (field o 8 ++ (List.replicate 8 0 ++
        (field s 12 ++ (field t 12 ++ (c ++ (tf :: (field l 100 ++ List.replicate 255 0))))))) ∧
    (layout n m o s t c tf l).drop 108 = field o 8 ++ (List.replicate 8 0 ++
        (field s 12 ++ (field t 12 ++ (c ++ (tf :: (field l 100 ++ List.replicate 255 0)))))) ∧
    (layout n m o s t c tf l).drop 124 =
        field s 12 ++ (field t 12 ++ (c ++ (tf :: (field l 100 ++ List.replicate 255 0)))) ∧
    (layout n m o s t c tf l).drop 136 =
        field t 12 ++ (c ++ (tf :: (field l 100 ++ List.replicate 255 0))) ∧
    (layout n m o s t c tf l).drop 148 = c ++ (tf :: (field l 100 ++ List.replicate 255 0)) ∧
    (layout n m o s t c tf l).drop 156 = tf :: (field l 100 ++ List.replicate 255 0) ∧
    (layout n m o s t c tf l).drop 157 = field l 100 ++ List.replicate 255 0 ∧
    (layout n m o s t c tf l).take 148 = field n 100 ++ (field m 8 ++ (field o 8 ++
        (List.replicate 8 0 ++ (field s 12 ++ field t 12)))) := by
  have lN := field_length n 100 hn
  have lM := field_length m 8 hm
  have lO := field_length o 8 ho
  have lS := field_length s 12 hs
  have lT := field_length t 12 ht
  refine ⟨?_, ?_, ?_, ?_, ?_, ?_, ?_, ?_⟩
  · exact drop_eq_of_append _ (field n 100) _ 100 rfl lN
  · exact drop_eq_of_append _ (field n 100 ++ field m 8) _ 108
      (by simp only [layout, List.append_assoc]) (by simp [lN, lM])
  · exact drop_eq_of_append _ (field n 100 ++ (field m 8 ++ (field o 8 ++ List.replicate 8 0))) _ 124
      (by simp only [layout, List.append_assoc]) (by simp [lN, lM, lO])
  · exact drop_eq_of_append _
      (field n 100 ++ (field m 8 ++ (field o 8 ++ (List.replicate 8 0 ++ field s 12)))) _ 136
      (by simp only [layout, List.append_assoc]) (by simp [lN, lM, lO, lS])
  · exact drop_eq_of_append _ (field n 100 ++ (field m 8 ++ (field o 8 ++ (List.replicate 8 0 ++
      (field s 12 ++ field t 12))))) _ 148
      (by simp only [layout, List.append_assoc]) (by simp [lN, lM, lO, lS, lT])
  · exact drop_eq_of_append _ (field n 100 ++ (field m 8 ++ (field o 8 ++ (List.replicate 8 0 ++
      (field s 12 ++ (field t 12 ++ c)))))) _ 156
      (by simp only [layout, List.append_assoc]) (by simp [lN, lM, lO, lS, lT, hc])
  · exact drop_eq_of_append _ (field n 100 ++ (field m 8 ++ (field o 8 ++ (List.replicate 8 0 ++
      (field s 12 ++ (field t 12 ++ (c ++ [tf]))))))) _ 157
      (by simp only [layout, List.append_assoc, List.singleton_append])
      (by simp [lN, lM, lO, lS, lT, hc])
  · exact take_eq_of_append _ _ (c ++ (tf :: (field l 100 ++ List.replicate 255 0))) 148
      (by simp only [layout, List.append_assoc]) (by simp [lN, lM, lO, lS, lT])

/-- Decoding a record laid out field by field whose checksum text is right. -/
theorem raw_to_header_layout (u : Nat) (h0 : mtar_header_t) (n m o s t c6 l : List Nat)
    (tf : Nat) (hn : n.length ≤ 100) (hn0 : ∀ b ∈ n, b ≠ 0)
    (hm : m ≠ [] ∧ m.length ≤ 7 ∧ (∀ c ∈ m, 48 ≤ c ∧ c ≤ 55) ∧ octValue m < U64)
    (ho : o ≠ [] ∧ o.length ≤ 7 ∧ (∀ c ∈ o, 48 ≤ c ∧ c ≤ 55) ∧ octValue o < U64)
    (hs : s ≠ [] ∧ s.length ≤ 11 ∧ (∀ c ∈ s, 48 ≤ c ∧ c ≤ 55) ∧ octValue s < U64)
    (ht : t ≠ [] ∧ t.length ≤ 11 ∧ (∀ c ∈ t, 48 ≤ c ∧ c ≤ 55) ∧ octValue t < U64)
    (hc : c6.length = 6 ∧ (∀ c ∈ c6, 48 ≤ c ∧ c ≤ 55) ∧ octValue c6 < U64)
    (hl : l.length ≤ 100) (hl0 : ∀ b ∈ l, b ≠ 0)
    (hsum : checksum (layout n m o s t (c6 ++ [0, 32]) tf l) = octValue c6) :
    raw_to_header u h0 (layout n m o s t (c6 ++ [0, 32]) tf l) =
      (MTAR_ESUCCESS,
        { mode := octValue m, owner := octValue o, size := octValue s, mtime := octValue t,
          typeflag := tf, name := field n 100, linkname := field l 100 }) := by
  obtain ⟨h100, h108, h124, h136, h148, h156, h157, -⟩ :=
    layout_drops n m o s t (c6 ++ [0, 32]) l tf hn (by omega) (by omega) (by omega) (by omega)
      (by simp [hc.1])
  have hname : strncpy (layout n m o s t (c6 ++ [0, 32]) tf l) 100 = field n 100 :=
    strncpy_field n _ hn0 hn
  generalize layout n m o s t (c6 ++ [0, 32]) tf l = R at *
  have hc6ne : c6 ≠ [] := by
    intro h
    rw [h] at hc
    simp at hc
  obtain ⟨d, c6', hc6⟩ := List.exists_cons_of_ne_nil hc6ne
  have hd := hc.2.1 d (by rw [hc6]; exact List.mem_cons_self _ _)
  have hget : R.getD 148 0 = d := getD_of_drop R _ 148 d (by rw [h148, hc6]; rfl)
  have hgettf : R.getD 156 0 = tf := getD_of_drop R _ 156 tf h156
  have e148 : R.drop 148 = c6 ++ 0 :: (32 :: tf :: (field l 100 ++ List.replicate 255 0)) := by
    rw [h148]
    simp only [List.append_assoc, List.cons_append, List.nil_append]
  have sc := sscanf_o64_digits c6 _ u hc6ne hc.2.1 hc.2.2 (not_isodigit_head_zero
    (32 :: tf :: (field l 100 ++ List.replicate 255 0)))
  obtain ⟨Xm, hXm⟩ := field_zero_tail m (field o 8 ++ (List.replicate 8 0 ++
    (field s 12 ++ (field t 12 ++ (c6 ++ [0, 32] ++ (tf :: (field l 100 ++
      List.replicate 255 0))))))) 8 (by omega)
  obtain ⟨Xo, hXo⟩ := field_zero_tail o (List.replicate 8 0 ++
    (field s 12 ++ (field t 12 ++ (c6 ++ [0, 32] ++ (tf :: (field l 100 ++
      List.replicate 255 0)))))) 8 (by omega)
  obtain ⟨Xs, hXs⟩ := field_zero_tail s (field t 12 ++ (c6 ++ [0, 32] ++ (tf :: (field l 100 ++
      List.replicate 255 0)))) 12 (by omega)
  obtain ⟨Xt, hXt⟩ := field_zero_tail t (c6 ++ [0, 32] ++ (tf :: (field l 100 ++
      List.replicate 255 0))) 12 (by omega)
  have sm := sscanf_o64_digits m (0 :: Xm) h0.mode hm.1 hm.2.2.1 hm.2.2.2 (not_isodigit_head_zero _)
  have so := sscanf_o64_digits o (0 :: Xo) h0.owner ho.1 ho.2.2.1 ho.2.2.2
    (not_isodigit_head_zero _)
  have ss := sscanf_o64_digits s (0 :: Xs) h0.size hs.1 hs.2.2.1 hs.2.2.2 (not_isodigit_head_zero _)
  have st := sscanf_o64_digits t (0 :: Xt) h0.mtime ht.1 ht.2.2.1 ht.2.2.2
    (not_isodigit_head_zero _)
  have hlink : strncpy (R.drop 157) 100 = field l 100 := by
    rw [h157]
    exact strncpy_field l _ hl0 hl
  simp only [raw_to_header, hget, hgettf, hsum, hlink, hname]
  rw [e148, sc, h100, hXm, sm, h108, hXo, so, h124, hXs, ss, h136, hXt, st]
  rw [if_neg (by omega), if_neg (by simp)]

/-! ## Encoding, then decoding -/

/-- The checksum of a laid-out record does not depend on its checksum field. -/
theorem checksum_layout (n m o s t c l : List Nat) (tf : Nat) (hn : n.length ≤ 100)
    (hm : m.length ≤ 8) (ho : o.length ≤ 8) (hs : s.length ≤ 12) (ht : t.length ≤ 12)
    (hc : c.length = 8) (hl : l.length ≤ 100)
    (hb : ∀ b ∈ layout n m o s t c tf l, b < 256) :
    checksum (layout n m o s t c tf l) =
      256 + ((field n 100 ++ (field m 8 ++ (field o 8 ++
        (List.replicate 8 0 ++ (field s 12 ++ field t 12))))).sum +
          (tf :: (field l 100 ++ List.replicate 255 0)).sum) := by
  obtain ⟨-, -, -, -, -, h156, -, h148⟩ := layout_drops n m o s t c l tf hn hm ho hs ht hc
  rw [checksum_eq_sum _ (layout_length n m o s t c l tf hn hm ho hs ht hc hl) hb, h156, h148]

theorem layout_full_bytes (h : mtar_header_t) (hf : FieldsFit h) :
    ∀ b ∈ layout_full h, b < 256 := by
  obtain ⟨h7, h11⟩ := fmt_fields h hf
  obtain ⟨-, hdig, -⟩ := fmt_06o64_spec _ (checksum_pre_lt h hf)
  refine layout_bytes _ _ _ _ _ _ _ _ (cstr_bytes _ hf.2.2.2.2.2.2.2.1)
    (digits_bytes _ (h7 h.mode (by simp)).2.2.1) (digits_bytes _ (h7 h.owner (by simp)).2.2.1)
    (digits_bytes _ (h11 h.size (by simp)).2.2.1) (digits_bytes _ (h11 h.mtime (by simp)).2.2.1)
    ?_ (raw_typeflag_lt h hf) (cstr_bytes _ hf.2.2.2.2.2.2.2.2.2.2)
  intro b hb
  simp only [List.mem_append, List.mem_cons, List.mem_singleton, List.not_mem_nil, or_false] at hb
  rcases hb with hb | hb | hb
  · exact digits_bytes _ hdig b hb
  · omega
  · omega

theorem layout_full_length (h : mtar_header_t) (hf : FieldsFit h) :
    (layout_full h).length = 512 := by
  obtain ⟨h7, h11⟩ := fmt_fields h hf
  obtain ⟨hlen6, -, -⟩ := fmt_06o64_spec _ (checksum_pre_lt h hf)
  have hM := (h7 h.mode (by simp)).2.1
  have hO := (h7 h.owner (by simp)).2.1
  have hS := (h11 h.size (by simp)).2.1
  have hT := (h11 h.mtime (by simp)).2.1
  have hn := hf.2.2.2.2.2.2.1
  have hl := hf.2.2.2.2.2.2.2.2.2.1
  exact layout_length _ _ _ _ _ _ _ _ (by omega) (by omega) (by omega) (by omega) (by omega)
    (by simp [hlen6]) (by omega)

/-- Writing the checksum text leaves the checksum as it was. -/
theorem checksum_layout_full (h : mtar_header_t) (hf : FieldsFit h) :
    checksum (layout_full h) = checksum (layout_pre h) := by
  obtain ⟨h7, h11⟩ := fmt_fields h hf
  obtain ⟨hlen6, -, -⟩ := fmt_06o64_spec _ (checksum_pre_lt h hf)
  have hM := (h7 h.mode (by simp)).2.1
  have hO := (h7 h.owner (by simp)).2.1
  have hS := (h11 h.size (by simp)).2.1
  have hT := (h11 h.mtime (by simp)).2.1
  have hn := hf.2.2.2.2.2.2.1
  have hl := hf.2.2.2.2.2.2.2.2.2.1
  have e1 := checksum_layout (cstr h.name) (fmt_o64 h.mode) (fmt_o64 h.owner) (fmt_o64 h.size)
    (fmt_o64 h.mtime) (fmt_06o64 (checksum (layout_pre h)) ++ [0, 32]) (cstr h.linkname)
    (raw_typeflag h) (by omega) (by omega) (by omega) (by omega) (by omega) (by simp [hlen6])
    (by omega) (layout_full_bytes h hf)
  have e2 := checksum_layout (cstr h.name) (fmt_o64 h.mode) (fmt_o64 h.owner) (fmt_o64 h.size)
    (fmt_o64 h.mtime) (List.replicate 8 0) (cstr h.linkname)
    (raw_typeflag h) (by omega) (by omega) (by omega) (by omega) (by omega) (by simp)
    (by omega) (layout_pre_bytes h hf)
  simp only [layout_full, layout_pre] at e1 e2 ⊢
  rw [e1, e2]

/-- Decoding the record of a header that fits succeeds and gives the header
back, the strings NUL padded to their arrays. -/
theorem raw_to_header_header_to_raw (u : Nat) (h0 h : mtar_header_t) (hf : FieldsFit h) :
    raw_to_header u h0 (header_to_raw h) = (MTAR_ESUCCESS, decoded h) := by
  obtain ⟨h7, h11⟩ := fmt_fields h hf
  obtain ⟨hlen6, hdig6, hval6⟩ := fmt_06o64_spec _ (checksum_pre_lt h hf)
  have hM := h7 h.mode (by simp)
  have hO := h7 h.owner (by simp)
  have hS := h11 h.size (by simp)
  have hT := h11 h.mtime (by simp)
  have hn := hf.2.2.2.2.2.2.1
  have hl := hf.2.2.2.2.2.2.2.2.2.1
  have hc64 : checksum (layout_pre h) < U64 := by
    have := checksum_pre_lt h hf
    simp only [U64]
    omega
  have key := raw_to_header_layout u h0 (cstr h.name) (fmt_o64 h.mode) (fmt_o64 h.owner)
    (fmt_o64 h.size) (fmt_o64 h.mtime) (fmt_06o64 (checksum (layout_pre h))) (cstr h.linkname)
    (raw_typeflag h) (by omega) (cstr_nul_free _)
    ⟨hM.1, hM.2.1, hM.2.2.1, by rw [hM.2.2.2.1]; exact hM.2.2.2.2⟩
    ⟨hO.1, hO.2.1, hO.2.2.1, by rw [hO.2.2.2.1]; exact hO.2.2.2.2⟩
    ⟨hS.1, hS.2.1, hS.2.2.1, by rw [hS.2.2.2.1]; exact hS.2.2.2.2⟩
    ⟨hT.1, hT.2.1, hT.2.2.1, by rw [hT.2.2.2.1]; exact hT.2.2.2.2⟩
    ⟨hlen6, hdig6, by rw [hval6]; exact hc64⟩ (by omega) (cstr_nul_free _)
    (by rw [hval6]; exact checksum_layout_full h hf)
  rw [header_to_raw_eq_layout h hf]
  simp only [layout_full, decoded]
  rw [key, hM.2.2.2.1, hO.2.2.2.1, hS.2.2.2.1, hT.2.2.2.1]

/-! ## The in-memory backend -/

theorem memStore_memStore (d a b : List Nat) (o : Nat) :
    memStore (memStore d o a) (o + a.length) b = memStore d o (a ++ b) := by
  have hP : (d.take o ++ List.replicate (o - d.length) 0).length = o := by
    simp only [List.length_append, List.length_take, List.length_replicate]
    omega
  generalize hPd : d.take o ++ List.replicate (o - d.length) 0 = P at hP
  have e1 : memStore d o a = (P ++ a) ++ d.drop (o + a.length) := by
    simp only [memStore, hPd]
  have hlen : (P ++ a).length = o + a.length := by simp [hP]
  have e2 : ((P ++ a) ++ d.drop (o + a.length)).take (o + a.length) = P ++ a :=
    List.take_left' hlen
  have e3 : ((P ++ a) ++ d.drop (o + a.length)).drop (o + a.length + b.length)
      = d.drop (o + (a ++ b).length) := by
    rw [← List.drop_drop, List.drop_left' hlen, List.drop_drop, List.length_append]
    congr 1
    omega
  have e4 : o + a.length - ((P ++ a) ++ d.drop (o + a.length)).length = 0 := by
    simp only [List.length_append, hP]
    omega
  have e5 : memStore d o (a ++ b) = P ++ (a ++ b) ++ d.drop (o + (a ++ b).length) := by
    simp only [memStore, hPd]
  rw [e1, e5]
  unfold memStore
  rw [e2, e3, e4]
  simp only [List.replicate_zero, List.append_nil, List.append_assoc]

theorem memStore_end (d bs : List Nat) : memStore d d.length bs = d ++ bs := by
  simp [memStore]

theorem memStore_length (d bs : List Nat) (o : Nat) :
    (memStore d o bs).length = max d.length (o + bs.length) := by
  simp only [memStore, List.length_append, List.length_take, List.length_replicate,
    List.length_drop]
  omega

theorem twrite_mem (tar : mtar_t MemStream) (bs : List Nat) (h : bs.length ≤ MTAR_FILE_SIZE_MAX) :
    twrite memBackend tar bs = (MTAR_ESUCCESS,
      { tar with
        stream := { data := memStore tar.stream.data tar.stream.off bs,
                    off := tar.stream.off + bs.length }
        pos := (tar.pos + bs.length) % U64 }) := by
  simp [twrite, memBackend, Nat.not_lt.2 h]

/-- On the in-memory backend `write_null_loop` stores `n + 1` NUL bytes. -/
theorem write_null_loop_mem (n : Nat) : ∀ (d : List Nat) (o p rem lh : Nat),
    write_null_loop memBackend (n + 1) ⟨⟨d, o⟩, p, rem, lh⟩ = (MTAR_ESUCCESS,
      ⟨⟨memStore d o (List.replicate (n + 1) 0), o + (n + 1)⟩, (p + (n + 1)) % U64, rem, lh⟩)
        := by
  induction n with
  | zero =>
    intro d o p rem lh
    have h1 := twrite_mem ⟨⟨d, o⟩, p, rem, lh⟩ [0] (by simp [MTAR_FILE_SIZE_MAX])
    simp only [write_null_loop, h1]
    simp [MTAR_ESUCCESS]
  | succ n ih =>
    intro d o p rem lh
    have h1 := twrite_mem ⟨⟨d, o⟩, p, rem, lh⟩ [0] (by simp [MTAR_FILE_SIZE_MAX])
    rw [write_null_loop, h1]
    simp only [MTAR_ESUCCESS, ne_eq, not_true_eq_false, if_false, List.length_singleton]
    rw [ih]
    have hm := memStore_memStore d [0] (List.replicate (n + 1) 0) o
    simp only [List.length_singleton] at hm
    rw [hm]
    have hr : [0] ++ List.replicate (n + 1) 0 = List.replicate (n + 1 + 1) 0 := by
      rw [List.replicate_succ (n := n + 1)]
      rfl
    have hp : ((p + 1) % U64 + (n + 1)) % U64 = (p + (n + 1 + 1)) % U64 := by
      rw [Nat.mod_add_mod]
      congr 1
      omega
    rw [hr, hp, show o + 1 + (n + 1) = o + (n + 1 + 1) by omega]
    rfl

/-- The same, for any count, where the offset lies inside the buffer. -/
theorem write_null_loop_mem_le (n : Nat) (d : List Nat) (o p rem lh : Nat) (ho : o ≤ d.length)
    (hp : p < U64) :
    write_null_loop memBackend n ⟨⟨d, o⟩, p, rem, lh⟩ = (MTAR_ESUCCESS,
      ⟨⟨memStore d o (List.replicate n 0), o + n⟩, (p + n) % U64, rem, lh⟩) := by
  cases n with
  | zero =>
    have : memStore d o [] = d := by
      simp [memStore, Nat.sub_eq_zero_of_le ho]
    simp [write_null_loop, this, Nat.mod_eq_of_lt hp]
  | succ n => exact write_null_loop_mem n d o p rem lh

/-! ## The write path on the in-memory backend -/

theorem writeAt_length_ge (buf bs : List Nat) (off : Nat) :
    buf.length ≤ (writeAt buf off bs).length := by
  simp only [writeAt, List.length_append, List.length_take, List.length_drop]
  omega

theorem header_to_raw_length_ge (h : mtar_header_t) : RAW_SIZE ≤ (header_to_raw h).length := by
  simp only [header_to_raw, sprintf_o64, sprintf_06o64, strcpy, List.length_set]
  refine le_trans ?_ (writeAt_length_ge _ _ _)
  refine le_trans ?_ (writeAt_length_ge _ _ _)
  refine le_trans ?_ (writeAt_length_ge _ _ _)
  rw [List.length_set]
  refine le_trans ?_ (writeAt_length_ge _ _ _)
  refine le_trans ?_ (writeAt_length_ge _ _ _)
  refine le_trans ?_ (writeAt_length_ge _ _ _)
  refine le_trans ?_ (writeAt_length_ge _ _ _)
  rw [List.length_replicate]

/-- The record `header_to_raw` builds has at least `sizeof(mtar_raw_header_t)`
bytes, whatever the header: 512 bytes go to `twrite`. -/
theorem header_to_raw_take_length (h : mtar_header_t) :
    ((header_to_raw h).take RAW_SIZE).length = 512 := by
  have := header_to_raw_length_ge h
  rw [List.length_take]
  simp only [RAW_SIZE] at *
  omega

/-- Source function `mtar_write_header` hands the record to the callback
whatever `h.size` is: the size `twrite` checks is that of the record. -/
theorem mtar_write_header_eq {σ : Type} (B : Backend σ) (tar : mtar_t σ) (h : mtar_header_t) :
    mtar_write_header B tar h =
      ((B.write tar.stream ((header_to_raw h).take RAW_SIZE)).1,
        { stream := (B.write tar.stream ((header_to_raw h).take RAW_SIZE)).2
          pos := (tar.pos + 512) % U64
          remaining_data := h.size
          last_header := tar.last_header }) := by
  have hl := header_to_raw_take_length h
  simp only [mtar_write_header, twrite, hl, MTAR_FILE_SIZE_MAX]
  rw [if_neg (by norm_num)]

theorem mtar_write_header_mem (d : List Nat) (o p rem lh : Nat) (h : mtar_header_t)
    (hf : FieldsFit h) :
    mtar_write_header memBackend ⟨⟨d, o⟩, p, rem, lh⟩ h = (MTAR_ESUCCESS,
      ⟨⟨memStore d o (header_to_raw h), o + 512⟩, (p + 512) % U64, h.size, lh⟩) := by
  have hlen : (header_to_raw h).length = 512 := by
    rw [header_to_raw_eq_layout h hf]
    exact layout_full_length h hf
  have ht : (header_to_raw h).take RAW_SIZE = header_to_raw h :=
    List.take_of_length_le (by simp [hlen, RAW_SIZE])
  rw [mtar_write_header_eq, ht]
  simp [memBackend, hlen]

theorem pad512_lt (n : Nat) : pad512 n < 512 := by
  simp only [pad512]
  omega

theorem round_up_eq (n : Nat) (h : n + 512 ≤ U64) : round_up n = n + pad512 n := by
  have := pad512_lt n
  simp only [round_up, U64] at *
  rw [Nat.mod_eq_of_lt]
  · rfl
  · simp only [pad512] at this
    omega

theorem castInt_pad (p : Nat) (hp : p < U64) :
    (castInt ((round_up p + U64 - p) % U64)).toNat = pad512 p := by
  have hk := pad512_lt p
  have h1 : (round_up p + U64 - p) % U64 = pad512 p := by
    simp only [round_up, U64] at *
    have e : (512 - p % 512) % 512 = pad512 p := rfl
    rw [e]
    omega
  rw [h1]
  simp only [castInt]
  have h2 : pad512 p % 2 ^ 32 = pad512 p := Nat.mod_eq_of_lt (by omega)
  rw [h2, if_pos (by omega)]
  simp

theorem max_lt_u64 : MTAR_FILE_SIZE_MAX < U64 := by
  simp [MTAR_FILE_SIZE_MAX, U64]

/-- A chunk that leaves payload bytes outstanding. -/
theorem mtar_write_data_mem_part (d c : List Nat) (o p rem lh : Nat)
    (hc : c.length ≤ MTAR_FILE_SIZE_MAX) (hlt : c.length < rem) (hrem : rem < U64) :
    mtar_write_data memBackend ⟨⟨d, o⟩, p, rem, lh⟩ c = (MTAR_ESUCCESS,
      ⟨⟨memStore d o c, o + c.length⟩, (p + c.length) % U64, rem - c.length, lh⟩) := by
  have h1 := twrite_mem ⟨⟨d, o⟩, p, rem, lh⟩ c hc
  have h2 : (rem + U64 - c.length) % U64 = rem - c.length := by
    simp only [U64] at *
    omega
  simp only [mtar_write_data, h1, h2]
  rw [if_neg (by simp [MTAR_ESUCCESS]), if_neg (by omega)]

/-- The chunk that completes the payload: the padding follows it. -/
theorem mtar_write_data_mem_last (d c : List Nat) (o p lh : Nat)
    (hc : c.length ≤ MTAR_FILE_SIZE_MAX) :
    mtar_write_data memBackend ⟨⟨d, o⟩, p, c.length, lh⟩ c = (MTAR_ESUCCESS,
      ⟨⟨memStore d o (c ++ List.replicate (pad512 ((p + c.length) % U64)) 0),
        o + c.length + pad512 ((p + c.length) % U64)⟩,
        ((p + c.length) % U64 + pad512 ((p + c.length) % U64)) % U64, 0, lh⟩) := by
  have h1 := twrite_mem ⟨⟨d, o⟩, p, c.length, lh⟩ c hc
  have hm := max_lt_u64
  have h2 : (c.length + U64 - c.length) % U64 = 0 := by
    simp only [U64] at *
    omega
  have hp1 : (p + c.length) % U64 < U64 := Nat.mod_lt _ (by simp [U64])
  have h3 := castInt_pad _ hp1
  have h4 := write_null_loop_mem_le (pad512 ((p + c.length) % U64)) (memStore d o c)
    (o + c.length) ((p + c.length) % U64) 0 lh
    (by rw [memStore_length]; omega) hp1
  simp only [mtar_write_data, h1, h2, write_null_bytes, h3]
  rw [if_neg (by simp [MTAR_ESUCCESS]), if_pos trivial, h4, memStore_memStore]

/-- Between entries, on a block boundary, empty chunks change nothing. -/
theorem write_chunks_mem_done (cs : List (List Nat)) (d : List Nat) (o p lh : Nat)
    (hcs : ∀ c ∈ cs, c = []) (ho : o ≤ d.length) (hp : p < U64) (hal : p % 512 = 0) :
    write_chunks memBackend cs ⟨⟨d, o⟩, p, 0, lh⟩ =
      (List.replicate cs.length MTAR_ESUCCESS, ⟨⟨d, o⟩, p, 0, lh⟩) := by
  induction cs with
  | nil => rfl
  | cons c cs ih =>
    have hc : c = [] := hcs c (List.mem_cons_self _ _)
    subst hc
    have h1 := mtar_write_data_mem_last d [] o p lh (by simp)
    have hk : pad512 p = 0 := by
      simp only [pad512]
      omega
    have hs : memStore d o [] = d := by
      simp [memStore, Nat.sub_eq_zero_of_le ho]
    simp only [List.length_nil, Nat.add_zero, Nat.mod_eq_of_lt hp, hk, List.replicate_zero,
      List.append_nil, hs] at h1
    simp only [write_chunks, h1, ih (fun c hc => hcs c (List.mem_cons_of_mem _ hc))]
    rfl

theorem flatten_eq_nil_of_length (cs : List (List Nat)) (h : cs.flatten.length = 0) :
    ∀ c ∈ cs, c = [] := by
  intro c hc
  have h0 : cs.flatten = [] := List.length_eq_zero.1 h
  rw [List.flatten_eq_nil_iff] at h0
  exact h0 c hc

theorem flatten_nil_of_all_nil (cs : List (List Nat)) (h : ∀ c ∈ cs, c = []) :
    cs.flatten = [] := List.flatten_eq_nil_iff.2 h

/-- Chunks that together supply the outstanding `rem` payload bytes. -/
theorem write_chunks_mem (cs : List (List Nat)) : ∀ (d : List Nat) (o p rem lh : Nat),
    0 < rem → rem ≤ MTAR_FILE_SIZE_MAX → cs.flatten.length = rem → p < U64 →
    write_chunks memBackend cs ⟨⟨d, o⟩, p, rem, lh⟩ =
      (List.replicate cs.length MTAR_ESUCCESS,
        ⟨⟨memStore d o (cs.flatten ++ List.replicate (pad512 ((p + rem) % U64)) 0),
          o + rem + pad512 ((p + rem) % U64)⟩,
          ((p + rem) % U64 + pad512 ((p + rem) % U64)) % U64, 0, lh⟩) := by
  induction cs with
  | nil =>
    intro d o p rem lh h0 _ hlen _
    simp at hlen
    omega
  | cons c cs ih =>
    intro d o p rem lh h0 hmax hlen hp
    have hm := max_lt_u64
    simp only [List.flatten_cons, List.length_append] at hlen
    by_cases hc : c.length < rem
    · have h1 := mtar_write_data_mem_part d c o p rem lh (by omega) hc (by omega)
      have h2 := ih (memStore d o c) (o + c.length) ((p + c.length) % U64) (rem - c.length) lh
        (by omega) (by omega) (by omega) (Nat.mod_lt _ (by simp [U64]))
      have e : ((p + c.length) % U64 + (rem - c.length)) % U64 = (p + rem) % U64 := by
        rw [Nat.mod_add_mod]
        congr 1
        omega
      rw [e, memStore_memStore] at h2
      simp only [write_chunks, h1, h2, List.flatten_cons, List.append_assoc, List.length_cons,
        List.replicate_succ]
      rw [show o + c.length + (rem - c.length) = o + rem by omega]
    · have hceq : c.length = rem := by omega
      subst hceq
      have hnil := flatten_eq_nil_of_length cs (by omega)
      have h1 := mtar_write_data_mem_last d c o p lh hmax
      have hk := pad512_lt ((p + c.length) % U64)
      have hal : (((p + c.length) % U64 + pad512 ((p + c.length) % U64)) % U64) % 512 = 0 := by
        simp only [pad512, U64] at *
        omega
      have h2 := write_chunks_mem_done cs
        (memStore d o (c ++ List.replicate (pad512 ((p + c.length) % U64)) 0))
        (o + c.length + pad512 ((p + c.length) % U64))
        (((p + c.length) % U64 + pad512 ((p + c.length) % U64)) % U64) lh hnil
        (by rw [memStore_length]; simp; omega) (Nat.mod_lt _ (by simp [U64])) hal
      simp only [write_chunks, h1, h2, List.flatten_cons, flatten_nil_of_all_nil cs hnil,
        List.append_nil, List.length_cons, List.replicate_succ]

/-! ## File headers and whole archives -/

theorem strcpy_zero_array (name : List Nat) (hn : name.length ≤ 99) (h0 : ∀ b ∈ name, b ≠ 0) :
    strcpy (List.replicate 100 0) 0 name = field name 100 := by
  have h := writeAt_field0 [] name 100 (by omega)
  simp only [List.append_nil] at h
  rw [strcpy, cstr_eq_self name h0, h]

theorem file_header_eq (name : List Nat) (size : Nat) (hn : name.length ≤ 99)
    (h0 : ∀ b ∈ name, b ≠ 0) :
    file_header name size =
      { mode := 0o664, owner := 0, size := size, mtime := 0, typeflag := MTAR_TREG,
        name := field name 100, linkname := List.replicate 100 0 } := by
  simp only [file_header, zero_header, strcpy_zero_array name hn h0]

theorem cstr_replicate_zero (n : Nat) : cstr (List.replicate n 0) = [] := by
  cases n with
  | zero => rfl
  | succ n => rw [List.replicate_succ, cstr_cons, if_pos rfl]

theorem file_header_fits (name : List Nat) (size : Nat) (hn : name.length ≤ 99)
    (h0 : ∀ b ∈ name, b ≠ 0 ∧ b < 256) (hs : size ≤ MTAR_FILE_SIZE_MAX) :
    FieldsFit (file_header name size) := by
  rw [file_header_eq name size hn (fun b hb => (h0 b hb).1)]
  refine ⟨by norm_num, by norm_num, hs, by norm_num, by simp [MTAR_TREG], ?_, ?_, ?_, ?_, ?_, ?_⟩
  · exact field_length name 100 (by omega)
  · rw [cstr_field name 100 (fun b hb => (h0 b hb).1)]
    exact hn
  · exact field_bytes name 100 (fun b hb => (h0 b hb).2)
  · exact List.length_replicate _ _
  · rw [cstr_replicate_zero]
    exact Nat.zero_le _
  · intro b hb
    rw [List.mem_replicate] at hb
    omega

theorem decoded_file_header (name : List Nat) (size : Nat) (hn : name.length ≤ 99)
    (h0 : ∀ b ∈ name, b ≠ 0) :
    decoded (file_header name size) = file_header name size := by
  rw [file_header_eq name size hn h0]
  simp only [decoded, raw_typeflag, cstr_field name 100 h0, cstr_replicate_zero, MTAR_TREG]
  simp [field]

theorem entry_bytes_length (e : List Nat × List Nat) (he : ValidEntry e) :
    (entry_bytes e).length = 512 + (e.2.length + pad512 e.2.length) := by
  have hf := file_header_fits e.1 e.2.length he.1 he.2.1 he.2.2
  have hl : (header_to_raw (file_header e.1 e.2.length)).length = 512 := by
    rw [header_to_raw_eq_layout _ hf]
    exact layout_full_length _ hf
  simp only [entry_bytes, List.length_append, hl, List.length_replicate]

theorem entry_bytes_aligned (e : List Nat × List Nat) (he : ValidEntry e) :
    (entry_bytes e).length % 512 = 0 := by
  rw [entry_bytes_length e he]
  simp only [pad512]
  omega

/-- The writing loop of `write_tar` appends the bytes of the entries. -/
theorem write_entries_mem (es : List (List Nat × List Nat)) : ∀ (d : List Nat) (lh : Nat),
    (∀ e ∈ es, ValidEntry e) → d.length % 512 = 0 →
    d.length + (es.map entry_bytes).flatten.length < U64 →
    write_entries memBackend es ⟨⟨d, d.length⟩, d.length, 0, lh⟩ =
      (List.replicate (2 * es.length) MTAR_ESUCCESS,
        ⟨⟨d ++ (es.map entry_bytes).flatten, (d ++ (es.map entry_bytes).flatten).length⟩,
          (d ++ (es.map entry_bytes).flatten).length, 0, lh⟩) := by
  induction es with
  | nil => intro d lh _ _ _; simp [write_entries]
  | cons e es ih =>
    intro d lh hv hal hlen
    have he := hv e (List.mem_cons_self _ _)
    have hf := file_header_fits e.1 e.2.length he.1 he.2.1 he.2.2
    have hlen_e := entry_bytes_length e he
    have hk := pad512_lt e.2.length
    simp only [List.map_cons, List.flatten_cons, List.length_append] at hlen
    have h1 := mtar_write_header_mem d d.length d.length 0 lh _ hf
    have hp1 : (d.length + 512) % U64 = d.length + 512 := Nat.mod_eq_of_lt (by omega)
    have hsz : (file_header e.1 e.2.length).size = e.2.length := rfl
    rw [hp1, memStore_end, hsz] at h1
    have h2 := mtar_write_data_mem_last (d ++ header_to_raw (file_header e.1 e.2.length)) e.2
      (d.length + 512) (d.length + 512) lh he.2.2
    have hp2 : (d.length + 512 + e.2.length) % U64 = d.length + 512 + e.2.length :=
      Nat.mod_eq_of_lt (by omega)
    have hpad : pad512 (d.length + 512 + e.2.length) = pad512 e.2.length := by
      simp only [pad512]
      omega
    have hp3 : (d.length + 512 + e.2.length + pad512 e.2.length) % U64
        = d.length + 512 + e.2.length + pad512 e.2.length := Nat.mod_eq_of_lt (by omega)
    have hlen1 : (d ++ header_to_raw (file_header e.1 e.2.length)).length = d.length + 512 := by
      have := hlen_e
      simp only [entry_bytes, List.length_append, List.length_replicate] at this
      simp only [List.length_append]
      omega
    rw [hp2, hpad, hp3, ← hlen1, memStore_end] at h2
    have hd' : d ++ header_to_raw (file_header e.1 e.2.length) ++
        (e.2 ++ List.replicate (pad512 e.2.length) 0) = d ++ entry_bytes e := by
      simp only [entry_bytes, List.append_assoc]
    have hl' : (d ++ header_to_raw (file_header e.1 e.2.length)).length + e.2.length
        + pad512 e.2.length = (d ++ entry_bytes e).length := by
      rw [hlen1, List.length_append, hlen_e]
      omega
    rw [hd', hl', hlen1] at h2
    have h3 := ih (d ++ entry_bytes e) lh (fun x hx => hv x (List.mem_cons_of_mem _ hx))
      (by rw [List.length_append, hlen_e]; simp only [pad512]; omega)
      (by rw [List.length_append]; omega)
    simp only [write_entries, mtar_write_file_header, h1, h2, h3, List.map_cons,
      List.flatten_cons, List.append_assoc, List.length_cons]
    rw [show 2 * (es.length + 1) = 2 * es.length + 1 + 1 by omega, List.replicate_succ,
      List.replicate_succ]

theorem archive_bytes_length (es : List (List Nat × List Nat)) :
    (archive_bytes es).length = (es.map entry_bytes).flatten.length + 1024 := by
  simp only [archive_bytes, List.length_append, List.length_replicate]

/-- The function `write_tar` on an empty buffer builds the archive. -/
theorem write_tar_mem (es : List (List Nat × List Nat)) (hv : ∀ e ∈ es, ValidEntry e)
    (hlen : (archive_bytes es).length < U64) :
    write_tar memBackend es (mem_open []) =
      (List.replicate (2 * es.length + 1) MTAR_ESUCCESS,
        ⟨⟨archive_bytes es, (archive_bytes es).length⟩, (archive_bytes es).length, 0, 0⟩) := by
  rw [archive_bytes_length] at hlen
  have h1 := write_entries_mem es [] 0 hv rfl (by simp only [List.length_nil]; omega)
  simp only [List.length_nil, List.nil_append] at h1
  have h2 := write_null_loop_mem 1023 (es.map entry_bytes).flatten
    (es.map entry_bytes).flatten.length (es.map entry_bytes).flatten.length 0 0
  rw [memStore_end, Nat.mod_eq_of_lt (by omega)] at h2
  have h3 : ((2 * RAW_SIZE : Nat) : Int).toNat = 1023 + 1 := by simp [RAW_SIZE]
  simp only [write_tar, mem_open, h1, mtar_finalize, write_null_bytes, h3, h2]
  rw [List.replicate_succ' (2 * es.length) MTAR_ESUCCESS]
  simp only [archive_bytes, List.length_append, List.length_replicate]

/-! ## The read path on the in-memory backend -/

theorem tread_mem (d : List Nat) (o p rem lh n : Nat) (hn : n ≤ MTAR_FILE_SIZE_MAX)
    (hle : o + n ≤ d.length) :
    tread memBackend ⟨⟨d, o⟩, p, rem, lh⟩ n =
      (MTAR_ESUCCESS, (d.drop o).take n, ⟨⟨d, o + n⟩, (p + n) % U64, rem, lh⟩) := by
  simp [tread, memBackend, Nat.not_lt.2 hn, hle]

theorem mtar_seek_mem (d : List Nat) (o p rem lh q : Nat) :
    mtar_seek memBackend ⟨⟨d, o⟩, p, rem, lh⟩ q = (MTAR_ESUCCESS, ⟨⟨d, q⟩, q, rem, lh⟩) := by
  simp [mtar_seek, memBackend, MTAR_ESUCCESS]

/-- Source function `mtar_read_header` on a buffer that holds a whole record at the
position: the record is decoded and the cursor stays where it was. -/
theorem mtar_read_header_mem (u : Indet) (d : List Nat) (p rem lh : Nat) (h : mtar_header_t)
    (hle : p + 512 ≤ d.length) :
    mtar_read_header memBackend u ⟨⟨d, p⟩, p, rem, lh⟩ h =
      ((raw_to_header u.chksum2 h ((d.drop p).take 512)).1,
        (raw_to_header u.chksum2 h ((d.drop p).take 512)).2, ⟨⟨d, p⟩, p, rem, p⟩) := by
  have h1 := tread_mem d p p rem p 512 (by simp [MTAR_FILE_SIZE_MAX]) hle
  have h2 := mtar_seek_mem d (p + 512) ((p + 512) % U64) rem p p
  simp only [mtar_read_header, RAW_SIZE, h1, h2]
  simp [MTAR_ESUCCESS]

theorem take_drop_of_append (pre rec post : List Nat) (p n : Nat) (hp : pre.length = p)
    (hn : rec.length = n) : ((pre ++ (rec ++ post)).drop p).take n = rec := by
  rw [List.drop_left' hp, List.take_left' hn]

theorem header_to_raw_length (h : mtar_header_t) (hf : FieldsFit h) :
    (header_to_raw h).length = 512 := by
  rw [header_to_raw_eq_layout h hf]
  exact layout_full_length h hf

/-- Reading the header of an entry of the archive. -/
theorem mtar_read_header_entry (u : Indet) (pre post : List Nat) (e : List Nat × List Nat)
    (rem lh : Nat) (h : mtar_header_t) (he : ValidEntry e) :
    mtar_read_header memBackend u
        ⟨⟨pre ++ (entry_bytes e ++ post), pre.length⟩, pre.length, rem, lh⟩ h =
      (MTAR_ESUCCESS, file_header e.1 e.2.length,
        ⟨⟨pre ++ (entry_bytes e ++ post), pre.length⟩, pre.length, rem, pre.length⟩) := by
  have hf := file_header_fits e.1 e.2.length he.1 he.2.1 he.2.2
  have hl := header_to_raw_length _ hf
  have hle : pre.length + 512 ≤ (pre ++ (entry_bytes e ++ post)).length := by
    simp only [List.length_append, entry_bytes_length e he]
    omega
  have hrec : ((pre ++ (entry_bytes e ++ post)).drop pre.length).take 512
      = header_to_raw (file_header e.1 e.2.length) := by
    have := take_drop_of_append pre (header_to_raw (file_header e.1 e.2.length))
      ((e.2 ++ List.replicate (pad512 e.2.length) 0) ++ post) pre.length 512 rfl hl
    simpa only [entry_bytes, List.append_assoc] using this
  rw [mtar_read_header_mem u _ _ _ _ _ hle, hrec, raw_to_header_header_to_raw _ _ _ hf,
    decoded_file_header e.1 e.2.length he.1 (fun b hb => (he.2.1 b hb).1)]

theorem getD_replicate_zero (n i : Nat) : (List.replicate n (0 : Nat)).getD i 0 = 0 := by
  rw [List.getD_eq_getElem?_getD, List.getElem?_replicate]
  split <;> rfl

/-- Reading the header at the end marker. -/
theorem mtar_read_header_end (u : Indet) (pre : List Nat) (rem lh : Nat) (h : mtar_header_t) :
    mtar_read_header memBackend u
        ⟨⟨pre ++ List.replicate 1024 0, pre.length⟩, pre.length, rem, lh⟩ h =
      (MTAR_ENULLRECORD, h,
        ⟨⟨pre ++ List.replicate 1024 0, pre.length⟩, pre.length, rem, pre.length⟩) := by
  have hle : pre.length + 512 ≤ (pre ++ List.replicate 1024 0).length := by
    simp only [List.length_append, List.length_replicate]
    omega
  have hrec : ((pre ++ List.replicate 1024 0).drop pre.length).take 512
      = List.replicate 512 0 := by
    rw [List.drop_left' rfl, List.take_replicate]
    rfl
  rw [mtar_read_header_mem u _ _ _ _ _ hle, hrec]
  simp only [raw_to_header, getD_replicate_zero, if_true]

/-- Source function `mtar_next` at an entry of the archive moves to the entry behind it. -/
theorem mtar_next_entry (u : Indet) (pre post : List Nat) (e : List Nat × List Nat)
    (rem lh : Nat) (he : ValidEntry e) (hlen : pre.length + (entry_bytes e).length < U64) :
    mtar_next memBackend u
        ⟨⟨pre ++ (entry_bytes e ++ post), pre.length⟩, pre.length, rem, lh⟩ =
      (MTAR_ESUCCESS,
        ⟨⟨pre ++ (entry_bytes e ++ post), pre.length + (entry_bytes e).length⟩,
          pre.length + (entry_bytes e).length, rem, pre.length⟩) := by
  have h1 := mtar_read_header_entry u pre post e rem lh u.h he
  have hm := max_lt_u64
  have hk := pad512_lt e.2.length
  have hsz : (file_header e.1 e.2.length).size = e.2.length := rfl
  have hl := entry_bytes_length e he
  have hr : round_up e.2.length = e.2.length + pad512 e.2.length :=
    round_up_eq _ (by have := he.2.2; simp only [MTAR_FILE_SIZE_MAX, U64] at *; omega)
  have hn : (pre.length + (e.2.length + pad512 e.2.length + RAW_SIZE) % U64) % U64
      = pre.length + (entry_bytes e).length := by
    simp only [RAW_SIZE, U64] at *
    omega
  simp only [mtar_next, h1, hsz, hr, hn, mtar_seek_mem]
  simp [MTAR_ESUCCESS]

/-- Source function `mtar_read_data` in the middle of a payload, `n` bytes lying
behind the offset: the bytes are transferred and `remaining_data` is reduced
modulo `2 ^ 64`. -/
theorem mtar_read_data_mid (u : Indet) (d : List Nat) (q p rem lh n : Nat) (hrem : rem ≠ 0)
    (hn : n ≤ MTAR_FILE_SIZE_MAX) (hle : q + n ≤ d.length) :
    mtar_read_data memBackend u ⟨⟨d, q⟩, p, rem, lh⟩ n =
      if (rem + U64 - n) % U64 = 0 then
        (MTAR_ESUCCESS, (d.drop q).take n, ⟨⟨d, lh⟩, lh, 0, lh⟩)
      else
        (MTAR_ESUCCESS, (d.drop q).take n,
          ⟨⟨d, q + n⟩, (p + n) % U64, (rem + U64 - n) % U64, lh⟩) := by
  have h1 := tread_mem d q p rem lh n hn hle
  simp only [mtar_read_data, read_data_begin, if_neg hrem, h1, mtar_seek_mem]
  rw [if_neg (by simp [MTAR_ESUCCESS]), if_neg (by simp [MTAR_ESUCCESS])]
  split
  · next h => simp only [h]
  · rfl

/-- Source function `mtar_read_data` at the header of an entry, between entries. -/
theorem mtar_read_data_entry (u : Indet) (pre post : List Nat) (e : List Nat × List Nat)
    (lh n : Nat) (he : ValidEntry e) (hn : n ≤ MTAR_FILE_SIZE_MAX)
    (hle : pre.length + 512 + n ≤ (pre ++ (entry_bytes e ++ post)).length)
    (hlen : pre.length + 512 + n < U64) :
    mtar_read_data memBackend u
        ⟨⟨pre ++ (entry_bytes e ++ post), pre.length⟩, pre.length, 0, lh⟩ n =
      if (e.2.length + U64 - n) % U64 = 0 then
        (MTAR_ESUCCESS, ((pre ++ (entry_bytes e ++ post)).drop (pre.length + 512)).take n,
          ⟨⟨pre ++ (entry_bytes e ++ post), pre.length⟩, pre.length, 0, pre.length⟩)
      else
        (MTAR_ESUCCESS, ((pre ++ (entry_bytes e ++ post)).drop (pre.length + 512)).take n,
          ⟨⟨pre ++ (entry_bytes e ++ post), pre.length + 512 + n⟩, pre.length + 512 + n,
            (e.2.length + U64 - n) % U64, pre.length⟩) := by
  have h1 := mtar_read_header_entry u pre post e 0 lh u.h he
  have hsz : (file_header e.1 e.2.length).size = e.2.length := rfl
  generalize hD : pre ++ (entry_bytes e ++ post) = D at *
  have hp : (pre.length + RAW_SIZE) % U64 = pre.length + 512 := by
    simp only [RAW_SIZE]
    exact Nat.mod_eq_of_lt (by omega)
  have h2 := tread_mem D (pre.length + 512) (pre.length + 512) e.2.length pre.length n hn hle
  rw [Nat.mod_eq_of_lt hlen] at h2
  simp only [mtar_read_data, read_data_begin, h1, hsz, hp, mtar_seek_mem, h2, MTAR_ESUCCESS,
    ne_eq, not_true_eq_false, if_false, if_true]
  split
  · next h => simp only [h, MTAR_ESUCCESS]
  · rfl

theorem entry_payload (pre post : List Nat) (e : List Nat × List Nat) (he : ValidEntry e) :
    (pre ++ (entry_bytes e ++ post)).drop (pre.length + 512)
      = e.2 ++ (List.replicate (pad512 e.2.length) 0 ++ post) := by
  have hf := file_header_fits e.1 e.2.length he.1 he.2.1 he.2.2
  have hl := header_to_raw_length _ hf
  apply drop_eq_of_append _ (pre ++ header_to_raw (file_header e.1 e.2.length))
  · simp only [entry_bytes, List.append_assoc]
  · simp [hl]

/-- Reading the whole payload of an entry in one call. -/
theorem mtar_read_data_whole (u : Indet) (pre post : List Nat) (e : List Nat × List Nat)
    (lh : Nat) (he : ValidEntry e) (hlen : pre.length + (entry_bytes e).length < U64) :
    mtar_read_data memBackend u
        ⟨⟨pre ++ (entry_bytes e ++ post), pre.length⟩, pre.length, 0, lh⟩ e.2.length =
      (MTAR_ESUCCESS, e.2,
        ⟨⟨pre ++ (entry_bytes e ++ post), pre.length⟩, pre.length, 0, pre.length⟩) := by
  have hl := entry_bytes_length e he
  have h1 := mtar_read_data_entry u pre post e lh e.2.length he he.2.2
    (by simp only [List.length_append, hl]; omega) (by omega)
  have h0 : (e.2.length + U64 - e.2.length) % U64 = 0 := by
    simp only [U64]
    omega
  rw [if_pos h0, entry_payload pre post e he, List.take_left' rfl] at h1
  exact h1

/-! ## Iterating over an archive -/

theorem archive_bytes_nil : archive_bytes [] = List.replicate 1024 0 := rfl

theorem archive_bytes_cons (e : List Nat × List Nat) (es : List (List Nat × List Nat)) :
    archive_bytes (e :: es) = entry_bytes e ++ archive_bytes es := by
  simp only [archive_bytes, List.map_cons, List.flatten_cons, List.append_assoc]

/-- The loop of `read_tar` from the header of the first of the entries `es`
to the end marker. -/
theorem read_tar_mem (u : Indet) (with_data : Bool) (es : List (List Nat × List Nat)) :
    ∀ (pre : List Nat) (lh : Nat) (h : mtar_header_t) (fuel : Nat), es.length < fuel →
    (∀ e ∈ es, ValidEntry e) → pre.length + (archive_bytes es).length < U64 →
    read_tar memBackend u with_data fuel
        ⟨⟨pre ++ archive_bytes es, pre.length⟩, pre.length, 0, lh⟩ h =
      some (es.map (fun e => ⟨MTAR_ESUCCESS, file_header e.1 e.2.length, MTAR_ESUCCESS,
          MTAR_ESUCCESS⟩),
        ⟨⟨pre ++ archive_bytes es, pre.length + (es.map entry_bytes).flatten.length⟩,
          pre.length + (es.map entry_bytes).flatten.length, 0,
          pre.length + (es.map entry_bytes).flatten.length⟩) := by
  induction es with
  | nil =>
    intro pre lh h fuel hfuel _ _
    obtain ⟨f, rfl⟩ := Nat.exists_eq_succ_of_ne_zero (show fuel ≠ 0 by omega)
    rw [archive_bytes_nil, read_tar, mtar_read_header_end]
    simp only [if_true, List.map_nil, List.flatten_nil, List.length_nil, Nat.add_zero]
  | cons e es ih =>
    intro pre lh h fuel hfuel hv hlen
    obtain ⟨f, rfl⟩ := Nat.exists_eq_succ_of_ne_zero (show fuel ≠ 0 by omega)
    have he := hv e (List.mem_cons_self _ _)
    rw [archive_bytes_cons, List.length_append] at hlen
    have h1 := mtar_read_header_entry u pre (archive_bytes es) e 0 lh h he
    have h2 := mtar_read_data_whole u pre (archive_bytes es) e pre.length he (by omega)
    have h3 := mtar_next_entry u pre (archive_bytes es) e 0 pre.length he (by omega)
    have h4 := ih (pre ++ entry_bytes e) pre.length (file_header e.1 e.2.length) f
      (by simp only [List.length_cons] at hfuel; omega)
      (fun x hx => hv x (List.mem_cons_of_mem _ hx))
      (by rw [List.length_append]; omega)
    simp only [List.append_assoc, List.length_append] at h4
    have hd : (if with_data = true then
        mtar_read_data memBackend u
          ⟨⟨pre ++ (entry_bytes e ++ archive_bytes es), pre.length⟩, pre.length, 0, pre.length⟩
          e.2.length
        else (MTAR_ESUCCESS, [],
          ⟨⟨pre ++ (entry_bytes e ++ archive_bytes es), pre.length⟩, pre.length, 0, pre.length⟩))
        = (MTAR_ESUCCESS, if with_data = true then e.2 else [],
          ⟨⟨pre ++ (entry_bytes e ++ archive_bytes es), pre.length⟩, pre.length, 0, pre.length⟩)
          := by
      split
      · exact h2
      · rfl
    have hsz : (file_header e.1 e.2.length).size = e.2.length := rfl
    rw [archive_bytes_cons, read_tar, h1]
    simp only [hsz, hd, h3, h4]
    rw [if_neg (by simp [MTAR_ESUCCESS, MTAR_ENULLRECORD])]
    simp only [Option.map_some', List.map_cons, List.flatten_cons, List.length_append,
      Nat.add_assoc]

theorem streq_file_header (name q : List Nat) (size : Nat) (hn : name.length ≤ 99)
    (h0 : ∀ b ∈ name, b ≠ 0) (hq : ∀ b ∈ q, b ≠ 0) :
    streq (file_header name size).name q = decide (name = q) := by
  rw [file_header_eq name size hn h0]
  simp only [streq, cstr_field name 100 h0, cstr_eq_self q hq]
  by_cases h : name = q <;> simp [h]

/-- The loop of `mtar_find` from the header of the first of the entries `es`:
it stops at the first entry of the name, or at the end marker. -/
theorem mtar_find_loop_mem (u : Indet) (name : List Nat) (hq : ∀ b ∈ name, b ≠ 0)
    (es : List (List Nat × List Nat)) :
    ∀ (pre : List Nat) (lh : Nat) (h : mtar_header_t) (fuel : Nat), es.length < fuel →
    (∀ e ∈ es, ValidEntry e) → pre.length + (archive_bytes es).length < U64 →
    ∃ tar', mtar_find_loop memBackend u name fuel
        ⟨⟨pre ++ archive_bytes es, pre.length⟩, pre.length, 0, lh⟩ h =
      some (match es.find? (fun e => decide (e.1 = name)) with
        | some e => (MTAR_ESUCCESS, some (file_header e.1 e.2.length), tar')
        | none => (MTAR_ENOTFOUND, none, tar')) := by
  induction es with
  | nil =>
    intro pre lh h fuel hfuel _ _
    obtain ⟨f, rfl⟩ := Nat.exists_eq_succ_of_ne_zero (show fuel ≠ 0 by omega)
    refine ⟨⟨⟨pre ++ List.replicate 1024 0, pre.length⟩, pre.length, 0, pre.length⟩, ?_⟩
    rw [archive_bytes_nil, mtar_find_loop, mtar_read_header_end]
    simp only [List.find?_nil]
    rw [if_neg (by simp [MTAR_ENULLRECORD, MTAR_ESUCCESS]), if_pos trivial]
  | cons e es ih =>
    intro pre lh h fuel hfuel hv hlen
    obtain ⟨f, rfl⟩ := Nat.exists_eq_succ_of_ne_zero (show fuel ≠ 0 by omega)
    have he := hv e (List.mem_cons_self _ _)
    rw [archive_bytes_cons, List.length_append] at hlen
    have h1 := mtar_read_header_entry u pre (archive_bytes es) e 0 lh h he
    have h3 := mtar_next_entry u pre (archive_bytes es) e 0 pre.length he (by omega)
    have hs := streq_file_header e.1 name e.2.length he.1 (fun b hb => (he.2.1 b hb).1) hq
    by_cases hname : e.1 = name
    · refine ⟨⟨⟨pre ++ (entry_bytes e ++ archive_bytes es), pre.length⟩, pre.length, 0,
        pre.length⟩, ?_⟩
      rw [archive_bytes_cons, mtar_find_loop, h1]
      simp only [hs]
      simp only [hname, decide_True, if_true, List.find?_cons_of_pos]
    · obtain ⟨tar', h4⟩ := ih (pre ++ entry_bytes e) pre.length (file_header e.1 e.2.length) f
        (by simp only [List.length_cons] at hfuel; omega)
        (fun x hx => hv x (List.mem_cons_of_mem _ hx))
        (by rw [List.length_append]; omega)
      simp only [List.append_assoc, List.length_append] at h4
      refine ⟨tar', ?_⟩
      rw [archive_bytes_cons, mtar_find_loop, h1]
      simp only [hs]
      simp only [hname, decide_False, if_true, Bool.false_eq_true, if_false, h3, h4,
        List.find?_cons_of_neg, not_false_eq_true]

/-! ## One changed byte -/

theorem sum_set_add (l : List Nat) : ∀ (i b : Nat), i < l.length →
    (l.set i b).sum + l.getD i 0 = l.sum + b := by
  induction l with
  | nil => intro i b hi; simp at hi
  | cons x t ih =>
    intro i b hi
    cases i with
    | zero => simp; omega
    | succ i =>
      have := ih i b (by simpa using hi)
      simp only [List.set_cons_succ, List.sum_cons, List.getD_cons_succ]
      omega

theorem getD_take (l : List Nat) (i n : Nat) (h : i < n) : (l.take n).getD i 0 = l.getD i 0 := by
  simp [List.getD_eq_getElem?_getD, List.getElem?_take, h]

theorem getD_drop (l : List Nat) (i n : Nat) : (l.drop n).getD i 0 = l.getD (n + i) 0 := by
  simp [List.getD_eq_getElem?_getD, List.getElem?_drop]

theorem bytes_set (l : List Nat) (i b : Nat) (hl : ∀ x ∈ l, x < 256) (hb : b < 256) :
    ∀ x ∈ l.set i b, x < 256 := by
  intro x hx
  rcases List.mem_or_eq_of_mem_set hx with h | h
  · exact hl x h
  · omega

/-- Changing one byte outside the checksum field changes the checksum by the
difference of the bytes. -/
theorem checksum_set (r : List Nat) (i b : Nat) (hlen : r.length = 512)
    (hr : ∀ x ∈ r, x < 256) (hi : i < 512) (hout : i < 148 ∨ 156 ≤ i) (hb : b < 256) :
    checksum (r.set i b) + r.getD i 0 = checksum r + b := by
  rw [checksum_eq_sum r hlen hr,
    checksum_eq_sum (r.set i b) (by rw [List.length_set]; exact hlen) (bytes_set r i b hr hb)]
  rcases hout with h | h
  · have h1 : ((r.set i b).take 148) = (r.take 148).set i b := List.set_take
    have h2 : (r.set i b).drop 156 = r.drop 156 := List.drop_set_of_lt b r (by omega)
    have h3 := sum_set_add (r.take 148) i b (by rw [List.length_take]; omega)
    rw [getD_take r i 148 h] at h3
    rw [h1, h2]
    omega
  · have h1 : ((r.set i b).take 148) = r.take 148 := List.take_set_of_lt b r (by omega)
    have h2 : (r.set i b).drop 156 = (r.drop 156).set (i - 156) b := by
      rw [List.drop_set, if_neg (by omega)]
    have h3 := sum_set_add (r.drop 156) (i - 156) b (by rw [List.length_drop]; omega)
    rw [getD_drop, show 156 + (i - 156) = i by omega] at h3
    rw [h1, h2]
    omega

/-- The checksum field of an encoded record: six octal digits of the checksum,
a NUL and a space. -/
theorem header_to_raw_drop_148 (h : mtar_header_t) (hf : FieldsFit h) :
    (header_to_raw h).drop 148 = fmt_06o64 (checksum (header_to_raw h)) ++
      (0 :: 32 :: raw_typeflag h :: (field (cstr h.linkname) 100 ++ List.replicate 255 0)) := by
  obtain ⟨h7, h11⟩ := fmt_fields h hf
  obtain ⟨hlen6, -, -⟩ := fmt_06o64_spec _ (checksum_pre_lt h hf)
  have hM := (h7 h.mode (by simp)).2.1
  have hO := (h7 h.owner (by simp)).2.1
  have hS := (h11 h.size (by simp)).2.1
  have hT := (h11 h.mtime (by simp)).2.1
  have hn := hf.2.2.2.2.2.2.1
  have hd := (layout_drops (cstr h.name) (fmt_o64 h.mode) (fmt_o64 h.owner) (fmt_o64 h.size)
    (fmt_o64 h.mtime) (fmt_06o64 (checksum (layout_pre h)) ++ [0, 32]) (cstr h.linkname)
    (raw_typeflag h) (by omega) (by omega) (by omega) (by omega) (by omega)
    (by simp [hlen6])).2.2.2.2.1
  rw [header_to_raw_eq_layout h hf, checksum_layout_full h hf]
  simp only [layout_full]
  rw [hd]
  simp only [List.append_assoc, List.cons_append, List.nil_append]

/-- The checksum text of an encoded record scans as the checksum of the
record, whatever follows its terminator. -/
theorem checksum_text (h : mtar_header_t) (hf : FieldsFit h) :
    (fmt_06o64 (checksum (header_to_raw h))) ≠ [] ∧
    (∀ c ∈ fmt_06o64 (checksum (header_to_raw h)), 48 ≤ c ∧ c ≤ 55) ∧
    octValue (fmt_06o64 (checksum (header_to_raw h))) = checksum (header_to_raw h) ∧
    checksum (header_to_raw h) < U64 ∧
    (fmt_06o64 (checksum (header_to_raw h))).length = 6 := by
  have hc : checksum (header_to_raw h) = checksum (layout_pre h) := by
    rw [header_to_raw_eq_layout h hf, checksum_layout_full h hf]
  obtain ⟨hlen6, hdig6, hval6⟩ := fmt_06o64_spec _ (checksum_pre_lt h hf)
  have hlt := checksum_pre_lt h hf
  rw [hc]
  refine ⟨?_, hdig6, hval6, ?_, hlen6⟩
  · intro h0
    rw [h0] at hlen6
    simp at hlen6
  · simp only [U64]
    omega

/-! ## Transfers longer than the outstanding payload -/


/-- Source function `mtar_write_data` does not compare the count with
`remaining_data`: a longer transfer goes to the callback and the subtraction wraps. -/
theorem mtar_write_data_over (B : Backend σ) (tar : mtar_t σ) (data : List Nat)
    (hmax : data.length ≤ MTAR_FILE_SIZE_MAX) (hover : tar.remaining_data < data.length) :
    (mtar_write_data B tar data).1 = (B.write tar.stream data).1 ∧
    ((B.write tar.stream data).1 = MTAR_ESUCCESS →
      (mtar_write_data B tar data).2.remaining_data = tar.remaining_data + U64 - data.length) := by
  have hm := max_lt_u64
  have hw : (tar.remaining_data + U64 - data.length) % U64
      = tar.remaining_data + U64 - data.length := Nat.mod_eq_of_lt (by omega)
  by_cases he : (B.write tar.stream data).1 = 0
  · have h0 : ¬ (tar.remaining_data + U64 - data.length = 0) := by omega
    simp only [mtar_write_data, twrite, Nat.not_lt.2 hmax, if_false, he, ne_eq,
      not_true_eq_false, hw, h0, MTAR_ESUCCESS]
    exact ⟨trivial, fun _ => trivial⟩
  · simp only [mtar_write_data, twrite, Nat.not_lt.2 hmax, if_false, he, ne_eq,
      not_false_eq_true, if_true, MTAR_ESUCCESS]
    exact ⟨trivial, fun h => absurd h (by simp)⟩

/-- Source function `mtar_read_data`, in the middle of a payload, does not compare
the count with `remaining_data` either. -/
theorem mtar_read_data_over (B : Backend σ) (u : Indet) (tar : mtar_t σ) (n : Nat)
    (hmax : n ≤ MTAR_FILE_SIZE_MAX) (hrem : tar.remaining_data ≠ 0)
    (hover : tar.remaining_data < n) :
    (mtar_read_data B u tar n).1 = (B.read tar.stream n).1 ∧
    ((B.read tar.stream n).1 = MTAR_ESUCCESS →
      (mtar_read_data B u tar n).2.2.remaining_data = tar.remaining_data + U64 - n) := by
  have hm := max_lt_u64
  have hw : (tar.remaining_data + U64 - n) % U64 = tar.remaining_data + U64 - n :=
    Nat.mod_eq_of_lt (by omega)
  by_cases he : (B.read tar.stream n).1 = 0
  · have h0 : ¬ (tar.remaining_data + U64 - n = 0) := by omega
    simp only [mtar_read_data, read_data_begin, if_neg hrem, tread, Nat.not_lt.2 hmax, if_false,
      he, ne_eq, not_true_eq_false, hw, h0, MTAR_ESUCCESS]
    exact ⟨trivial, fun _ => trivial⟩
  · simp only [mtar_read_data, read_data_begin, if_neg hrem, tread, Nat.not_lt.2 hmax, if_false,
      he, ne_eq, not_false_eq_true, if_true, MTAR_ESUCCESS, not_true_eq_false]
    exact ⟨trivial, fun h => absurd h (by simp)⟩

theorem archive_size_eq (es : List (List Nat × List Nat)) (hv : ∀ e ∈ es, ValidEntry e) :
    (archive_bytes es).length = archive_size es := by
  rw [archive_bytes_length, archive_size]
  congr 1
  induction es with
  | nil => rfl
  | cons e es ih =>
    simp only [List.map_cons, List.flatten_cons, List.length_append, List.sum_cons,
      entry_bytes_length e (hv e (List.mem_cons_self _ _)),
      ih (fun x hx => hv x (List.mem_cons_of_mem _ hx))]

/-! ## Reading more than the entry holds, from the header of the entry -/

/-- Source function `mtar_read_data` at the start of an entry, once the header is
read and passed, does not compare the count with the size in the header. -/
theorem mtar_read_data_start_over (B : Backend σ) (u : Indet) (tar : mtar_t σ) (n : Nat)
    (hmax : n ≤ MTAR_FILE_SIZE_MAX) (hrem : tar.remaining_data = 0)
    (hhead : (mtar_read_header B u tar u.h).1 = MTAR_ESUCCESS)
    (hseek : (mtar_seek B (mtar_read_header B u tar u.h).2.2
      (((mtar_read_header B u tar u.h).2.2.pos + RAW_SIZE) % U64)).1 = MTAR_ESUCCESS)
    (hover : (mtar_read_header B u tar u.h).2.1.size < n) :
    (mtar_read_data B u tar n).1
      = (B.read (mtar_seek B (mtar_read_header B u tar u.h).2.2
          (((mtar_read_header B u tar u.h).2.2.pos + RAW_SIZE) % U64)).2.stream n).1 ∧
    ((B.read (mtar_seek B (mtar_read_header B u tar u.h).2.2
          (((mtar_read_header B u tar u.h).2.2.pos + RAW_SIZE) % U64)).2.stream n).1
        = MTAR_ESUCCESS →
      (mtar_read_data B u tar n).2.2.remaining_data
        = (mtar_read_header B u tar u.h).2.1.size + U64 - n) ∧
    (∀ m, MTAR_FILE_SIZE_MAX < m → (mtar_read_data B u tar m).1 = MTAR_EREADFAIL) := by
  have hm := max_lt_u64
  simp only [MTAR_ESUCCESS] at hhead hseek
  have hb : read_data_begin B u tar = (MTAR_ESUCCESS,
      { (mtar_seek B (mtar_read_header B u tar u.h).2.2
          (((mtar_read_header B u tar u.h).2.2.pos + RAW_SIZE) % U64)).2 with
        remaining_data := (mtar_read_header B u tar u.h).2.1.size }) := by
    simp only [read_data_begin, if_pos hrem, hhead, hseek, ne_eq, not_true_eq_false, if_false]
  generalize (mtar_seek B (mtar_read_header B u tar u.h).2.2
      (((mtar_read_header B u tar u.h).2.2.pos + RAW_SIZE) % U64)).2 = S at hb ⊢
  generalize (mtar_read_header B u tar u.h).2.1.size = s at hb hover ⊢
  have hw : (s + U64 - n) % U64 = s + U64 - n := Nat.mod_eq_of_lt (by omega)
  have h0 : ¬ (s + U64 - n = 0) := by omega
  refine ⟨?_, ?_, ?_⟩
  · by_cases he : (B.read S.stream n).1 = 0
    · simp only [mtar_read_data, hb, tread, Nat.not_lt.2 hmax, if_false, he, ne_eq,
        not_true_eq_false, hw, h0, MTAR_ESUCCESS]
    · simp only [mtar_read_data, hb, tread, Nat.not_lt.2 hmax, if_false, he, ne_eq,
        not_false_eq_true, if_true, MTAR_ESUCCESS, not_true_eq_false]
  · intro he
    simp only [MTAR_ESUCCESS] at he
    simp only [mtar_read_data, hb, tread, Nat.not_lt.2 hmax, if_false, he, ne_eq,
      not_true_eq_false, hw, h0, MTAR_ESUCCESS]
  · intro m hbig
    simp only [mtar_read_data, hb, tread, if_pos hbig, MTAR_ESUCCESS, MTAR_EREADFAIL, ne_eq,
      not_true_eq_false, if_false]
    rw [if_pos (by decide)]

/-- Source function `mtar_read_data` from the header of an entry on the in-memory
backend, for a count above the payload length: the payload and bytes behind
it are delivered and `remaining_data` is the wrapped difference. -/
theorem mtar_read_data_entry_over (u : Indet) (pre post : List Nat) (e : List Nat × List Nat)
    (lh n : Nat) (he : ValidEntry e) (hn : n ≤ MTAR_FILE_SIZE_MAX) (hover : e.2.length < n)
    (hle : n ≤ e.2.length + pad512 e.2.length + post.length)
    (hlen : pre.length + 512 + n < U64) :
    mtar_read_data memBackend u
        ⟨⟨pre ++ (entry_bytes e ++ post), pre.length⟩, pre.length, 0, lh⟩ n =
      (MTAR_ESUCCESS, (e.2 ++ (List.replicate (pad512 e.2.length) 0 ++ post)).take n,
        ⟨⟨pre ++ (entry_bytes e ++ post), pre.length + 512 + n⟩, pre.length + 512 + n,
          e.2.length + 2 ^ 64 - n, pre.length⟩) := by
  have hm := max_lt_u64
  have hl := entry_bytes_length e he
  have h1 := mtar_read_data_entry u pre post e lh n he hn
    (by simp only [List.length_append, hl]; omega) hlen
  have hw : (e.2.length + U64 - n) % U64 = e.2.length + 2 ^ 64 - n := by
    rw [Nat.mod_eq_of_lt (by omega)]
    rfl
  have h0 : ¬ ((e.2.length + U64 - n) % U64 = 0) := by
    rw [hw]
    simp only [U64] at *
    omega
  rw [if_neg h0, entry_payload pre post e he, hw] at h1
  exact h1

theorem one_entry_valid : ValidEntry ([97], [9]) := by decide

theorem one_entry_archive_eq :
    one_entry_archive = [] ++ (entry_bytes ([97], [9]) ++ List.replicate 1024 0) := by
  rw [one_entry_archive, archive_bytes_cons, archive_bytes_nil]
  rfl

/-- The header of the one entry of `one_entry_archive` is read at position 0. -/
theorem one_entry_header (u : Indet) (h : mtar_header_t) :
    mtar_read_header memBackend u (mem_open one_entry_archive) h =
      (MTAR_ESUCCESS, file_header [97] 1, mem_open one_entry_archive) := by
  rw [one_entry_archive_eq]
  exact mtar_read_header_entry u [] (List.replicate 1024 0) ([97], [9]) 0 0 h one_entry_valid

theorem one_entry_archive_length : one_entry_archive.length = 2048 := by
  have hv : ∀ e ∈ [(([97], [9]) : List Nat × List Nat)], ValidEntry e := by
    intro e he
    rw [List.mem_singleton] at he
    rw [he]
    exact one_entry_valid
  have h := archive_size_eq [(([97], [9]) : List Nat × List Nat)] hv
  have h2 : archive_size [(([97], [9]) : List Nat × List Nat)] = 2048 := by
    simp only [archive_size, List.map_cons, List.map_nil, List.sum_cons, List.sum_nil,
      List.length_singleton, pad512]
    rfl
  rw [h2] at h
  exact h

/-! ## The record codec: claims -/

/-- C1 (header round trip): for every header `h` with valid field values,
`raw_to_header` applied to `header_to_raw h` returns `MTAR_ESUCCESS` and the
decoded header has the mode, owner, size, mtime and type flag of `h` and, as
strings, its name and link name; this whatever the caller's header `h0` and
the uninitialised `chksum2` held before. -/
theorem header_round_trip (chksum2 : Nat) (h0 h : mtar_header_t) (hv : ValidHeader h) :
    (raw_to_header chksum2 h0 (header_to_raw h)).1 = MTAR_ESUCCESS ∧
    (raw_to_header chksum2 h0 (header_to_raw h)).2.mode = h.mode ∧
    (raw_to_header chksum2 h0 (header_to_raw h)).2.owner = h.owner ∧
    (raw_to_header chksum2 h0 (header_to_raw h)).2.size = h.size ∧
    (raw_to_header chksum2 h0 (header_to_raw h)).2.mtime = h.mtime ∧
    (raw_to_header chksum2 h0 (header_to_raw h)).2.typeflag = h.typeflag ∧
    cstr (raw_to_header chksum2 h0 (header_to_raw h)).2.name = cstr h.name ∧
    cstr (raw_to_header chksum2 h0 (header_to_raw h)).2.linkname = cstr h.linkname := by
  obtain ⟨hf, htl, _⟩ := hv
  rw [raw_to_header_header_to_raw chksum2 h0 h hf]
  have htf : raw_typeflag h = h.typeflag := by
    simp only [raw_typeflag, MTAR_TREG] at *
    rw [if_pos (by omega)]
  refine ⟨rfl, rfl, rfl, rfl, rfl, htf, ?_, ?_⟩
  · exact cstr_field _ 100 (cstr_nul_free _)
  · exact cstr_field _ 100 (cstr_nul_free _)

theorem sample_header_valid : ValidHeader sample_header := by
  decide

theorem header_round_trip_witness :
    (raw_to_header 0 zero_header (header_to_raw sample_header)).1 = MTAR_ESUCCESS ∧
    (raw_to_header 0 zero_header (header_to_raw sample_header)).2.mode = sample_header.mode ∧
    (raw_to_header 0 zero_header (header_to_raw sample_header)).2.owner = sample_header.owner ∧
    (raw_to_header 0 zero_header (header_to_raw sample_header)).2.size = sample_header.size ∧
    (raw_to_header 0 zero_header (header_to_raw sample_header)).2.mtime = sample_header.mtime ∧
    (raw_to_header 0 zero_header (header_to_raw sample_header)).2.typeflag
      = sample_header.typeflag ∧
    cstr (raw_to_header 0 zero_header (header_to_raw sample_header)).2.name
      = cstr sample_header.name ∧
    cstr (raw_to_header 0 zero_header (header_to_raw sample_header)).2.linkname
      = cstr sample_header.linkname :=
  header_round_trip 0 zero_header sample_header sample_header_valid

/-- C5 (checksum definition): for every record `r` of 512 bytes, `checksum r`
is 256 plus the sum of the bytes at offsets 0..147 and 156..511, which is the
sum of all bytes of `r` with the checksum field replaced by eight spaces, and
it does not depend on the eight bytes of the checksum field. -/
theorem checksum_definition (r : List Nat) (hlen : r.length = 512) (hb : ∀ b ∈ r, b < 256) :
    checksum r = 256 + ((r.take 148).sum + (r.drop 156).sum) ∧
    checksum r = (r.take 148 ++ List.replicate 8 32 ++ r.drop 156).sum ∧
    ∀ f : List Nat, f.length = 8 → checksum (r.take 148 ++ f ++ r.drop 156) = checksum r := by
  have h1 := checksum_eq_sum r hlen hb
  refine ⟨h1, ?_, ?_⟩
  · rw [h1]
    simp only [List.sum_append, List.sum_replicate, smul_eq_mul]
    omega
  · intro f hf
    have hl : (r.take 148 ++ f ++ r.drop 156).length = 512 := by
      simp only [List.length_append, List.length_take, List.length_drop, hf, hlen]
      rfl
    have e1 : (r.take 148 ++ f ++ r.drop 156).take 148 = r.take 148 := by
      rw [List.append_assoc]
      exact List.take_left' (by rw [List.length_take, hlen]; rfl)
    have e2 : (r.take 148 ++ f ++ r.drop 156).drop 156 = r.drop 156 :=
      List.drop_left' (by rw [List.length_append, List.length_take, hlen, hf]; rfl)
    have hfold : ∀ (l : List Nat) (a n acc : Nat),
        (∀ i, a ≤ i → i < a + n → l.getD i 0 = r.getD i 0) →
        (List.range' a n).foldl (fun res i => (res + l.getD i 0) % U64) acc
          = (List.range' a n).foldl (fun res i => (res + r.getD i 0) % U64) acc := by
      intro l a n
      induction n generalizing a with
      | zero => intro acc _; rfl
      | succ n ih =>
        intro acc hget
        rw [List.range'_succ, List.foldl_cons, List.foldl_cons, hget a (le_refl _) (by omega)]
        exact ih (a + 1) _ (fun i h1 h2 => hget i (by omega) (by omega))
    have g1 : ∀ i, 0 ≤ i → i < 0 + 148 → (r.take 148 ++ f ++ r.drop 156).getD i 0 = r.getD i 0 := by
      intro i _ hi
      rw [← getD_take _ i 148 (by omega), e1, getD_take r i 148 (by omega)]
    have g2 : ∀ i, 156 ≤ i → i < 156 + (RAW_SIZE - 156) →
        (r.take 148 ++ f ++ r.drop 156).getD i 0 = r.getD i 0 := by
      intro i hi _
      have := getD_drop (r.take 148 ++ f ++ r.drop 156) (i - 156) 156
      rw [e2, getD_drop, show 156 + (i - 156) = i by omega] at this
      exact this.symm
    simp only [checksum]
    rw [hfold _ 0 148 256 g1, hfold _ 156 (RAW_SIZE - 156) _ g2]

theorem checksum_definition_witness :
    checksum (List.replicate 512 7) = 256 + (((List.replicate 512 7).take 148).sum
      + ((List.replicate 512 7).drop 156).sum) ∧
    checksum (List.replicate 512 7) =
      ((List.replicate 512 7).take 148 ++ List.replicate 8 32 ++ (List.replicate 512 7).drop 156).sum ∧
    ∀ f : List Nat, f.length = 8 →
      checksum ((List.replicate 512 7).take 148 ++ f ++ (List.replicate 512 7).drop 156)
        = checksum (List.replicate 512 7) :=
  checksum_definition (List.replicate 512 7) (List.length_replicate _ _)
    (fun b hb => by rw [List.mem_replicate] at hb; omega)

/-- C7 (sentinel detection): for every record of 512 bytes whose byte at offset
148 is NUL, `raw_to_header` returns `MTAR_ENULLRECORD`, whatever the other
bytes, the caller's header and `chksum2` are, and leaves the header as it was;
the record of 512 NUL bytes is such a record. -/
theorem sentinel_detection (chksum2 : Nat) (h0 : mtar_header_t) (r : List Nat)
    (_hlen : r.length = 512) (h148 : r.getD 148 0 = 0) :
    raw_to_header chksum2 h0 r = (MTAR_ENULLRECORD, h0) ∧
    (raw_to_header chksum2 h0 r).1 ≠ MTAR_EBADCHKSUM ∧
    (raw_to_header chksum2 h0 r).1 ≠ MTAR_ESUCCESS ∧
    raw_to_header chksum2 h0 (List.replicate 512 0) = (MTAR_ENULLRECORD, h0) := by
  have h1 : raw_to_header chksum2 h0 r = (MTAR_ENULLRECORD, h0) := by
    simp only [raw_to_header, h148, if_true]
  have h2 : raw_to_header chksum2 h0 (List.replicate 512 0) = (MTAR_ENULLRECORD, h0) := by
    simp only [raw_to_header, getD_replicate_zero, if_true]
  refine ⟨h1, ?_, ?_, h2⟩
  · rw [h1]
    simp [MTAR_ENULLRECORD, MTAR_EBADCHKSUM]
  · rw [h1]
    simp [MTAR_ENULLRECORD, MTAR_ESUCCESS]

theorem sentinel_detection_witness :
    raw_to_header 5 sample_header (List.replicate 148 255 ++ 0 :: List.replicate 363 255)
      = (MTAR_ENULLRECORD, sample_header) ∧
    (raw_to_header 5 sample_header (List.replicate 148 255 ++ 0 :: List.replicate 363 255)).1
      ≠ MTAR_EBADCHKSUM ∧
    (raw_to_header 5 sample_header (List.replicate 148 255 ++ 0 :: List.replicate 363 255)).1
      ≠ MTAR_ESUCCESS ∧
    raw_to_header 5 sample_header (List.replicate 512 0) = (MTAR_ENULLRECORD, sample_header) :=
  sentinel_detection 5 sample_header (List.replicate 148 255 ++ 0 :: List.replicate 363 255)
    (by simp only [List.length_append, List.length_cons, List.length_replicate])
    (getD_of_drop _ (List.replicate 363 255) 148 0
      (List.drop_left' (List.length_replicate _ _)))

/-- C6 (checksum validation): for the record `r = header_to_raw h` of a valid
header, the octal value scanned from the checksum field of `r` is `checksum r`;
and setting any one byte of `r` outside the checksum field to a different byte
value makes `raw_to_header` return `MTAR_EBADCHKSUM`. -/
theorem checksum_validation (chksum2 : Nat) (h0 h : mtar_header_t) (hv : ValidHeader h) :
    scan_o64 ((header_to_raw h).drop 148) = some (checksum (header_to_raw h)) ∧
    ∀ i b : Nat, i < 512 → (i < 148 ∨ 156 ≤ i) → b < 256 → b ≠ (header_to_raw h).getD i 0 →
      (raw_to_header chksum2 h0 ((header_to_raw h).set i b)).1 = MTAR_EBADCHKSUM := by
  obtain ⟨hf, -, -⟩ := hv
  have hdrop := header_to_raw_drop_148 h hf
  obtain ⟨hne, hdig, hval, h64, hlen6⟩ := checksum_text h hf
  have hlen : (header_to_raw h).length = 512 := header_to_raw_length h hf
  have hbytes : ∀ x ∈ header_to_raw h, x < 256 := by
    rw [header_to_raw_eq_layout h hf]
    exact layout_full_bytes h hf
  generalize header_to_raw h = r at *
  generalize fmt_06o64 (checksum r) = c6 at *
  constructor
  · rw [hdrop, scan_o64_digits c6 _ hne hdig (by rw [hval]; exact h64)
      (not_isodigit_head_zero _), hval]
  · intro i b hi hout hb hne'
    have hsum := checksum_set r i b hlen hbytes hi hout hb
    have hdrop' : ∃ rest, (r.set i b).drop 148 = c6 ++ 0 :: rest := by
      rcases hout with hlo | hhi
      · exact ⟨_, by rw [List.drop_set_of_lt b r (by omega), hdrop]⟩
      · refine ⟨(32 :: raw_typeflag h :: (field (cstr h.linkname) 100 ++
          List.replicate 255 0)).set (i - 155) b, ?_⟩
        rw [List.drop_set, if_neg (by omega), hdrop,
          set_skip c6 _ 6 (i - 148) (i - 154) b hlen6 (by omega),
          show i - 154 = (i - 155) + 1 by omega, List.set_cons_succ]
    obtain ⟨rest, hrest⟩ := hdrop'
    rw [raw_to_header_bad chksum2 h0 (r.set i b) c6 rest hrest hne hdig
      (by rw [hval]; exact h64) (by rw [hval]; omega)]

theorem checksum_validation_witness :
    scan_o64 ((header_to_raw sample_header).drop 148)
      = some (checksum (header_to_raw sample_header)) ∧
    ∀ i b : Nat, i < 512 → (i < 148 ∨ 156 ≤ i) → b < 256 →
      b ≠ (header_to_raw sample_header).getD i 0 →
      (raw_to_header 0 zero_header ((header_to_raw sample_header).set i b)).1
        = MTAR_EBADCHKSUM :=
  checksum_validation 0 zero_header sample_header sample_header_valid

/-! ## The write path: claims -/

/-- C8 (size cap), evaluated at a size above the limit: `mtar_write_file_header`
with size `0x200000000` on an empty in-memory archive returns `MTAR_ESUCCESS`,
has stored the 512 bytes of a record and moved the position to 512; the size
`twrite` compares with `MTAR_FILE_SIZE_MAX` is that of the record, not the size
in the header.  The octal text of that size has twelve digits, so it fills the
size field of the record and leaves no room for its terminator. -/
theorem size_cap_not_applied_to_header :
    MTAR_FILE_SIZE_MAX < 0x200000000 ∧
    (mtar_write_file_header memBackend (mem_open []) [97] 0x200000000).1 = MTAR_ESUCCESS ∧
    (mtar_write_file_header memBackend (mem_open []) [97] 0x200000000).2.stream.data.length = 512 ∧
    (mtar_write_file_header memBackend (mem_open []) [97] 0x200000000).2.pos = 512 ∧
    (mtar_write_file_header memBackend (mem_open []) [97] 0x200000000).2.remaining_data
      = 0x200000000 ∧
    (fmt_o64 0x200000000).length = 12 := by
  have h := mtar_write_header_eq memBackend (mem_open []) (file_header [97] 0x200000000)
  have hl := header_to_raw_take_length (file_header [97] 0x200000000)
  have hd : (memBackend.write (mem_open []).stream
      ((header_to_raw (file_header [97] 0x200000000)).take RAW_SIZE)).2.data
      = (header_to_raw (file_header [97] 0x200000000)).take RAW_SIZE := by
    simp only [memBackend, mem_open]
    exact memStore_end [] _
  simp only [mtar_write_file_header, h, hd, hl]
  exact ⟨by decide, rfl, trivial, rfl, rfl, by decide⟩

/-- C9 (padding and block alignment): on the in-memory backend, for a cursor at
a position `p` that is a multiple of 512 and a payload size `s` of at most
`MTAR_FILE_SIZE_MAX`, after `mtar_write_file_header name s` and `mtar_write_data`
calls whose chunks together have `s` bytes, every call has returned
`MTAR_ESUCCESS`, the position is `p + 512 + round_up s` (in 64-bit arithmetic), a
multiple of 512, `remaining_data` is 0, and the bytes stored from the stream
offset on are the record, the payload and `round_up s - s` NUL bytes, fewer
than 512 and none when 512 divides `s`. -/
theorem padding_block_alignment (d : List Nat) (o p rem lh : Nat) (name : List Nat) (s : Nat)
    (chunks : List (List Nat)) (hp : p % 512 = 0) (hp64 : p < U64)
    (hs : s ≤ MTAR_FILE_SIZE_MAX) (hn : name.length ≤ 99) (hn0 : ∀ b ∈ name, b ≠ 0 ∧ b < 256)
    (hlen : chunks.flatten.length = s) :
    (mtar_write_file_header memBackend ⟨⟨d, o⟩, p, rem, lh⟩ name s).1 = MTAR_ESUCCESS ∧
    (write_chunks memBackend chunks
      (mtar_write_file_header memBackend ⟨⟨d, o⟩, p, rem, lh⟩ name s).2).1
        = List.replicate chunks.length MTAR_ESUCCESS ∧
    (write_chunks memBackend chunks
      (mtar_write_file_header memBackend ⟨⟨d, o⟩, p, rem, lh⟩ name s).2).2.pos
        = (p + 512 + round_up s) % U64 ∧
    (write_chunks memBackend chunks
      (mtar_write_file_header memBackend ⟨⟨d, o⟩, p, rem, lh⟩ name s).2).2.pos % 512 = 0 ∧
    (write_chunks memBackend chunks
      (mtar_write_file_header memBackend ⟨⟨d, o⟩, p, rem, lh⟩ name s).2).2.remaining_data = 0 ∧
    (write_chunks memBackend chunks
      (mtar_write_file_header memBackend ⟨⟨d, o⟩, p, rem, lh⟩ name s).2).2.stream.data
        = memStore d o (header_to_raw (file_header name s) ++
            (chunks.flatten ++ List.replicate (round_up s - s) 0)) ∧
    round_up s - s < 512 ∧ (s % 512 = 0 → round_up s = s) ∧
    (p + 512 + round_up s < U64 →
      (write_chunks memBackend chunks
        (mtar_write_file_header memBackend ⟨⟨d, o⟩, p, rem, lh⟩ name s).2).2.pos
          = p + 512 + round_up s) := by
  have hm := max_lt_u64
  have hf := file_header_fits name s hn hn0 hs
  have hsz : (file_header name s).size = s := rfl
  have h1 := mtar_write_header_mem d o p rem lh _ hf
  rw [hsz] at h1
  have hr : round_up s = s + pad512 s :=
    round_up_eq s (by simp only [MTAR_FILE_SIZE_MAX, U64] at *; omega)
  have hk := pad512_lt s
  have hrs : s + pad512 s - s = pad512 s := by omega
  have hhl := header_to_raw_length _ hf
  have hpos : ∀ q, q = (((p + 512) % U64 + s) % U64 + pad512 s) % U64 →
      q = (p + 512 + (s + pad512 s)) % U64 ∧ q % 512 = 0 ∧
      (p + 512 + (s + pad512 s) < U64 → q = p + 512 + (s + pad512 s)) := by
    intro q hq
    simp only [pad512, U64] at *
    omega
  simp only [mtar_write_file_header, h1, hr, hrs]
  rcases Nat.eq_zero_or_pos s with h0 | h0
  · subst h0
    have hnil := flatten_eq_nil_of_length chunks hlen
    have h2 := write_chunks_mem_done chunks (memStore d o (header_to_raw (file_header name 0)))
      (o + 512) ((p + 512) % U64) lh hnil (by rw [memStore_length]; omega)
      (Nat.mod_lt _ (by simp [U64])) (by simp only [U64]; omega)
    have hp0 : pad512 0 = 0 := rfl
    obtain ⟨e1, e2, e3⟩ := hpos ((p + 512) % U64) (by
      simp only [hp0, Nat.add_zero]
      rw [Nat.mod_mod, Nat.mod_mod])
    rw [h2]
    simp only [hp0, Nat.add_zero, flatten_nil_of_all_nil chunks hnil, List.replicate_zero,
      List.append_nil] at e1 e3 ⊢
    exact ⟨trivial, trivial, e1, e2, trivial, trivial, by omega, fun _ => trivial, e3⟩
  · have h2 := write_chunks_mem chunks (memStore d o (header_to_raw (file_header name s)))
      (o + 512) ((p + 512) % U64) s lh h0 hs hlen (Nat.mod_lt _ (by simp [U64]))
    have hpad : pad512 (((p + 512) % U64 + s) % U64) = pad512 s := by
      simp only [pad512, U64]
      omega
    rw [hpad] at h2
    obtain ⟨e1, e2, e3⟩ := hpos _ rfl
    have hst := memStore_memStore d (header_to_raw (file_header name s))
      (chunks.flatten ++ List.replicate (pad512 s) 0) o
    rw [hhl] at hst
    rw [h2]
    simp only [hst]
    refine ⟨trivial, trivial, e1, e2, trivial, trivial, hk, fun h => ?_, e3⟩
    simp only [pad512] at *
    omega

theorem padding_block_alignment_witness :
    (mtar_write_file_header memBackend ⟨⟨[], 0⟩, 0, 0, 0⟩ [97] 3).1 = MTAR_ESUCCESS ∧
    (write_chunks memBackend [[1], [2, 3]]
      (mtar_write_file_header memBackend ⟨⟨[], 0⟩, 0, 0, 0⟩ [97] 3).2).1
        = List.replicate [[1], [2, 3]].length MTAR_ESUCCESS ∧
    (write_chunks memBackend [[1], [2, 3]]
      (mtar_write_file_header memBackend ⟨⟨[], 0⟩, 0, 0, 0⟩ [97] 3).2).2.pos
        = (0 + 512 + round_up 3) % U64 ∧
    (write_chunks memBackend [[1], [2, 3]]
      (mtar_write_file_header memBackend ⟨⟨[], 0⟩, 0, 0, 0⟩ [97] 3).2).2.pos % 512 = 0 ∧
    (write_chunks memBackend [[1], [2, 3]]
      (mtar_write_file_header memBackend ⟨⟨[], 0⟩, 0, 0, 0⟩ [97] 3).2).2.remaining_data = 0 ∧
    (write_chunks memBackend [[1], [2, 3]]
      (mtar_write_file_header memBackend ⟨⟨[], 0⟩, 0, 0, 0⟩ [97] 3).2).2.stream.data
        = memStore [] 0 (header_to_raw (file_header [97] 3) ++
            ([[1], [2, 3]].flatten ++ List.replicate (round_up 3 - 3) 0)) ∧
    round_up 3 - 3 < 512 ∧ (3 % 512 = 0 → round_up 3 = 3) ∧
    (0 + 512 + round_up 3 < U64 →
      (write_chunks memBackend [[1], [2, 3]]
        (mtar_write_file_header memBackend ⟨⟨[], 0⟩, 0, 0, 0⟩ [97] 3).2).2.pos
          = 0 + 512 + round_up 3) :=
  padding_block_alignment [] 0 0 0 0 [97] 3 [[1], [2, 3]] (by decide) (by decide) (by decide)
    (by decide) (by decide) (by decide)

/-- C10, refuted at a concrete input: after `mtar_write_file_header` with size 1
on an empty in-memory archive, `mtar_write_data` of two bytes returns
`MTAR_ESUCCESS` and leaves `remaining_data = 2 ^ 64 - 1`; and `mtar_read_data`
of two bytes with one payload byte outstanding does the same. -/
theorem over_long_transfer_accepted :
    (mtar_write_file_header memBackend (mem_open []) [97] 1).2.remaining_data = 1 ∧
    (mtar_write_data memBackend
      (mtar_write_file_header memBackend (mem_open []) [97] 1).2 [7, 7]).1 = MTAR_ESUCCESS ∧
    (mtar_write_data memBackend
      (mtar_write_file_header memBackend (mem_open []) [97] 1).2 [7, 7]).2.remaining_data
        = 2 ^ 64 - 1 ∧
    (mtar_read_data memBackend ⟨0, zero_header⟩ ⟨⟨[7, 7, 7], 0⟩, 0, 1, 0⟩ 2).1 = MTAR_ESUCCESS ∧
    (mtar_read_data memBackend ⟨0, zero_header⟩ ⟨⟨[7, 7, 7], 0⟩, 0, 1, 0⟩ 2).2.2.remaining_data
      = 2 ^ 64 - 1 := by
  have hst : (mtar_write_file_header memBackend (mem_open []) [97] 1).2.remaining_data = 1 := by
    rw [mtar_write_file_header, mtar_write_header_eq]
    rfl
  have hw := mtar_write_data_over memBackend
    (mtar_write_file_header memBackend (mem_open []) [97] 1).2 [7, 7] (by decide)
    (by rw [hst]; decide)
  have hr := mtar_read_data_over memBackend ⟨0, zero_header⟩ ⟨⟨[7, 7, 7], 0⟩, 0, 1, 0⟩ 2
    (by decide) (by decide) (by decide)
  refine ⟨hst, ?_, ?_, ?_, ?_⟩
  · rw [hw.1]
    rfl
  · rw [hw.2 rfl, hst]
    rfl
  · rw [hr.1]
    rfl
  · rw [hr.2 rfl]
    rfl

/-- C10 as amended: `mtar_read_data` and `mtar_write_data` do not compare the
count with the payload bytes remaining.  For every backend, every cursor with
`remaining_data = r` and every count `n` with `r < n ≤ MTAR_FILE_SIZE_MAX`:
`mtar_write_data` of `n` bytes returns the status of the backend write and, when
that is `MTAR_ESUCCESS`, leaves `remaining_data = r + 2 ^ 64 - n`; for `r ≠ 0`
`mtar_read_data` of `n` bytes returns the status of the backend read and, when
that is `MTAR_ESUCCESS`, leaves `remaining_data = r + 2 ^ 64 - n`.  At the start
of an entry (`r = 0`), when the header is read with `MTAR_ESUCCESS` and the seek
behind it succeeds, and the size `s` in the header is below `n`:
`mtar_read_data` of `n` bytes returns the status of the backend read of `n`
bytes behind the header and, when that is `MTAR_ESUCCESS`, leaves
`remaining_data = s + 2 ^ 64 - n`; on the in-memory backend, at the header of an
entry with a payload of fewer than `n` bytes and `n` bytes in the stream behind
the header, it returns `MTAR_ESUCCESS` with the payload and the bytes that
follow it.  The limit `MTAR_FILE_SIZE_MAX` is the only one checked: a longer
write is rejected with `MTAR_EWRITEFAIL`, and a longer read with
`MTAR_EREADFAIL` (for `r ≠ 0` with the cursor as it was). -/
theorem over_long_transfer_wraps {σ : Type} (B : Backend σ) (u : Indet) (tar : mtar_t σ)
    (n : Nat) (data : List Nat) (hlen : data.length = n) (hmax : n ≤ MTAR_FILE_SIZE_MAX)
    (hover : tar.remaining_data < n) :
    (mtar_write_data B tar data).1 = (B.write tar.stream data).1 ∧
    ((B.write tar.stream data).1 = MTAR_ESUCCESS →
      (mtar_write_data B tar data).2.remaining_data = tar.remaining_data + 2 ^ 64 - n) ∧
    (tar.remaining_data ≠ 0 →
      (mtar_read_data B u tar n).1 = (B.read tar.stream n).1 ∧
      ((B.read tar.stream n).1 = MTAR_ESUCCESS →
        (mtar_read_data B u tar n).2.2.remaining_data = tar.remaining_data + 2 ^ 64 - n)) ∧
    (∀ big : List Nat, MTAR_FILE_SIZE_MAX < big.length →
      mtar_write_data B tar big = (MTAR_EWRITEFAIL, tar)) ∧
    (∀ m : Nat, tar.remaining_data ≠ 0 → MTAR_FILE_SIZE_MAX < m →
      mtar_read_data B u tar m = (MTAR_EREADFAIL, [], tar)) ∧
    (tar.remaining_data = 0 →
      (mtar_read_header B u tar u.h).1 = MTAR_ESUCCESS →
      (mtar_seek B (mtar_read_header B u tar u.h).2.2
        (((mtar_read_header B u tar u.h).2.2.pos + RAW_SIZE) % U64)).1 = MTAR_ESUCCESS →
      (mtar_read_header B u tar u.h).2.1.size < n →
      (mtar_read_data B u tar n).1
        = (B.read (mtar_seek B (mtar_read_header B u tar u.h).2.2
            (((mtar_read_header B u tar u.h).2.2.pos + RAW_SIZE) % U64)).2.stream n).1 ∧
      ((B.read (mtar_seek B (mtar_read_header B u tar u.h).2.2
            (((mtar_read_header B u tar u.h).2.2.pos + RAW_SIZE) % U64)).2.stream n).1
          = MTAR_ESUCCESS →
        (mtar_read_data B u tar n).2.2.remaining_data
          = (mtar_read_header B u tar u.h).2.1.size + 2 ^ 64 - n) ∧
      (∀ m, MTAR_FILE_SIZE_MAX < m → (mtar_read_data B u tar m).1 = MTAR_EREADFAIL)) ∧
    (∀ (pre post : List Nat) (e : List Nat × List Nat) (lh : Nat), ValidEntry e →
      e.2.length < n → n ≤ e.2.length + pad512 e.2.length + post.length →
      pre.length + 512 + n < U64 →
      mtar_read_data memBackend u
          ⟨⟨pre ++ (entry_bytes e ++ post), pre.length⟩, pre.length, 0, lh⟩ n =
        (MTAR_ESUCCESS, (e.2 ++ (List.replicate (pad512 e.2.length) 0 ++ post)).take n,
          ⟨⟨pre ++ (entry_bytes e ++ post), pre.length + 512 + n⟩, pre.length + 512 + n,
            e.2.length + 2 ^ 64 - n, pre.length⟩)) := by
  subst hlen
  have hw := mtar_write_data_over B tar data hmax hover
  refine ⟨hw.1, hw.2, fun hrem => mtar_read_data_over B u tar data.length hmax hrem hover, ?_, ?_,
    fun hrem hhead hseek hsize =>
      mtar_read_data_start_over B u tar data.length hmax hrem hhead hseek hsize,
    fun pre post e lh he hov hle hl =>
      mtar_read_data_entry_over u pre post e lh data.length he hmax hov hle hl⟩
  · intro big hbig
    simp only [mtar_write_data, twrite, if_pos hbig]
    rw [if_pos (by simp [MTAR_EWRITEFAIL])]
  · intro m hrem hbig
    simp only [mtar_read_data, read_data_begin, if_neg hrem, tread, if_pos hbig]
    rw [if_neg (by simp [MTAR_ESUCCESS]), if_pos (by simp [MTAR_EREADFAIL])]

theorem over_long_transfer_wraps_witness :
    ((mtar_write_data memBackend ⟨⟨[7, 7, 7], 0⟩, 0, 1, 0⟩ [8, 8]).1
      = (memBackend.write ⟨[7, 7, 7], 0⟩ [8, 8]).1 ∧
    ((memBackend.write ⟨[7, 7, 7], 0⟩ [8, 8]).1 = MTAR_ESUCCESS →
      (mtar_write_data memBackend ⟨⟨[7, 7, 7], 0⟩, 0, 1, 0⟩ [8, 8]).2.remaining_data
        = 1 + 2 ^ 64 - 2) ∧
    ((1 : Nat) ≠ 0 →
      (mtar_read_data memBackend ⟨0, zero_header⟩ ⟨⟨[7, 7, 7], 0⟩, 0, 1, 0⟩ 2).1
        = (memBackend.read ⟨[7, 7, 7], 0⟩ 2).1 ∧
      ((memBackend.read ⟨[7, 7, 7], 0⟩ 2).1 = MTAR_ESUCCESS →
        (mtar_read_data memBackend ⟨0, zero_header⟩ ⟨⟨[7, 7, 7], 0⟩, 0, 1, 0⟩ 2).2.2.remaining_data
          = 1 + 2 ^ 64 - 2)) ∧
    (∀ big : List Nat, MTAR_FILE_SIZE_MAX < big.length →
      mtar_write_data memBackend ⟨⟨[7, 7, 7], 0⟩, 0, 1, 0⟩ big
        = (MTAR_EWRITEFAIL, ⟨⟨[7, 7, 7], 0⟩, 0, 1, 0⟩)) ∧
    (∀ n : Nat, (1 : Nat) ≠ 0 → MTAR_FILE_SIZE_MAX < n →
      mtar_read_data memBackend ⟨0, zero_header⟩ ⟨⟨[7, 7, 7], 0⟩, 0, 1, 0⟩ n
        = (MTAR_EREADFAIL, [], ⟨⟨[7, 7, 7], 0⟩, 0, 1, 0⟩))) ∧
    (mem_open one_entry_archive).remaining_data = 0 ∧
    (mtar_read_header memBackend ⟨0, zero_header⟩ (mem_open one_entry_archive) zero_header).1
      = MTAR_ESUCCESS ∧
    (mtar_read_header memBackend ⟨0, zero_header⟩ (mem_open one_entry_archive)
      zero_header).2.1.size = 1 ∧
    (mtar_read_data memBackend ⟨0, zero_header⟩ (mem_open one_entry_archive) 2).1
      = MTAR_ESUCCESS ∧
    (mtar_read_data memBackend ⟨0, zero_header⟩ (mem_open one_entry_archive) 2).2.2.remaining_data
      = 2 ^ 64 - 1 ∧
    mtar_read_data memBackend ⟨0, zero_header⟩ (mem_open one_entry_archive) 2
      = (MTAR_ESUCCESS, [9, 0], ⟨⟨one_entry_archive, 514⟩, 514, 2 ^ 64 - 1, 0⟩) := by
  obtain ⟨m1, m2, m3, m4, m5, -, -⟩ := over_long_transfer_wraps memBackend ⟨0, zero_header⟩
    ⟨⟨[7, 7, 7], 0⟩, 0, 1, 0⟩ 2 [8, 8] (by decide) (by decide) (by decide)
  obtain ⟨-, -, -, -, -, hgen, hmem⟩ := over_long_transfer_wraps memBackend ⟨0, zero_header⟩
    (mem_open one_entry_archive) 2 [8, 8] (by decide) (by decide) (by decide)
  have hh := one_entry_header ⟨0, zero_header⟩ zero_header
  have hsz : (mtar_read_header memBackend ⟨0, zero_header⟩ (mem_open one_entry_archive)
      zero_header).2.1.size = 1 := by
    rw [hh]
    rfl
  have hgen := hgen rfl (by rw [hh]) rfl (by rw [hsz]; decide)
  have hmem := hmem [] (List.replicate 1024 0) ([97], [9]) 0 one_entry_valid
    (by decide) (by rw [List.length_replicate]; decide) (by decide)
  have hp : pad512 ([9] : List Nat).length = 510 + 1 := by decide
  have hb : (([9] : List Nat) ++ (List.replicate (pad512 ([9] : List Nat).length) 0
      ++ List.replicate 1024 0)).take 2 = [9, 0] := by
    rw [hp, List.replicate_succ]
    rfl
  have hall : mtar_read_data memBackend ⟨0, zero_header⟩ (mem_open one_entry_archive) 2
      = (MTAR_ESUCCESS, [9, 0], ⟨⟨one_entry_archive, 514⟩, 514, 2 ^ 64 - 1, 0⟩) := by
    rw [one_entry_archive_eq, ← hb]
    exact hmem
  refine ⟨⟨m1, m2, m3, m4, m5⟩, rfl, by rw [hh], hsz, ?_, ?_, hall⟩
  · rw [hall]
  · rw [hgen.2.1 (by rw [hgen.1.symm, hall]), hsz]
    decide

/-! ## Archives written and read back: claims -/

/-- C2 (iteration completeness): for every list of entries, each with a name of
at most 99 bytes without NUL and a payload of at most `MTAR_FILE_SIZE_MAX`
bytes, whose archive fits the 64-bit offsets: `write_tar` on an empty
in-memory archive returns `MTAR_ESUCCESS` from every call, and on the stream
it leaves the loop of `read_tar` from a fresh cursor (with or without
`mtar_read_data` of the whole payload), given more header reads than there are
entries, stops at `MTAR_ENULLRECORD` having obtained exactly one header per
entry, in write order, each with status `MTAR_ESUCCESS`, the name and the size
written, and `MTAR_ESUCCESS` from `mtar_read_data` and `mtar_next`. -/
theorem iteration_completeness (u : Indet) (with_data : Bool) (es : List (List Nat × List Nat))
    (h0 : mtar_header_t) (fuel : Nat) (hv : ∀ e ∈ es, ValidEntry e)
    (hsize : archive_size es < U64) (hfuel : es.length < fuel) :
    (write_tar memBackend es (mem_open [])).1 = List.replicate (2 * es.length + 1) MTAR_ESUCCESS ∧
    ∃ steps tar',
      read_tar memBackend u with_data fuel
        (mem_open (write_tar memBackend es (mem_open [])).2.stream.data) h0 = some (steps, tar') ∧
      steps.length = es.length ∧
      steps.map (fun s => (s.err, cstr s.h.name, s.h.size, s.data_err, s.next_err))
        = es.map (fun e => (MTAR_ESUCCESS, e.1, e.2.length, MTAR_ESUCCESS, MTAR_ESUCCESS)) := by
  have hlen : (archive_bytes es).length < U64 := by
    rw [archive_size_eq es hv]
    exact hsize
  have hw := write_tar_mem es hv hlen
  have hr := read_tar_mem u with_data es [] 0 h0 fuel hfuel hv
    (by simpa only [List.length_nil, Nat.zero_add] using hlen)
  simp only [List.nil_append, List.length_nil, Nat.zero_add] at hr
  rw [hw]
  refine ⟨rfl, _, _, hr, by simp only [List.length_map], ?_⟩
  rw [List.map_map]
  apply List.map_congr_left
  intro e he
  have hve := hv e he
  simp only [Function.comp]
  rw [file_header_eq e.1 e.2.length hve.1 (fun b hb => (hve.2.1 b hb).1),
    cstr_field e.1 100 (fun b hb => (hve.2.1 b hb).1)]

theorem iteration_completeness_witness :
    (write_tar memBackend [([97], [1, 2, 3]), ([98, 99], [])] (mem_open [])).1
      = List.replicate (2 * [([97], [1, 2, 3]), ([98, 99], [])].length + 1) MTAR_ESUCCESS ∧
    ∃ steps tar',
      read_tar memBackend ⟨0, zero_header⟩ true 3
        (mem_open (write_tar memBackend [([97], [1, 2, 3]), ([98, 99], [])]
          (mem_open [])).2.stream.data) zero_header = some (steps, tar') ∧
      steps.length = [([97], [1, 2, 3]), ([98, 99], [])].length ∧
      steps.map (fun s => (s.err, cstr s.h.name, s.h.size, s.data_err, s.next_err))
        = [([97], [1, 2, 3]), ([98, 99], [])].map
            (fun e => (MTAR_ESUCCESS, e.1, e.2.length, MTAR_ESUCCESS, MTAR_ESUCCESS)) :=
  iteration_completeness ⟨0, zero_header⟩ true [([97], [1, 2, 3]), ([98, 99], [])] zero_header 3
    (by decide) (by decide) (by decide)

/-- C3 (find correctness): on the stream `write_tar` leaves for valid entries,
from any cursor state (stream offset, position, `remaining_data`,
`last_header`) and given more header reads than there are entries, `mtar_find`
of a name that is among the names written returns `MTAR_ESUCCESS` and stores
the header of the first entry of that name, with that name and the size of
that entry; of a name that is not among them it returns `MTAR_ENOTFOUND`. -/
theorem find_correctness (u : Indet) (es : List (List Nat × List Nat)) (name : List Nat)
    (off pos rem lh fuel : Nat) (hv : ∀ e ∈ es, ValidEntry e) (hsize : archive_size es < U64)
    (hfuel : es.length < fuel) (hname : ∀ b ∈ name, b ≠ 0) :
    (name ∈ es.map Prod.fst → ∃ e h tar',
      es.find? (fun e => decide (e.1 = name)) = some e ∧
      mtar_find memBackend u fuel
        ⟨⟨(write_tar memBackend es (mem_open [])).2.stream.data, off⟩, pos, rem, lh⟩ name
          = some (MTAR_ESUCCESS, some h, tar') ∧
      cstr h.name = name ∧ h.size = e.2.length) ∧
    (name ∉ es.map Prod.fst → ∃ tar',
      mtar_find memBackend u fuel
        ⟨⟨(write_tar memBackend es (mem_open [])).2.stream.data, off⟩, pos, rem, lh⟩ name
          = some (MTAR_ENOTFOUND, none, tar')) := by
  have hlen : (archive_bytes es).length < U64 := by
    rw [archive_size_eq es hv]
    exact hsize
  have hw := write_tar_mem es hv hlen
  obtain ⟨tar', hl⟩ := mtar_find_loop_mem u name hname es [] 0 u.h fuel hfuel hv
    (by simpa only [List.length_nil, Nat.zero_add] using hlen)
  simp only [List.nil_append, List.length_nil] at hl
  have hfind : mtar_find memBackend u fuel
      ⟨⟨archive_bytes es, off⟩, pos, rem, lh⟩ name =
      mtar_find_loop memBackend u name fuel ⟨⟨archive_bytes es, 0⟩, 0, 0, 0⟩ u.h := by
    simp only [mtar_find, mtar_rewind, mtar_seek_mem]
    rw [if_neg (by simp [MTAR_ESUCCESS])]
  rw [hw]
  simp only [hfind, hl]
  constructor
  · intro hmem
    obtain ⟨e, he, hen⟩ := List.mem_map.1 hmem
    have hsome : (es.find? (fun e => decide (e.1 = name))).isSome := by
      rw [List.find?_isSome]
      exact ⟨e, he, by simpa using hen⟩
    obtain ⟨e', he'⟩ := Option.isSome_iff_exists.1 hsome
    have hmem' := List.mem_of_find?_eq_some he'
    have hp := List.find?_some he'
    have hve := hv e' hmem'
    have hn' : e'.1 = name := by simpa using hp
    refine ⟨e', file_header e'.1 e'.2.length, tar', he', ?_, ?_, rfl⟩
    · rw [he']
    · rw [file_header_eq e'.1 e'.2.length hve.1 (fun b hb => (hve.2.1 b hb).1),
        cstr_field e'.1 100 (fun b hb => (hve.2.1 b hb).1), hn']
  · intro hnot
    have hnone : es.find? (fun e => decide (e.1 = name)) = none := by
      rw [List.find?_eq_none]
      intro e he
      have : e.1 ≠ name := fun h => hnot (List.mem_map.2 ⟨e, he, h⟩)
      simpa using this
    exact ⟨tar', by rw [hnone]⟩

theorem find_correctness_witness :
    ([98, 99] ∈ [([97], [1, 2, 3]), ([98, 99], [])].map Prod.fst → ∃ e h tar',
      [([97], [1, 2, 3]), ([98, 99], [])].find? (fun e => decide (e.1 = [98, 99])) = some e ∧
      mtar_find memBackend ⟨0, zero_header⟩ 3
        ⟨⟨(write_tar memBackend [([97], [1, 2, 3]), ([98, 99], [])] (mem_open [])).2.stream.data,
          7⟩, 9, 5, 1024⟩ [98, 99]
          = some (MTAR_ESUCCESS, some h, tar') ∧
      cstr h.name = [98, 99] ∧ h.size = e.2.length) ∧
    ([98, 99] ∉ [([97], [1, 2, 3]), ([98, 99], [])].map Prod.fst → ∃ tar',
      mtar_find memBackend ⟨0, zero_header⟩ 3
        ⟨⟨(write_tar memBackend [([97], [1, 2, 3]), ([98, 99], [])] (mem_open [])).2.stream.data,
          7⟩, 9, 5, 1024⟩ [98, 99]
          = some (MTAR_ENOTFOUND, none, tar')) :=
  find_correctness ⟨0, zero_header⟩ [([97], [1, 2, 3]), ([98, 99], [])] [98, 99] 7 9 5 1024 3
    (by decide) (by decide) (by decide) (by decide)

/-- C4 (payload integrity): for one entry with a payload `d` of at most
`MTAR_FILE_SIZE_MAX` bytes written by `write_tar` to an empty in-memory
archive, and every split of its length into `n1 ≥ 1` and `n2 ≥ 1`, a fresh
cursor (at the header of the entry, `remaining_data = 0`) gets `MTAR_ESUCCESS`
from `mtar_read_data n1` and from `mtar_read_data n2`; the two buffers are the
first `n1` bytes of `d` and the rest; afterwards `remaining_data = 0` and the
position is back at the header, offset 0 (`last_header`).  The first call
leaves the position behind the record and the `n1` bytes read, with `n2`
bytes outstanding, and the second call goes on from there. -/
theorem payload_integrity (u : Indet) (name d : List Nat) (n1 n2 : Nat)
    (hv : ValidEntry (name, d)) (h1 : 1 ≤ n1) (h2 : 1 ≤ n2) (hsplit : n1 + n2 = d.length) :
    (write_tar memBackend [(name, d)] (mem_open [])).1 = List.replicate 3 MTAR_ESUCCESS ∧
    (mtar_read_data memBackend u
      (mem_open (write_tar memBackend [(name, d)] (mem_open [])).2.stream.data) n1).1
        = MTAR_ESUCCESS ∧
    (mtar_read_data memBackend u
      (mem_open (write_tar memBackend [(name, d)] (mem_open [])).2.stream.data) n1).2.1
        = d.take n1 ∧
    (mtar_read_data memBackend u
      (mem_open (write_tar memBackend [(name, d)] (mem_open [])).2.stream.data) n1).2.2.pos
        = 512 + n1 ∧
    (mtar_read_data memBackend u
      (mem_open (write_tar memBackend [(name, d)]
        (mem_open [])).2.stream.data) n1).2.2.remaining_data = n2 ∧
    (mtar_read_data memBackend u
      (mem_open (write_tar memBackend [(name, d)]
        (mem_open [])).2.stream.data) n1).2.2.last_header = 0 ∧
    (mtar_read_data memBackend u (mtar_read_data memBackend u
      (mem_open (write_tar memBackend [(name, d)] (mem_open [])).2.stream.data) n1).2.2 n2).1
        = MTAR_ESUCCESS ∧
    (mtar_read_data memBackend u (mtar_read_data memBackend u
      (mem_open (write_tar memBackend [(name, d)] (mem_open [])).2.stream.data) n1).2.2 n2).2.1
        = d.drop n1 ∧
    (mtar_read_data memBackend u
      (mem_open (write_tar memBackend [(name, d)] (mem_open [])).2.stream.data) n1).2.1 ++
    (mtar_read_data memBackend u (mtar_read_data memBackend u
      (mem_open (write_tar memBackend [(name, d)] (mem_open [])).2.stream.data) n1).2.2 n2).2.1
        = d ∧
    (mtar_read_data memBackend u (mtar_read_data memBackend u
      (mem_open (write_tar memBackend [(name, d)]
        (mem_open [])).2.stream.data) n1).2.2 n2).2.2.remaining_data = 0 ∧
    (mtar_read_data memBackend u (mtar_read_data memBackend u
      (mem_open (write_tar memBackend [(name, d)]
        (mem_open [])).2.stream.data) n1).2.2 n2).2.2.pos = 0 ∧
    (mtar_read_data memBackend u (mtar_read_data memBackend u
      (mem_open (write_tar memBackend [(name, d)]
        (mem_open [])).2.stream.data) n1).2.2 n2).2.2.last_header = 0 := by
  have hm := max_lt_u64
  have hvs : ∀ e ∈ [(name, d)], ValidEntry e := by
    intro e he
    rw [List.mem_singleton] at he
    rw [he]
    exact hv
  have hmax : d.length ≤ MTAR_FILE_SIZE_MAX := hv.2.2
  have hk := pad512_lt d.length
  have hel := entry_bytes_length (name, d) hv
  simp only at hel
  have hlen : (archive_bytes [(name, d)]).length < U64 := by
    rw [archive_bytes_cons, List.length_append, hel, archive_bytes_nil, List.length_replicate]
    simp only [MTAR_FILE_SIZE_MAX, U64] at *
    omega
  have hw := write_tar_mem [(name, d)] hvs hlen
  have hdl : ([] ++ (entry_bytes (name, d) ++ archive_bytes [])).length
      = 512 + (d.length + pad512 d.length) + 1024 := by
    rw [List.nil_append, List.length_append, hel, archive_bytes_nil, List.length_replicate]
  have r1 := mtar_read_data_entry u [] (archive_bytes []) (name, d) 0 n1 hv (by omega)
    (by rw [hdl]; simp only [List.length_nil]; omega)
    (by simp only [List.length_nil, MTAR_FILE_SIZE_MAX, U64] at *; omega)
  have hw1 : (d.length + U64 - n1) % U64 = n2 := by
    simp only [MTAR_FILE_SIZE_MAX, U64] at *
    omega
  have hpay := entry_payload [] (archive_bytes []) (name, d) hv
  simp only [List.length_nil, Nat.zero_add] at r1 hpay
  rw [if_neg (by rw [hw1]; omega), hw1, hpay, List.take_append_of_le_length (by omega)] at r1
  have r2 := mtar_read_data_mid u ([] ++ (entry_bytes (name, d) ++ archive_bytes []))
    (512 + n1) (512 + n1) n2 0 n2 (by omega) (by omega) (by rw [hdl]; omega)
  have hw2 : (n2 + U64 - n2) % U64 = 0 := by
    simp only [U64]
    omega
  have hd2 : (([] ++ (entry_bytes (name, d) ++ archive_bytes [])).drop (512 + n1)).take n2
      = d.drop n1 := by
    rw [← List.drop_drop, hpay, List.drop_append_of_le_length (by omega)]
    exact List.take_left' (by rw [List.length_drop]; omega)
  rw [if_pos hw2, hd2] at r2
  have harch : archive_bytes [(name, d)] = [] ++ (entry_bytes (name, d) ++ archive_bytes []) := by
    rw [archive_bytes_cons, List.nil_append]
  rw [hw]
  simp only [mem_open, harch, r1, r2]
  exact ⟨rfl, trivial, trivial, trivial, trivial, trivial, trivial, trivial,
    List.take_append_drop n1 d, trivial, trivial, trivial⟩

theorem payload_integrity_witness :
    (write_tar memBackend [([97], [1, 2, 3])] (mem_open [])).1 = List.replicate 3 MTAR_ESUCCESS ∧
    (mtar_read_data memBackend ⟨0, zero_header⟩
      (mem_open (write_tar memBackend [([97], [1, 2, 3])] (mem_open [])).2.stream.data) 1).1
        = MTAR_ESUCCESS ∧
    (mtar_read_data memBackend ⟨0, zero_header⟩
      (mem_open (write_tar memBackend [([97], [1, 2, 3])] (mem_open [])).2.stream.data) 1).2.1
        = [1, 2, 3].take 1 ∧
    (mtar_read_data memBackend ⟨0, zero_header⟩
      (mem_open (write_tar memBackend [([97], [1, 2, 3])] (mem_open [])).2.stream.data) 1).2.2.pos
        = 512 + 1 ∧
    (mtar_read_data memBackend ⟨0, zero_header⟩
      (mem_open (write_tar memBackend [([97], [1, 2, 3])]
        (mem_open [])).2.stream.data) 1).2.2.remaining_data = 2 ∧
    (mtar_read_data memBackend ⟨0, zero_header⟩
      (mem_open (write_tar memBackend [([97], [1, 2, 3])]
        (mem_open [])).2.stream.data) 1).2.2.last_header = 0 ∧
    (mtar_read_data memBackend ⟨0, zero_header⟩ (mtar_read_data memBackend ⟨0, zero_header⟩
      (mem_open (write_tar memBackend [([97], [1, 2, 3])] (mem_open [])).2.stream.data) 1).2.2 2).1
        = MTAR_ESUCCESS ∧
    (mtar_read_data memBackend ⟨0, zero_header⟩ (mtar_read_data memBackend ⟨0, zero_header⟩
      (mem_open (write_tar memBackend [([97], [1, 2, 3])] (mem_open [])).2.stream.data) 1).2.2 2).2.1
        = [1, 2, 3].drop 1 ∧
    (mtar_read_data memBackend ⟨0, zero_header⟩
      (mem_open (write_tar memBackend [([97], [1, 2, 3])] (mem_open [])).2.stream.data) 1).2.1 ++
    (mtar_read_data memBackend ⟨0, zero_header⟩ (mtar_read_data memBackend ⟨0, zero_header⟩
      (mem_open (write_tar memBackend [([97], [1, 2, 3])] (mem_open [])).2.stream.data) 1).2.2 2).2.1
        = [1, 2, 3] ∧
    (mtar_read_data memBackend ⟨0, zero_header⟩ (mtar_read_data memBackend ⟨0, zero_header⟩
      (mem_open (write_tar memBackend [([97], [1, 2, 3])]
        (mem_open [])).2.stream.data) 1).2.2 2).2.2.remaining_data = 0 ∧
    (mtar_read_data memBackend ⟨0, zero_header⟩ (mtar_read_data memBackend ⟨0, zero_header⟩
      (mem_open (write_tar memBackend [([97], [1, 2, 3])]
        (mem_open [])).2.stream.data) 1).2.2 2).2.2.pos = 0 ∧
    (mtar_read_data memBackend ⟨0, zero_header⟩ (mtar_read_data memBackend ⟨0, zero_header⟩
      (mem_open (write_tar memBackend [([97], [1, 2, 3])]
        (mem_open [])).2.stream.data) 1).2.2 2).2.2.last_header = 0 :=
  payload_integrity ⟨0, zero_header⟩ [97] [1, 2, 3] 1 2 (by decide) (by decide) (by decide)
    (by decide)

/-! ## The windows of a laid-out record -/

/-- The ten field windows of a laid-out record. -/
theorem layout_windows (n m o s t c l : List Nat) (tf : Nat) (hn : n.length ≤ 100)
    (hm : m.length ≤ 8) (ho : o.length ≤ 8) (hs : s.length ≤ 12) (ht : t.length ≤ 12)
    (hc : c.length = 8) (hl : l.length ≤ 100) :
    (layout n m o s t c tf l).take 100 = field n 100 ∧
    ((layout n m o s t c tf l).drop 100).take 8 = field m 8 ∧
    ((layout n m o s t c tf l).drop 108).take 8 = field o 8 ∧
    ((layout n m o s t c tf l).drop 116).take 8 = List.replicate 8 0 ∧
    ((layout n m o s t c tf l).drop 124).take 12 = field s 12 ∧
    ((layout n m o s t c tf l).drop 136).take 12 = field t 12 ∧
    ((layout n m o s t c tf l).drop 148).take 8 = c ∧
    (layout n m o s t c tf l).getD 156 0 = tf ∧
    ((layout n m o s t c tf l).drop 157).take 100 = field l 100 ∧
    (layout n m o s t c tf l).drop 257 = List.replicate 255 0 := by
  obtain ⟨h100, h108, h124, h136, h148, h156, h157, -⟩ :=
    layout_drops n m o s t c l tf hn hm ho hs ht hc
  have lN := field_length n 100 hn
  have lM := field_length m 8 hm
  have lO := field_length o 8 ho
  have lS := field_length s 12 hs
  have lT := field_length t 12 ht
  have lL := field_length l 100 hl
  have h116 : (layout n m o s t c tf l).drop 116 = List.replicate 8 0 ++
      (field s 12 ++ (field t 12 ++ (c ++ (tf :: (field l 100 ++ List.replicate 255 0))))) :=
    drop_eq_of_append _ (field n 100 ++ (field m 8 ++ field o 8)) _ 116
      (by simp only [layout, List.append_assoc]) (by simp [lN, lM, lO])
  have h257 : (layout n m o s t c tf l).drop 257 = List.replicate 255 0 :=
    drop_eq_of_append _ (field n 100 ++ (field m 8 ++ (field o 8 ++ (List.replicate 8 0 ++
      (field s 12 ++ (field t 12 ++ (c ++ ([tf] ++ field l 100)))))))) _ 257
      (by simp only [layout, List.append_assoc, List.singleton_append, List.cons_append,
        List.nil_append])
      (by simp [lN, lM, lO, lS, lT, lL, hc])
  refine ⟨?_, ?_, ?_, ?_, ?_, ?_, ?_, ?_, ?_, h257⟩
  · exact List.take_left' lN
  · rw [h100]; exact List.take_left' lM
  · rw [h108]; exact List.take_left' lO
  · rw [h116]; exact List.take_left' (List.length_replicate _ _)
  · rw [h124]; exact List.take_left' lS
  · rw [h136]; exact List.take_left' lT
  · rw [h148]; exact List.take_left' hc
  · exact getD_of_drop _ _ 156 tf h156
  · rw [h157]; exact List.take_left' lL

theorem fmt_o64_zero : fmt_o64 0 = [48] := by decide

/-! ## The cursor over any backend -/

/-- Source function `mtar_read_header` when the read of the record and the seek back
succeed. -/
theorem mtar_read_header_ok (B : Backend σ) (u : Indet) (tar : mtar_t σ) (h : mtar_header_t)
    (hread : (rec_read B tar).1 = MTAR_ESUCCESS) (hback : (rec_back B tar).1 = MTAR_ESUCCESS) :
    mtar_read_header B u tar h =
      ((raw_to_header u.chksum2 h (rec_read B tar).2.1).1,
        (raw_to_header u.chksum2 h (rec_read B tar).2.1).2,
        ⟨(rec_back B tar).2, tar.pos, tar.remaining_data, tar.pos⟩) := by
  simp only [rec_read, rec_back, MTAR_ESUCCESS] at hread hback
  have hmax : ¬ RAW_SIZE > MTAR_FILE_SIZE_MAX := by simp [RAW_SIZE, MTAR_FILE_SIZE_MAX]
  simp only [mtar_read_header, tread, if_neg hmax, hread, mtar_seek, hback, rec_read, rec_back,
    ne_eq, not_true_eq_false, if_false, if_true]

/-- Source function `mtar_read_header` when the read of the record fails: the status
is that of the read and the position has been advanced all the same. -/
theorem mtar_read_header_read_fails (B : Backend σ) (u : Indet) (tar : mtar_t σ)
    (h : mtar_header_t) (hread : (rec_read B tar).1 ≠ MTAR_ESUCCESS) :
    mtar_read_header B u tar h =
      ((rec_read B tar).1, h,
        ⟨(rec_read B tar).2.2, (tar.pos + 512) % U64, tar.remaining_data, tar.pos⟩) := by
  simp only [rec_read, MTAR_ESUCCESS, RAW_SIZE] at hread
  have hmax : ¬ 512 > MTAR_FILE_SIZE_MAX := by simp [MTAR_FILE_SIZE_MAX]
  simp only [mtar_read_header, tread, RAW_SIZE, if_neg hmax, rec_read, ne_eq, hread,
    not_false_eq_true, if_true]

/-- The status of `raw_to_header` is one of three. -/
theorem raw_to_header_status (c : Nat) (h : mtar_header_t) (r : List Nat) :
    (raw_to_header c h r).1 = MTAR_ESUCCESS ∨ (raw_to_header c h r).1 = MTAR_ENULLRECORD ∨
      (raw_to_header c h r).1 = MTAR_EBADCHKSUM := by
  simp only [raw_to_header]
  split
  · exact Or.inr (Or.inl rfl)
  · split
    · exact Or.inr (Or.inr rfl)
    · exact Or.inl rfl

theorem sscanf_o64_idem (s : List Nat) (old : Nat) :
    sscanf_o64 s (sscanf_o64 s old) = sscanf_o64 s old := by
  simp only [sscanf_o64]
  cases scan_o64 s <;> rfl

/-- Decoding a record into the header a first decoding of it left gives the
same again. -/
theorem raw_to_header_again (c : Nat) (h : mtar_header_t) (r : List Nat) :
    raw_to_header c (raw_to_header c h r).2 r = raw_to_header c h r := by
  simp only [raw_to_header]
  split
  · simp only [if_true, *]
  · split
    · simp only [*, if_false, if_true]
    · simp only [*, if_false, sscanf_o64_idem]

/-- The status and header of `raw_to_header` do not depend on the initial value
of `chksum2` where the checksum field starts with a NUL or holds a number. -/
theorem raw_to_header_chksum2 (c c' : Nat) (h : mtar_header_t) (r : List Nat)
    (hs : r.getD 148 0 = 0 ∨ scan_o64 (r.drop 148) ≠ none) :
    raw_to_header c' h r = raw_to_header c h r := by
  rcases hs with h0 | hsome
  · simp only [raw_to_header, h0, if_true]
  · obtain ⟨v, hv⟩ := Option.ne_none_iff_exists'.1 hsome
    simp only [raw_to_header, sscanf_o64, hv, Option.getD_some]

theorem round_up_facts (s : Nat) (hs : s ≤ MTAR_FILE_SIZE_MAX) :
    round_up s = s + (512 - s % 512) % 512 ∧ round_up s % 512 = 0 ∧ s ≤ round_up s ∧
    round_up s < s + 512 ∧ (∀ m, m % 512 = 0 → s ≤ m → round_up s ≤ m) ∧
    (s % 512 = 0 → round_up s = s) := by
  have hr : round_up s = s + pad512 s :=
    round_up_eq s (by simp only [MTAR_FILE_SIZE_MAX, U64] at *; omega)
  rw [hr]
  simp only [pad512]
  refine ⟨trivial, by omega, by omega, by omega, fun m h1 h2 => by omega, fun h => by omega⟩

/-! ## Writing NUL bytes over any backend -/

theorem pos_after_succ (n : Nat) : ∀ p : Nat, pos_after (n + 1) p = (p + (n + 1)) % U64 := by
  induction n with
  | zero => intro p; rfl
  | succ n ih =>
    intro p
    rw [pos_after, ih, Nat.mod_add_mod]
    congr 1
    omega

theorem twrite_nul (B : Backend σ) (tar : mtar_t σ) :
    twrite B tar [0] = ((B.write tar.stream [0]).1,
      ⟨(B.write tar.stream [0]).2, (tar.pos + 1) % U64, tar.remaining_data, tar.last_header⟩) := by
  have : ¬ 1 > MTAR_FILE_SIZE_MAX := by simp [MTAR_FILE_SIZE_MAX]
  simp only [twrite, List.length_singleton, if_neg this]

/-- The loop of `write_null_bytes` while every write succeeds. -/
theorem write_null_loop_ok (B : Backend σ) (n : Nat) : ∀ tar : mtar_t σ,
    (∀ j, j < n → (B.write (nul_writes B j tar.stream) [0]).1 = MTAR_ESUCCESS) →
    write_null_loop B n tar = (MTAR_ESUCCESS,
      ⟨nul_writes B n tar.stream, pos_after n tar.pos, tar.remaining_data, tar.last_header⟩) := by
  induction n with
  | zero => intro tar _; rfl
  | succ n ih =>
    intro tar hok
    have h0 := hok 0 (by omega)
    simp only [nul_writes, MTAR_ESUCCESS] at h0
    rw [write_null_loop, twrite_nul]
    simp only [h0, ne_eq, not_true_eq_false, if_false]
    rw [ih ⟨(B.write tar.stream [0]).2, (tar.pos + 1) % U64, tar.remaining_data,
      tar.last_header⟩ (fun j hj => hok (j + 1) (by omega))]
    rfl

/-- The loop of `write_null_bytes` stops at the first write that fails, with
its status. -/
theorem write_null_loop_fails (B : Backend σ) (k : Nat) : ∀ (n : Nat) (tar : mtar_t σ), k < n →
    (∀ j, j < k → (B.write (nul_writes B j tar.stream) [0]).1 = MTAR_ESUCCESS) →
    (B.write (nul_writes B k tar.stream) [0]).1 ≠ MTAR_ESUCCESS →
    write_null_loop B n tar = ((B.write (nul_writes B k tar.stream) [0]).1,
      ⟨nul_writes B (k + 1) tar.stream, pos_after (k + 1) tar.pos, tar.remaining_data,
        tar.last_header⟩) := by
  induction k with
  | zero =>
    intro n tar hn _ hfail
    obtain ⟨m, rfl⟩ := Nat.exists_eq_succ_of_ne_zero (show n ≠ 0 by omega)
    simp only [nul_writes, MTAR_ESUCCESS] at hfail
    rw [write_null_loop, twrite_nul]
    simp only [hfail, ne_eq, not_false_eq_true, if_true]
    rfl
  | succ k ih =>
    intro n tar hn hok hfail
    obtain ⟨m, rfl⟩ := Nat.exists_eq_succ_of_ne_zero (show n ≠ 0 by omega)
    have h0 := hok 0 (by omega)
    simp only [nul_writes, MTAR_ESUCCESS] at h0
    rw [write_null_loop, twrite_nul]
    simp only [h0, ne_eq, not_true_eq_false, if_false]
    rw [ih m ⟨(B.write tar.stream [0]).2, (tar.pos + 1) % U64, tar.remaining_data,
      tar.last_header⟩ (by omega) (fun j hj => hok (j + 1) (by omega)) hfail]
    rfl

theorem nul_writes_mem (n : Nat) : ∀ (d : List Nat) (o : Nat),
    nul_writes memBackend (n + 1) ⟨d, o⟩ = ⟨memStore d o (List.replicate (n + 1) 0), o + (n + 1)⟩ := by
  induction n with
  | zero => intro d o; rfl
  | succ n ih =>
    intro d o
    rw [nul_writes]
    have h1 : (memBackend.write ⟨d, o⟩ [0]).2 = ⟨memStore d o [0], o + 1⟩ := rfl
    rw [h1, ih]
    have hm := memStore_memStore d [0] (List.replicate (n + 1) 0) o
    simp only [List.length_singleton] at hm
    rw [hm, show o + 1 + (n + 1) = o + (n + 1 + 1) by omega]
    rfl

theorem rec_read_mem (d : List Nat) (p q rem lh : Nat) (h : p + 512 ≤ d.length) :
    rec_read memBackend ⟨⟨d, p⟩, q, rem, lh⟩
      = (MTAR_ESUCCESS, (d.drop p).take 512, ⟨d, p + 512⟩) := by
  simp only [rec_read, memBackend, RAW_SIZE, if_pos h]

theorem rec_read_mem_ok (d : List Nat) (p q rem lh : Nat) (h : p + 512 ≤ d.length) :
    (rec_read memBackend ⟨⟨d, p⟩, q, rem, lh⟩).1 = MTAR_ESUCCESS := by
  rw [rec_read_mem d p q rem lh h]

theorem rec_back_mem_ok (tar : mtar_t MemStream) :
    (rec_back memBackend tar).1 = MTAR_ESUCCESS := rfl

/-! ## Records whose numeric text runs past its field -/

/-- A record with a non-NUL first checksum byte whose checksum text scans as
its checksum is accepted; each numeric field is what the scan from the field
offset on gives. -/
theorem raw_to_header_accept (c : Nat) (h0 : mtar_header_t) (r : List Nat)
    (h148 : r.getD 148 0 ≠ 0) (hsum : checksum r = sscanf_o64 (r.drop 148) c) :
    raw_to_header c h0 r = (MTAR_ESUCCESS,
      { mode := sscanf_o64 (r.drop 100) h0.mode
        owner := sscanf_o64 (r.drop 108) h0.owner
        size := sscanf_o64 (r.drop 124) h0.size
        mtime := sscanf_o64 (r.drop 136) h0.mtime
        typeflag := r.getD 156 0
        name := strncpy r 100
        linkname := strncpy (r.drop 157) 100 }) := by
  simp only [raw_to_header, if_neg h148, ← hsum, ne_eq, not_true_eq_false, if_false]

theorem wrap_record_length : wrap_record.length = 512 :=
  layout_length _ _ _ _ _ _ _ _ (by decide) (by decide) (by decide) (by decide) (by decide)
    (by decide) (by decide)

theorem wrap_record_checksum : checksum wrap_record = 1583 := by
  have hb : ∀ b ∈ wrap_record, b < 256 :=
    layout_bytes _ _ _ _ _ _ _ _ (by decide) (by decide) (by decide) (by decide) (by decide)
      (by decide) (by decide) (by decide)
  rw [wrap_record, checksum_layout _ _ _ _ _ _ _ _ (by decide) (by decide) (by decide) (by decide)
    (by decide) (by decide) (by decide) hb]
  simp only [field, List.sum_append, List.sum_cons, List.sum_nil, List.sum_replicate,
    smul_eq_mul, Nat.mul_zero]
  rfl

/-- What `raw_to_header` gives for `wrap_record`: success, the size
`2 ^ 64 - 512` and an empty name. -/
theorem wrap_record_decodes (c : Nat) (h0 : mtar_header_t) :
    (raw_to_header c h0 wrap_record).1 = MTAR_ESUCCESS ∧
    (raw_to_header c h0 wrap_record).2.size = 2 ^ 64 - 512 ∧
    (raw_to_header c h0 wrap_record).2.name = List.replicate 100 0 := by
  obtain ⟨-, -, h124, -, h148, -, -, -⟩ := layout_drops [] [48] [48]
    [49, 55, 55, 55, 55, 55, 55, 55, 55, 55, 55, 55] [55, 55, 55, 55, 55, 55, 55, 48, 48, 48]
    ([48, 48, 51, 48, 53, 55] ++ [0, 32]) [] 48 (by decide) (by decide) (by decide) (by decide)
    (by decide) (by decide)
  have hname : strncpy wrap_record 100 = field [] 100 :=
    strncpy_field [] _ (by decide) (by decide)
  have e148 : wrap_record.drop 148 = [48, 48, 51, 48, 53, 55] ++
      0 :: (32 :: 48 :: (field [] 100 ++ List.replicate 255 0)) := h148
  have e124 : wrap_record.drop 124 =
      [49, 55, 55, 55, 55, 55, 55, 55, 55, 55, 55, 55, 55, 55, 55, 55, 55, 55, 55, 48, 48, 48] ++
        0 :: (0 :: (([48, 48, 51, 48, 53, 55] ++ [0, 32]) ++
          (48 :: (field [] 100 ++ List.replicate 255 0)))) := h124
  have hget : wrap_record.getD 148 0 = 48 := getD_of_drop _ _ 148 48 e148
  have sc := sscanf_o64_digits [48, 48, 51, 48, 53, 55]
    (0 :: (32 :: 48 :: (field [] 100 ++ List.replicate 255 0))) c (by decide) (by decide)
    (by decide) (not_isodigit_head_zero _)
  have ss := sscanf_o64_digits
    [49, 55, 55, 55, 55, 55, 55, 55, 55, 55, 55, 55, 55, 55, 55, 55, 55, 55, 55, 48, 48, 48]
    (0 :: (0 :: (([48, 48, 51, 48, 53, 55] ++ [0, 32]) ++
      (48 :: (field [] 100 ++ List.replicate 255 0))))) h0.size (by decide) (by decide)
    (by decide) (not_isodigit_head_zero _)
  have hacc := raw_to_header_accept c h0 wrap_record (by rw [hget]; decide)
    (by rw [e148, sc, wrap_record_checksum]; decide)
  rw [hacc]
  refine ⟨rfl, ?_, ?_⟩
  · show sscanf_o64 (wrap_record.drop 124) h0.size = 2 ^ 64 - 512
    rw [e124, ss]
    decide
  · show strncpy wrap_record 100 = List.replicate 100 0
    rw [hname]
    rfl

theorem wrap_record_read (u : Indet) (h : mtar_header_t) :
    mtar_read_header memBackend u ⟨⟨wrap_record, 0⟩, 0, 0, 0⟩ h =
      (MTAR_ESUCCESS, (raw_to_header u.chksum2 h wrap_record).2, ⟨⟨wrap_record, 0⟩, 0, 0, 0⟩) := by
  have h1 := mtar_read_header_mem u wrap_record 0 0 0 h (by rw [wrap_record_length])
  have h2 : (wrap_record.drop 0).take 512 = wrap_record :=
    List.take_of_length_le (by rw [List.drop_zero, wrap_record_length])
  rw [h1, h2, (wrap_record_decodes u.chksum2 h).1]

/-- At `wrap_record` the function `mtar_next` succeeds and leaves the cursor where it
was: `round_up(size) + 512` is `2 ^ 64`, which is 0 in 64-bit arithmetic. -/
theorem wrap_record_next (u : Indet) :
    mtar_next memBackend u ⟨⟨wrap_record, 0⟩, 0, 0, 0⟩
      = (MTAR_ESUCCESS, ⟨⟨wrap_record, 0⟩, 0, 0, 0⟩) := by
  have hsz := (wrap_record_decodes u.chksum2 u.h).2.1
  have hn : (0 + (round_up (2 ^ 64 - 512) + RAW_SIZE) % U64) % U64 = 0 := by decide
  simp only [mtar_next, wrap_record_read, hsz, hn, mtar_seek_mem]
  rw [if_neg (by simp [MTAR_ESUCCESS])]

/-- The loop of `mtar_find` at `wrap_record`, looking for another name, does not
return, however many header reads it is given. -/
theorem wrap_record_find_loop (u : Indet) (fuel : Nat) : ∀ header : mtar_header_t,
    mtar_find_loop memBackend u [97] fuel ⟨⟨wrap_record, 0⟩, 0, 0, 0⟩ header = none := by
  induction fuel with
  | zero => intro header; rfl
  | succ fuel ih =>
    intro header
    have hname := (wrap_record_decodes u.chksum2 header).2.2
    have hs : streq (raw_to_header u.chksum2 header wrap_record).2.name [97] = false := by
      rw [hname]
      simp only [streq, cstr_replicate_zero]
      decide
    rw [mtar_find_loop, wrap_record_read]
    dsimp only
    rw [if_pos rfl, hs, if_neg (by decide), wrap_record_next]
    exact ih _

/-- What `raw_to_header` gives for a record whose mode field is filled by
`00000644` and whose owner field starts with the digit `o`: the mode is the
value of the nine digits `00000644o`. -/
theorem full_mode_decodes (c : Nat) (h0 : mtar_header_t) (o : Nat) (c6 : List Nat)
    (ho : 48 ≤ o ∧ o ≤ 55) (hc6 : c6.length = 6) (hdig : ∀ d ∈ c6, 48 ≤ d ∧ d ≤ 55)
    (hval : octValue c6 = 798 + o) :
    (full_mode_record o c6).length = 512 ∧
    (raw_to_header c h0 (full_mode_record o c6)).1 = MTAR_ESUCCESS ∧
    (raw_to_header c h0 (full_mode_record o c6)).2.mode = 3360 + (o - 48) ∧
    ((full_mode_record o c6).drop 100).take 8 = [48, 48, 48, 48, 48, 54, 52, 52] := by
  have hc8 : (c6 ++ [0, 32]).length = 8 := by simp [hc6]
  have hc6ne : c6 ≠ [] := by
    intro h
    rw [h] at hc6
    simp at hc6
  obtain ⟨h100, -, -, -, h148, -, -, -⟩ := layout_drops [] [48, 48, 48, 48, 48, 54, 52, 52] [o]
    [48] [48] (c6 ++ [0, 32]) [] 48 (by decide) (by decide) (by simp) (by decide)
    (by decide) hc8
  have hw := (layout_windows [] [48, 48, 48, 48, 48, 54, 52, 52] [o] [48] [48] (c6 ++ [0, 32]) []
    48 (by decide) (by decide) (by simp) (by decide) (by decide) hc8 (by decide)).2.1
  have hlen := layout_length [] [48, 48, 48, 48, 48, 54, 52, 52] [o] [48] [48] (c6 ++ [0, 32]) []
    48 (by decide) (by decide) (by simp) (by decide) (by decide) hc8 (by decide)
  have hb : ∀ b ∈ full_mode_record o c6, b < 256 :=
    layout_bytes _ _ _ _ _ _ _ _ (by decide) (by decide)
      (by intro b hb; rw [List.mem_singleton] at hb; omega) (by decide) (by decide)
      (by
        intro b hb
        simp only [List.mem_append, List.mem_cons, List.mem_singleton, List.not_mem_nil,
          or_false] at hb
        rcases hb with hb | hb | hb
        · have := hdig b hb
          omega
        · omega
        · omega)
      (by decide) (by decide)
  have hsum : checksum (full_mode_record o c6) = 798 + o := by
    rw [full_mode_record, checksum_layout _ _ _ _ _ _ _ _ (by decide) (by decide) (by simp)
      (by decide) (by decide) hc8 (by decide) hb]
    simp only [field, List.sum_append, List.sum_cons, List.sum_nil, List.sum_replicate,
      smul_eq_mul, Nat.mul_zero]
    omega
  have e148 : (full_mode_record o c6).drop 148 = c6 ++
      0 :: (32 :: 48 :: (field [] 100 ++ List.replicate 255 0)) := by
    rw [full_mode_record, h148]
    simp only [List.append_assoc, List.cons_append, List.nil_append]
  have e100 : (full_mode_record o c6).drop 100 = [48, 48, 48, 48, 48, 54, 52, 52, o] ++
      0 :: (List.replicate 6 0 ++ (List.replicate 8 0 ++ (field [48] 12 ++ (field [48] 12 ++
        ((c6 ++ [0, 32]) ++ (48 :: (field [] 100 ++ List.replicate 255 0))))))) := by
    rw [full_mode_record, h100]
    rfl
  have h64 : octValue c6 < U64 := by
    rw [hval]
    simp only [U64]
    omega
  obtain ⟨d, c6', rfl⟩ := List.exists_cons_of_ne_nil hc6ne
  have hd := hdig d (List.mem_cons_self _ _)
  have hget : (full_mode_record o (d :: c6')).getD 148 0 = d :=
    getD_of_drop _ _ 148 d (by rw [e148]; rfl)
  have sc := sscanf_o64_digits (d :: c6')
    (0 :: (32 :: 48 :: (field [] 100 ++ List.replicate 255 0))) c hc6ne hdig h64
    (not_isodigit_head_zero _)
  have hmd : ∀ x ∈ [48, 48, 48, 48, 48, 54, 52, 52, o], 48 ≤ x ∧ x ≤ 55 := by
    intro x hx
    simp only [List.mem_cons, List.mem_singleton, List.not_mem_nil, or_false] at hx
    omega
  have hmv : octValue [48, 48, 48, 48, 48, 54, 52, 52, o] = 3360 + (o - 48) := by
    simp only [octValue, List.foldl_cons, List.foldl_nil]
  have sm := sscanf_o64_digits [48, 48, 48, 48, 48, 54, 52, 52, o] _ h0.mode (by simp) hmd
    (by rw [hmv]; simp only [U64]; omega)
    (not_isodigit_head_zero (List.replicate 6 0 ++ (List.replicate 8 0 ++ (field [48] 12 ++
      (field [48] 12 ++ (((d :: c6') ++ [0, 32]) ++
        (48 :: (field [] 100 ++ List.replicate 255 0))))))))
  have hacc := raw_to_header_accept c h0 (full_mode_record o (d :: c6')) (by rw [hget]; omega)
    (by rw [e148, sc, hsum, hval])
  have hmode : sscanf_o64 ((full_mode_record o (d :: c6')).drop 100) h0.mode
      = 3360 + (o - 48) := by
    rw [e100, sm, hmv]
  refine ⟨hlen, ?_, ?_, hw⟩
  · rw [hacc]
  · rw [hacc]
    exact hmode

/-! ## The reference backend at the end of the file -/

/-- At the end of a file without device failure, `fread` stores nothing, keeps the
offset and leaves the error flag as it was. -/
theorem fread_at_end (f : CFile) (n : Nat) (hfail : f.fail_at = none)
    (hoff : f.data.length ≤ f.off) :
    (fread f n).1 = [] ∧ (fread f n).2.off = f.off ∧ (fread f n).2.err = f.err ∧
    (fread f n).2.data = f.data ∧ (fread f n).2.fail_at = none := by
  have hgot : ((f.data.take f.data.length).drop f.off).take n = [] := by
    rw [List.take_length, List.drop_eq_nil_of_le hoff, List.take_nil]
  simp only [fread, hfail, hgot, List.length_nil, Nat.add_zero, Option.isSome_none,
    Bool.false_and, Bool.and_false, Bool.or_false, and_self]

/-- With bytes outstanding at the end of a file without device failure and
without error flag, the loop of `file_read` does not return, however many calls
of `fread` it is given. -/
theorem file_read_loop_at_end (size : Nat) (hsize : size < U64) (fuel : Nat) :
    ∀ (f : CFile) (buf : List Nat) (ptr res r_sz : Nat), f.fail_at = none → f.err = false →
    f.data.length ≤ f.off → res < size →
    file_read_loop size fuel f buf ptr res r_sz = none := by
  induction fuel with
  | zero => intro f buf ptr res r_sz _ _ _ _; rfl
  | succ fuel ih =>
    intro f buf ptr res r_sz hfail herr hoff hres
    obtain ⟨h1, h2, h3, h4, h5⟩ := fread_at_end f
      (if (r_sz + res) % U64 > size then (size + U64 - res) % U64 else r_sz) hfail hoff
    rw [file_read_loop, if_pos hres]
    simp only [h1, h3, herr, List.length_nil, Nat.add_zero, Bool.false_eq_true, if_false,
      Nat.mod_eq_of_lt (Nat.lt_trans hres hsize)]
    exact ih _ _ _ _ _ h5 (by rw [h3, herr]) (by rw [h4, h2]; exact hoff) hres

/-! ## The cursor at the end marker, and a record whose checksum field holds no number -/

theorem rec_back_mem_open (d : List Nat) (h : 0 + 512 ≤ d.length) :
    rec_back memBackend (mem_open d) = (MTAR_ESUCCESS, ⟨d, 0⟩) := by
  rw [rec_back, mem_open, rec_read_mem d 0 0 0 0 h]
  rfl

theorem end_marker_length : 0 + 512 ≤ (List.replicate 1024 (0 : Nat)).length := by
  rw [List.length_replicate]
  decide

/-- At the end marker the record read does not decode: `MTAR_ENULLRECORD`. -/
theorem next_decode_end (u : Indet) :
    (next_decode memBackend u (mem_open (List.replicate 1024 0))).1 = MTAR_ENULLRECORD := by
  have h1 := mtar_read_header_ok memBackend u (mem_open (List.replicate 1024 0)) u.h
    (rec_read_mem_ok _ 0 0 0 0 end_marker_length) (rec_back_mem_ok _)
  have h2 := mtar_read_header_end u [] 0 0 u.h
  rw [List.nil_append, List.length_nil] at h2
  rw [mem_open] at h1
  rw [h2, Prod.mk.injEq] at h1
  rw [next_decode, mem_open]
  exact h1.1.symm

theorem stray_record_length : stray_record.length = 512 :=
  layout_length _ _ _ _ _ _ _ _ (by decide) (by decide) (by decide) (by decide) (by decide)
    (by decide) (by decide)

theorem stray_record_checksum : checksum stray_record = 256 := by
  have hb : ∀ b ∈ stray_record, b < 256 :=
    layout_bytes _ _ _ _ _ _ _ _ (by decide) (by decide) (by decide) (by decide) (by decide)
      (by decide) (by decide) (by decide)
  rw [stray_record, checksum_layout _ _ _ _ _ _ _ _ (by decide) (by decide) (by decide) (by decide)
    (by decide) (by decide) (by decide) hb]
  simp only [field, List.sum_append, List.sum_cons, List.sum_nil, List.sum_replicate,
    smul_eq_mul, Nat.mul_zero]
  rfl

theorem stray_record_field : stray_record.drop 148 =
    120 :: ([0, 0, 0, 0, 0, 0, 0] ++ (0 :: (field [] 100 ++ List.replicate 255 0))) := by
  obtain ⟨-, -, -, -, h148, -, -, -⟩ := layout_drops [] [] [] [] [] [120, 0, 0, 0, 0, 0, 0, 0] []
    0 (by decide) (by decide) (by decide) (by decide) (by decide) (by decide)
  exact h148

/-- The scan of the checksum field of `stray_record` converts nothing. -/
theorem stray_record_scan : scan_o64 (stray_record.drop 148) = none := by
  rw [stray_record_field]
  rfl

/-- What `raw_to_header` returns for `stray_record` hangs on the initial value
of `chksum2`: the record is accepted when that value is its checksum, 256. -/
theorem raw_to_header_stray (c : Nat) (h0 : mtar_header_t) :
    (raw_to_header c h0 stray_record).1
      = if c = 256 then MTAR_ESUCCESS else MTAR_EBADCHKSUM := by
  have hget : stray_record.getD 148 0 = 120 := getD_of_drop _ _ 148 120 stray_record_field
  have h148 : ¬ stray_record.getD 148 0 = 0 := by
    rw [hget]
    decide
  have hs : sscanf_o64 (stray_record.drop 148) c = c := by
    rw [sscanf_o64, stray_record_scan]
    rfl
  simp only [raw_to_header, if_neg h148, stray_record_checksum, hs]
  by_cases hc : c = 256
  · rw [if_pos hc, if_neg (by rw [hc]; decide)]
  · rw [if_neg hc, if_pos (fun h => hc h.symm)]

/-- Source function `mtar_read_header` on the stream of `stray_record` alone. -/
theorem mtar_read_header_stray (u : Indet) (h : mtar_header_t) :
    (mtar_read_header memBackend u (mem_open stray_record) h).1
      = (if u.chksum2 = 256 then MTAR_ESUCCESS else MTAR_EBADCHKSUM) ∧
    (mtar_read_header memBackend u (mem_open stray_record) h).2.2 = mem_open stray_record := by
  have hle : 0 + 512 ≤ stray_record.length := by
    rw [stray_record_length]
  have h1 := mtar_read_header_mem u stray_record 0 0 0 h hle
  have ht : (stray_record.drop 0).take 512 = stray_record := by
    rw [List.drop_zero, ← stray_record_length, List.take_length]
  rw [ht] at h1
  rw [mem_open, h1]
  dsimp only
  exact ⟨raw_to_header_stray u.chksum2 h, rfl⟩

/-- Source function `mtar_read_header` does not consume the record: for every
backend, cursor at position `p` and caller's header, when the read of the
record and the seek back succeed, it returns the status and the header
`raw_to_header` gives for the 512 bytes read, one of `MTAR_ESUCCESS`,
`MTAR_ENULLRECORD` and `MTAR_EBADCHKSUM`, and leaves the position at `p`,
`last_header = p` and `remaining_data` as it was.  A second call right after,
when the backend delivers the same bytes again, returns the same status and
header provided the uninitialised `chksum2` is the same again, or the checksum
field starts with a NUL or holds a number.  On the in-memory backend the bytes
read are those at offsets `p .. p + 511`, and the stream is as before the
call. -/
theorem mtar_read_header_in_place (B : Backend σ) (u : Indet) (tar : mtar_t σ)
    (h : mtar_header_t) (hread : (rec_read B tar).1 = MTAR_ESUCCESS)
    (hback : (rec_back B tar).1 = MTAR_ESUCCESS) :
    mtar_read_header B u tar h =
      ((raw_to_header u.chksum2 h (rec_read B tar).2.1).1,
        (raw_to_header u.chksum2 h (rec_read B tar).2.1).2,
        ⟨(rec_back B tar).2, tar.pos, tar.remaining_data, tar.pos⟩) ∧
    ((mtar_read_header B u tar h).1 = MTAR_ESUCCESS ∨
      (mtar_read_header B u tar h).1 = MTAR_ENULLRECORD ∨
      (mtar_read_header B u tar h).1 = MTAR_EBADCHKSUM) ∧
    (∀ u2 : Indet,
      (rec_read B (mtar_read_header B u tar h).2.2).1 = MTAR_ESUCCESS →
      (rec_back B (mtar_read_header B u tar h).2.2).1 = MTAR_ESUCCESS →
      (rec_read B (mtar_read_header B u tar h).2.2).2.1 = (rec_read B tar).2.1 →
      (u2.chksum2 = u.chksum2 ∨ (rec_read B tar).2.1.getD 148 0 = 0 ∨
        scan_o64 ((rec_read B tar).2.1.drop 148) ≠ none) →
      (mtar_read_header B u2 (mtar_read_header B u tar h).2.2
          (mtar_read_header B u tar h).2.1).1 = (mtar_read_header B u tar h).1 ∧
      (mtar_read_header B u2 (mtar_read_header B u tar h).2.2
          (mtar_read_header B u tar h).2.1).2.1 = (mtar_read_header B u tar h).2.1 ∧
      (mtar_read_header B u2 (mtar_read_header B u tar h).2.2
          (mtar_read_header B u tar h).2.1).2.2.pos = tar.pos) ∧
    (∀ (d : List Nat) (p rem lh : Nat), p + 512 ≤ d.length →
      mtar_read_header memBackend u ⟨⟨d, p⟩, p, rem, lh⟩ h =
        ((raw_to_header u.chksum2 h ((d.drop p).take 512)).1,
          (raw_to_header u.chksum2 h ((d.drop p).take 512)).2, ⟨⟨d, p⟩, p, rem, p⟩)) := by
  have h1 := mtar_read_header_ok B u tar h hread hback
  refine ⟨h1, ?_, ?_, fun d p rem lh hle => mtar_read_header_mem u d p rem lh h hle⟩
  · rw [h1]
    exact raw_to_header_status _ _ _
  · intro u2 hread2 hback2 hsame hc
    rw [h1] at hread2 hback2 hsame ⊢
    simp only at hread2 hback2 hsame ⊢
    have h2 := mtar_read_header_ok B u2 ⟨(rec_back B tar).2, tar.pos, tar.remaining_data, tar.pos⟩
      (raw_to_header u.chksum2 h (rec_read B tar).2.1).2 hread2 hback2
    rw [h2, hsame]
    have hu : raw_to_header u2.chksum2 (raw_to_header u.chksum2 h (rec_read B tar).2.1).2
        (rec_read B tar).2.1
        = raw_to_header u.chksum2 (raw_to_header u.chksum2 h (rec_read B tar).2.1).2
          (rec_read B tar).2.1 := by
      rcases hc with hc | hc
      · rw [hc]
      · exact raw_to_header_chksum2 _ _ _ _ hc
    rw [hu, raw_to_header_again]
    exact ⟨rfl, rfl, rfl⟩

/-! ## The layout of the encoded record: claims -/

/-- C11 (encode layout): for every header `h` whose field values fit (type flag
zero allowed), the record `header_to_raw h` has 512 bytes: the string of
`h.name` at offset 0, NUL filled to 100 bytes; the octal texts of mode at 100,
owner at 108, size at 124 and mtime at 136, each NUL filled to its field of 8,
8, 12 and 12 bytes and each ending before the end of the field; a group field
of NUL bytes at 116; at offset 156 the type flag, or `'0'` when it is zero; the
string of `h.linkname` at offset 157, NUL filled to 100 bytes; and 255 NUL
bytes from offset 257.  The octal texts are minimal: octal digits of the
value, and a leading `'0'` only for the text `"0"` of the value zero. -/
theorem encode_layout (h : mtar_header_t) (hf : FieldsFit h) :
    (header_to_raw h).length = 512 ∧
    (header_to_raw h).take 100
      = cstr h.name ++ List.replicate (100 - (cstr h.name).length) 0 ∧
    ((header_to_raw h).drop 100).take 8
      = fmt_o64 h.mode ++ List.replicate (8 - (fmt_o64 h.mode).length) 0 ∧
    ((header_to_raw h).drop 108).take 8
      = fmt_o64 h.owner ++ List.replicate (8 - (fmt_o64 h.owner).length) 0 ∧
    ((header_to_raw h).drop 116).take 8 = List.replicate 8 0 ∧
    ((header_to_raw h).drop 124).take 12
      = fmt_o64 h.size ++ List.replicate (12 - (fmt_o64 h.size).length) 0 ∧
    ((header_to_raw h).drop 136).take 12
      = fmt_o64 h.mtime ++ List.replicate (12 - (fmt_o64 h.mtime).length) 0 ∧
    (header_to_raw h).getD 156 0 = (if h.typeflag = 0 then MTAR_TREG else h.typeflag) ∧
    ((header_to_raw h).drop 157).take 100
      = cstr h.linkname ++ List.replicate (100 - (cstr h.linkname).length) 0 ∧
    (header_to_raw h).drop 257 = List.replicate 255 0 ∧
    (fmt_o64 h.mode).length < 8 ∧ (fmt_o64 h.owner).length < 8 ∧
    (fmt_o64 h.size).length < 12 ∧ (fmt_o64 h.mtime).length < 12 ∧
    ∀ v ∈ [h.mode, h.owner, h.size, h.mtime],
      fmt_o64 v ≠ [] ∧ (∀ c ∈ fmt_o64 v, 48 ≤ c ∧ c ≤ 55) ∧ octValue (fmt_o64 v) = v ∧
      ((fmt_o64 v).head? = some 48 → fmt_o64 v = [48]) ∧ (v = 0 → fmt_o64 v = [48]) := by
  obtain ⟨h7, h11⟩ := fmt_fields h hf
  obtain ⟨hlen6, -, -⟩ := fmt_06o64_spec _ (checksum_pre_lt h hf)
  have hM := (h7 h.mode (by simp)).2.1
  have hO := (h7 h.owner (by simp)).2.1
  have hS := (h11 h.size (by simp)).2.1
  have hT := (h11 h.mtime (by simp)).2.1
  have hn := hf.2.2.2.2.2.2.1
  have hl := hf.2.2.2.2.2.2.2.2.2.1
  have hw := layout_windows (cstr h.name) (fmt_o64 h.mode) (fmt_o64 h.owner) (fmt_o64 h.size)
    (fmt_o64 h.mtime) (fmt_06o64 (checksum (layout_pre h)) ++ [0, 32]) (cstr h.linkname)
    (raw_typeflag h) (by omega) (by omega) (by omega) (by omega) (by omega)
    (by simp [hlen6]) (by omega)
  have htf : raw_typeflag h = (if h.typeflag = 0 then MTAR_TREG else h.typeflag) := by
    simp only [raw_typeflag]
    by_cases h0 : h.typeflag = 0 <;> simp [h0]
  have hmin : ∀ v, fmt_o64 v ≠ [] ∧ (fmt_o64 v).length ≤ 11 ∧
      (∀ c ∈ fmt_o64 v, 48 ≤ c ∧ c ≤ 55) ∧ octValue (fmt_o64 v) = v ∧ v < U64 →
      ((fmt_o64 v).head? = some 48 → v = 0) →
      fmt_o64 v ≠ [] ∧ (∀ c ∈ fmt_o64 v, 48 ≤ c ∧ c ≤ 55) ∧ octValue (fmt_o64 v) = v ∧
      ((fmt_o64 v).head? = some 48 → fmt_o64 v = [48]) ∧ (v = 0 → fmt_o64 v = [48]) := by
    intro v hv hhead
    refine ⟨hv.1, hv.2.2.1, hv.2.2.2.1, fun hh => ?_, fun h0 => ?_⟩
    · rw [hhead hh]
      exact fmt_o64_zero
    · rw [h0]
      exact fmt_o64_zero
  have h64 : ∀ v, v < 8 ^ 11 → v < U64 := by
    intro v hv
    simp only [U64]
    omega
  have hsz : h.size < 8 ^ 11 := by
    have := hf.2.2.1
    simp only [MTAR_FILE_SIZE_MAX] at this
    omega
  rw [header_to_raw_eq_layout h hf]
  simp only [layout_full]
  refine ⟨layout_full_length h hf, hw.1, hw.2.1, hw.2.2.1, hw.2.2.2.1, hw.2.2.2.2.1,
    hw.2.2.2.2.2.1, ?_, hw.2.2.2.2.2.2.2.2.1, hw.2.2.2.2.2.2.2.2.2, by omega, by omega, by omega,
    by omega, ?_⟩
  · rw [hw.2.2.2.2.2.2.2.1, htf]
  · intro v hv
    simp only [List.mem_cons, List.mem_singleton, List.not_mem_nil, or_false] at hv
    rcases hv with rfl | rfl | rfl | rfl
    · have a := h7 h.mode (by simp)
      exact hmin _ ⟨a.1, by omega, a.2.2.1, a.2.2.2.1, a.2.2.2.2⟩
        (fmt_o64_spec _ 7 (by norm_num) (by norm_num) hf.1 a.2.2.2.2).2.2.2.2
    · have a := h7 h.owner (by simp)
      exact hmin _ ⟨a.1, by omega, a.2.2.1, a.2.2.2.1, a.2.2.2.2⟩
        (fmt_o64_spec _ 7 (by norm_num) (by norm_num) hf.2.1 a.2.2.2.2).2.2.2.2
    · have a := h11 h.size (by simp)
      exact hmin _ a (fmt_o64_spec _ 11 (by norm_num) (by norm_num) hsz a.2.2.2.2).2.2.2.2
    · have a := h11 h.mtime (by simp)
      exact hmin _ a
        (fmt_o64_spec _ 11 (by norm_num) (by norm_num) hf.2.2.2.1 a.2.2.2.2).2.2.2.2

theorem sample_header_fits : FieldsFit sample_header := by
  decide

theorem encode_layout_witness :
    (header_to_raw sample_header).length = 512 ∧
    (header_to_raw sample_header).take 100
      = cstr sample_header.name ++ List.replicate (100 - (cstr sample_header.name).length) 0 ∧
    ((header_to_raw sample_header).drop 100).take 8
      = fmt_o64 sample_header.mode ++
          List.replicate (8 - (fmt_o64 sample_header.mode).length) 0 ∧
    ((header_to_raw sample_header).drop 108).take 8
      = fmt_o64 sample_header.owner ++
          List.replicate (8 - (fmt_o64 sample_header.owner).length) 0 ∧
    ((header_to_raw sample_header).drop 116).take 8 = List.replicate 8 0 ∧
    ((header_to_raw sample_header).drop 124).take 12
      = fmt_o64 sample_header.size ++
          List.replicate (12 - (fmt_o64 sample_header.size).length) 0 ∧
    ((header_to_raw sample_header).drop 136).take 12
      = fmt_o64 sample_header.mtime ++
          List.replicate (12 - (fmt_o64 sample_header.mtime).length) 0 ∧
    (header_to_raw sample_header).getD 156 0
      = (if sample_header.typeflag = 0 then MTAR_TREG else sample_header.typeflag) ∧
    ((header_to_raw sample_header).drop 157).take 100
      = cstr sample_header.linkname ++
          List.replicate (100 - (cstr sample_header.linkname).length) 0 ∧
    (header_to_raw sample_header).drop 257 = List.replicate 255 0 ∧
    (fmt_o64 sample_header.mode).length < 8 ∧ (fmt_o64 sample_header.owner).length < 8 ∧
    (fmt_o64 sample_header.size).length < 12 ∧ (fmt_o64 sample_header.mtime).length < 12 ∧
    ∀ v ∈ [sample_header.mode, sample_header.owner, sample_header.size, sample_header.mtime],
      fmt_o64 v ≠ [] ∧ (∀ c ∈ fmt_o64 v, 48 ≤ c ∧ c ≤ 55) ∧ octValue (fmt_o64 v) = v ∧
      ((fmt_o64 v).head? = some 48 → fmt_o64 v = [48]) ∧ (v = 0 → fmt_o64 v = [48]) :=
  encode_layout sample_header sample_header_fits

/-- C12 (checksum field format): for every header `h` whose field values fit,
the checksum field of `r = header_to_raw h` (offsets 148..155) is six octal
digits, a NUL and a space; the digits are `checksum r` printed in octal and
padded with `'0'` to six digits, and their value is `checksum r`.  Six digits
suffice: the checksum of any record of 512 bytes is at most
`256 + 504 * 255 = 128776`, below `8 ^ 6`. -/
theorem checksum_field_format (h : mtar_header_t) (hf : FieldsFit h) :
    ((header_to_raw h).drop 148).take 8 = fmt_06o64 (checksum (header_to_raw h)) ++ [0, 32] ∧
    (fmt_06o64 (checksum (header_to_raw h))).length = 6 ∧
    (∀ c ∈ fmt_06o64 (checksum (header_to_raw h)), 48 ≤ c ∧ c ≤ 55) ∧
    octValue (fmt_06o64 (checksum (header_to_raw h))) = checksum (header_to_raw h) ∧
    fmt_06o64 (checksum (header_to_raw h))
      = List.replicate (6 - (fmt_o64 (checksum (header_to_raw h))).length) 48
          ++ fmt_o64 (checksum (header_to_raw h)) ∧
    (header_to_raw h).getD 154 0 = 0 ∧ (header_to_raw h).getD 155 0 = 32 ∧
    (∀ r : List Nat, r.length = 512 → (∀ b ∈ r, b < 256) →
      checksum r ≤ 256 + 504 * 255 ∧ checksum r < 8 ^ 6) := by
  have hdrop := header_to_raw_drop_148 h hf
  obtain ⟨-, hdig, hval, -, hlen6⟩ := checksum_text h hf
  generalize header_to_raw h = r at *
  generalize hc : fmt_06o64 (checksum r) = c6 at *
  refine ⟨?_, hlen6, hdig, hval, ?_, ?_, ?_, ?_⟩
  · rw [hdrop]
    have : c6 ++ 0 :: 32 :: raw_typeflag h :: (field (cstr h.linkname) 100 ++
        List.replicate 255 0) = (c6 ++ [0, 32]) ++ (raw_typeflag h ::
          (field (cstr h.linkname) 100 ++ List.replicate 255 0)) := by
      simp only [List.append_assoc, List.cons_append, List.nil_append]
    rw [this]
    exact List.take_left' (by simp [hlen6])
  · rw [← hc]
    rfl
  · have : r.drop 154 = 0 :: 32 :: raw_typeflag h :: (field (cstr h.linkname) 100 ++
        List.replicate 255 0) := by
      rw [show 154 = 148 + 6 by rfl, ← List.drop_drop, hdrop]
      exact List.drop_left' hlen6
    exact getD_of_drop r _ 154 0 this
  · have : r.drop 155 = 32 :: raw_typeflag h :: (field (cstr h.linkname) 100 ++
        List.replicate 255 0) := by
      rw [show 155 = 148 + 7 by rfl, ← List.drop_drop, hdrop]
      exact drop_eq_of_append _ (c6 ++ [0]) _ 7
        (by simp only [List.append_assoc, List.cons_append, List.nil_append])
        (by simp [hlen6])
    exact getD_of_drop r _ 155 32 this
  · intro r' hl hb
    have := checksum_le r' hl hb
    omega

theorem checksum_field_format_witness :
    ((header_to_raw sample_header).drop 148).take 8
      = fmt_06o64 (checksum (header_to_raw sample_header)) ++ [0, 32] ∧
    (fmt_06o64 (checksum (header_to_raw sample_header))).length = 6 ∧
    (∀ c ∈ fmt_06o64 (checksum (header_to_raw sample_header)), 48 ≤ c ∧ c ≤ 55) ∧
    octValue (fmt_06o64 (checksum (header_to_raw sample_header)))
      = checksum (header_to_raw sample_header) ∧
    fmt_06o64 (checksum (header_to_raw sample_header))
      = List.replicate (6 - (fmt_o64 (checksum (header_to_raw sample_header))).length) 48
          ++ fmt_o64 (checksum (header_to_raw sample_header)) ∧
    (header_to_raw sample_header).getD 154 0 = 0 ∧
    (header_to_raw sample_header).getD 155 0 = 32 ∧
    (∀ r : List Nat, r.length = 512 → (∀ b ∈ r, b < 256) →
      checksum r ≤ 256 + 504 * 255 ∧ checksum r < 8 ^ 6) :=
  checksum_field_format sample_header sample_header_fits

/-! ## The cursor over any backend: claims -/

/-- C13 (advance to the next entry): for every backend and cursor at position
`o`, when the read of the record and the seek back succeed: if the record
decodes with `MTAR_ESUCCESS` to a size `s` of at most `MTAR_FILE_SIZE_MAX`,
`o + s + 1024` is below `2 ^ 64` and the seek to `o + 512 + round_up s`
succeeds, then `mtar_next` returns `MTAR_ESUCCESS` with the position
`o + 512 + round_up s`, `last_header = o` and `remaining_data` unchanged; if the
record does not decode, `mtar_next` returns the status of `raw_to_header` and
the position is `o`.  For `s` up to `MTAR_FILE_SIZE_MAX`, `round_up s` is
`s + (512 - s % 512) % 512`, the least multiple of 512 from `s` on, below
`s + 512`, and `s` itself when 512 divides `s`. -/
theorem advance_to_next (B : Backend σ) (u : Indet) (tar : mtar_t σ)
    (hread : (rec_read B tar).1 = MTAR_ESUCCESS) (hback : (rec_back B tar).1 = MTAR_ESUCCESS) :
    ((next_decode B u tar).1 = MTAR_ESUCCESS →
      (next_decode B u tar).2.size ≤ MTAR_FILE_SIZE_MAX →
      tar.pos + (next_decode B u tar).2.size + 1024 < U64 →
      (B.seek (rec_back B tar).2
        (tar.pos + 512 + round_up (next_decode B u tar).2.size)).1 = MTAR_ESUCCESS →
      mtar_next B u tar = (MTAR_ESUCCESS,
        ⟨(B.seek (rec_back B tar).2
            (tar.pos + 512 + round_up (next_decode B u tar).2.size)).2,
          tar.pos + 512 + round_up (next_decode B u tar).2.size, tar.remaining_data, tar.pos⟩)) ∧
    ((next_decode B u tar).1 ≠ MTAR_ESUCCESS →
      mtar_next B u tar = ((next_decode B u tar).1,
        ⟨(rec_back B tar).2, tar.pos, tar.remaining_data, tar.pos⟩)) ∧
    (∀ s, s ≤ MTAR_FILE_SIZE_MAX →
      round_up s = s + (512 - s % 512) % 512 ∧ round_up s % 512 = 0 ∧ s ≤ round_up s ∧
      round_up s < s + 512 ∧ (∀ m, m % 512 = 0 → s ≤ m → round_up s ≤ m) ∧
      (s % 512 = 0 → round_up s = s)) := by
  have h1 := mtar_read_header_ok B u tar u.h hread hback
  refine ⟨?_, ?_, round_up_facts⟩
  · intro hdec hs hfit hseek
    simp only [next_decode, MTAR_ESUCCESS] at hdec hs hfit hseek ⊢
    have hr := (round_up_facts _ hs).2.2.2.1
    have hn : (tar.pos + (round_up (raw_to_header u.chksum2 u.h (rec_read B tar).2.1).2.size
        + RAW_SIZE) % U64) % U64
        = tar.pos + 512 + round_up (raw_to_header u.chksum2 u.h (rec_read B tar).2.1).2.size := by
      simp only [RAW_SIZE, U64] at *
      omega
    simp only [mtar_next, h1, hdec, ne_eq, not_true_eq_false, if_false, hn, mtar_seek, hseek,
      if_true]
  · intro hdec
    simp only [next_decode, MTAR_ESUCCESS] at hdec ⊢
    simp only [mtar_next, h1, ne_eq, hdec, not_false_eq_true, if_true]

theorem advance_to_next_witness :
    (rec_read memBackend (mem_open one_entry_archive)).1 = MTAR_ESUCCESS ∧
    (rec_back memBackend (mem_open one_entry_archive)).1 = MTAR_ESUCCESS ∧
    (next_decode memBackend ⟨0, zero_header⟩ (mem_open one_entry_archive)).1 = MTAR_ESUCCESS ∧
    (next_decode memBackend ⟨0, zero_header⟩ (mem_open one_entry_archive)).2.size = 1 ∧
    round_up 1 = 512 ∧
    mtar_next memBackend ⟨0, zero_header⟩ (mem_open one_entry_archive)
      = (MTAR_ESUCCESS, ⟨⟨one_entry_archive, 1024⟩, 1024, 0, 0⟩) ∧
    (next_decode memBackend ⟨0, zero_header⟩ (mem_open (List.replicate 1024 0))).1
      = MTAR_ENULLRECORD ∧
    mtar_next memBackend ⟨0, zero_header⟩ (mem_open (List.replicate 1024 0))
      = (MTAR_ENULLRECORD, ⟨⟨List.replicate 1024 0, 0⟩, 0, 0, 0⟩) := by
  have hlen : 0 + 512 ≤ one_entry_archive.length := by
    rw [one_entry_archive_length]
    decide
  have hread := rec_read_mem_ok one_entry_archive 0 0 0 0 hlen
  have hback := rec_back_mem_ok (mem_open one_entry_archive)
  have h1 := mtar_read_header_ok memBackend ⟨0, zero_header⟩ (mem_open one_entry_archive)
    zero_header hread hback
  rw [one_entry_header, Prod.mk.injEq, Prod.mk.injEq] at h1
  have hdec : (next_decode memBackend ⟨0, zero_header⟩ (mem_open one_entry_archive)).1
      = MTAR_ESUCCESS := by
    rw [next_decode]
    exact h1.1.symm
  have hhdr : (next_decode memBackend ⟨0, zero_header⟩ (mem_open one_entry_archive)).2
      = file_header [97] 1 := by
    rw [next_decode]
    exact h1.2.1.symm
  have hsize : (next_decode memBackend ⟨0, zero_header⟩ (mem_open one_entry_archive)).2.size
      = 1 := by
    rw [hhdr]
    rfl
  have key := (advance_to_next memBackend ⟨0, zero_header⟩ (mem_open one_entry_archive)
    hread hback).1 hdec (by rw [hsize]; decide) (by rw [hsize]; decide) rfl
  rw [hsize, rec_back_mem_open one_entry_archive hlen] at key
  have hnul := next_decode_end ⟨0, zero_header⟩
  have key0 := (advance_to_next memBackend ⟨0, zero_header⟩ (mem_open (List.replicate 1024 0))
    (rec_read_mem_ok _ 0 0 0 0 end_marker_length) (rec_back_mem_ok _)).2.1
    (by rw [hnul]; decide)
  rw [hnul, rec_back_mem_open _ end_marker_length] at key0
  exact ⟨hread, hback, hdec, hsize, by decide, key, hnul, key0⟩

/-- C14 (calling `mtar_read_header` twice in a row), evaluated on the stream of
`stray_record` alone, 512 bytes that are NUL but for the letter `x` at offset
148.  The scan of the checksum field converts nothing, so `raw_to_header`
compares the checksum of the record, 256, with the value its uninitialised
local `chksum2` happens to hold.  Whatever that value, `mtar_read_header` leaves
the cursor as it was, at position 0, and it returns `MTAR_ESUCCESS` when the
value is 256 and `MTAR_EBADCHKSUM` otherwise: a first call with the value 256
returns `MTAR_ESUCCESS`, and a second call right after, on the same bytes and
the same cursor, with the value 0 returns `MTAR_EBADCHKSUM`. -/
theorem read_header_twice_differs (h : mtar_header_t) :
    stray_record.length = 512 ∧ checksum stray_record = 256 ∧
    scan_o64 (stray_record.drop 148) = none ∧
    (∀ u : Indet,
      (mtar_read_header memBackend u (mem_open stray_record) h).1
        = (if u.chksum2 = 256 then MTAR_ESUCCESS else MTAR_EBADCHKSUM) ∧
      (mtar_read_header memBackend u (mem_open stray_record) h).2.2 = mem_open stray_record) ∧
    (mtar_read_header memBackend ⟨256, h⟩ (mem_open stray_record) h).1 = MTAR_ESUCCESS ∧
    (mtar_read_header memBackend ⟨0, h⟩
      (mtar_read_header memBackend ⟨256, h⟩ (mem_open stray_record) h).2.2
      (mtar_read_header memBackend ⟨256, h⟩ (mem_open stray_record) h).2.1).1
        = MTAR_EBADCHKSUM := by
  refine ⟨stray_record_length, stray_record_checksum, stray_record_scan,
    fun u => mtar_read_header_stray u h, ?_, ?_⟩
  · rw [(mtar_read_header_stray ⟨256, h⟩ h).1]
    rfl
  · rw [(mtar_read_header_stray ⟨256, h⟩ h).2, (mtar_read_header_stray ⟨0, h⟩ _).1]
    rfl

/-- C15 (finalize): for every backend and cursor at position `p`: when the 1024
writes of one NUL byte succeed, `mtar_finalize` returns `MTAR_ESUCCESS`, the
stream is the one after these 1024 writes, the position is `p + 1024` (in
64-bit arithmetic) and `remaining_data` and `last_header` are unchanged; when
the write number `k + 1` is the first to fail, `mtar_finalize` returns its
status and the stream is the one after that write, no write following.  On the
in-memory backend 1024 NUL bytes are stored at the offset, which at the end of
the buffer appends two records of 512 NUL bytes; such a record decodes as
`MTAR_ENULLRECORD`. -/
theorem finalize_writes_end_marker (B : Backend σ) (tar : mtar_t σ) :
    ((∀ j, j < 1024 → (B.write (nul_writes B j tar.stream) [0]).1 = MTAR_ESUCCESS) →
      mtar_finalize B tar = (MTAR_ESUCCESS,
        ⟨nul_writes B 1024 tar.stream, (tar.pos + 1024) % U64, tar.remaining_data,
          tar.last_header⟩) ∧
      (tar.pos + 1024 < U64 → (mtar_finalize B tar).2.pos = tar.pos + 1024)) ∧
    (∀ k, k < 1024 →
      (∀ j, j < k → (B.write (nul_writes B j tar.stream) [0]).1 = MTAR_ESUCCESS) →
      (B.write (nul_writes B k tar.stream) [0]).1 ≠ MTAR_ESUCCESS →
      mtar_finalize B tar = ((B.write (nul_writes B k tar.stream) [0]).1,
        ⟨nul_writes B (k + 1) tar.stream, (tar.pos + (k + 1)) % U64, tar.remaining_data,
          tar.last_header⟩)) ∧
    (∀ (d : List Nat) (o p rem lh : Nat),
      mtar_finalize memBackend ⟨⟨d, o⟩, p, rem, lh⟩ = (MTAR_ESUCCESS,
        ⟨⟨memStore d o (List.replicate 1024 0), o + 1024⟩, (p + 1024) % U64, rem, lh⟩)) ∧
    (∀ d : List Nat, memStore d d.length (List.replicate 1024 0)
      = d ++ (List.replicate 512 0 ++ List.replicate 512 0)) ∧
    (∀ (c : Nat) (h0 : mtar_header_t),
      raw_to_header c h0 (List.replicate 512 0) = (MTAR_ENULLRECORD, h0)) := by
  have hn : ((2 * RAW_SIZE : Nat) : Int).toNat = 1023 + 1 := by simp [RAW_SIZE]
  refine ⟨?_, ?_, ?_, ?_, ?_⟩
  · intro hok
    have h1 := write_null_loop_ok B 1024 tar hok
    have h2 : mtar_finalize B tar = (MTAR_ESUCCESS,
        ⟨nul_writes B 1024 tar.stream, (tar.pos + 1024) % U64, tar.remaining_data,
          tar.last_header⟩) := by
      simp only [mtar_finalize, write_null_bytes, hn]
      rw [h1, pos_after_succ 1023]
    refine ⟨h2, fun hp => ?_⟩
    rw [h2]
    exact Nat.mod_eq_of_lt hp
  · intro k hk hok hfail
    have h1 := write_null_loop_fails B k 1024 tar hk hok hfail
    simp only [mtar_finalize, write_null_bytes, hn]
    rw [h1, pos_after_succ k]
  · intro d o p rem lh
    simp only [mtar_finalize, write_null_bytes, hn]
    exact write_null_loop_mem 1023 d o p rem lh
  · intro d
    rw [memStore_end, ← List.replicate_add]
  · intro c h0
    simp only [raw_to_header, getD_replicate_zero, if_true]

/-- C16 (convenience headers): for every backend, cursor, size and name of at
most 99 bytes, none of them NUL, `mtar_write_file_header name size` is
`mtar_write_header` on the header of mode `0o664`, owner 0, that size, mtime
0, type flag `'0'`, that name and an empty link name, and
`mtar_write_dir_header name` is `mtar_write_header` on the header of mode
`0o775`, size 0, type flag `'5'`, that name and the rest alike: same status,
same cursor, same bytes written.  For every header `h`, `mtar_write_header`
hands the first 512 bytes of `header_to_raw h` (all of it when the fields fit)
to the backend write, returns its status, and leaves the position advanced by 512
and `remaining_data = h.size`. -/
theorem convenience_headers (B : Backend σ) (tar : mtar_t σ) (name : List Nat) (size : Nat)
    (hn : name.length ≤ 99) (h0 : ∀ b ∈ name, b ≠ 0) :
    mtar_write_file_header B tar name size
      = mtar_write_header B tar (plain_header 0o664 size MTAR_TREG name) ∧
    mtar_write_dir_header B tar name
      = mtar_write_header B tar (plain_header 0o775 0 MTAR_TDIR name) ∧
    cstr (plain_header 0o664 size MTAR_TREG name).name = name ∧
    cstr (plain_header 0o664 size MTAR_TREG name).linkname = [] ∧
    MTAR_TREG = 48 ∧ MTAR_TDIR = 53 ∧
    (∀ h : mtar_header_t,
      mtar_write_header B tar h =
        ((B.write tar.stream ((header_to_raw h).take 512)).1,
          ⟨(B.write tar.stream ((header_to_raw h).take 512)).2, (tar.pos + 512) % U64, h.size,
            tar.last_header⟩) ∧
      ((header_to_raw h).take 512).length = 512 ∧
      (FieldsFit h → (header_to_raw h).take 512 = header_to_raw h)) := by
  have hfile : file_header name size = plain_header 0o664 size MTAR_TREG name :=
    file_header_eq name size hn h0
  have hdir : dir_header name = plain_header 0o775 0 MTAR_TDIR name := by
    simp only [dir_header, zero_header, strcpy_zero_array name hn h0]
    rfl
  refine ⟨?_, ?_, ?_, ?_, rfl, rfl, ?_⟩
  · rw [mtar_write_file_header, hfile]
  · rw [mtar_write_dir_header, hdir]
  · exact cstr_field name 100 h0
  · exact cstr_replicate_zero 100
  · intro h
    refine ⟨mtar_write_header_eq B tar h, header_to_raw_take_length h, fun hf => ?_⟩
    exact List.take_of_length_le (by rw [header_to_raw_length h hf])

theorem convenience_headers_witness :
    mtar_write_file_header memBackend (mem_open []) [97, 46, 99] 7
      = mtar_write_header memBackend (mem_open []) (plain_header 0o664 7 MTAR_TREG [97, 46, 99]) ∧
    mtar_write_dir_header memBackend (mem_open []) [97, 46, 99]
      = mtar_write_header memBackend (mem_open []) (plain_header 0o775 0 MTAR_TDIR [97, 46, 99]) ∧
    cstr (plain_header 0o664 7 MTAR_TREG [97, 46, 99]).name = [97, 46, 99] ∧
    cstr (plain_header 0o664 7 MTAR_TREG [97, 46, 99]).linkname = [] ∧
    MTAR_TREG = 48 ∧ MTAR_TDIR = 53 ∧
    (∀ h : mtar_header_t,
      mtar_write_header memBackend (mem_open []) h =
        ((memBackend.write (mem_open []).stream ((header_to_raw h).take 512)).1,
          ⟨(memBackend.write (mem_open []).stream ((header_to_raw h).take 512)).2,
            ((mem_open []).pos + 512) % U64, h.size, (mem_open []).last_header⟩) ∧
      ((header_to_raw h).take 512).length = 512 ∧
      (FieldsFit h → (header_to_raw h).take 512 = header_to_raw h)) :=
  convenience_headers memBackend (mem_open []) [97, 46, 99] 7 (by decide) (by decide)

/-- C17 (a failed read), evaluated on the empty in-memory stream: the read of
the record fails with `MTAR_EREADFAIL` and leaves the stream offset at 0;
`mtar_read_header` returns that status, but the position is 512, not 0:
`tread` adds the size to the position whatever the read returned, and
`mtar_read_header` returns without seeking back.  A second call takes 512 for
the offset of the header.  This is so for every backend whose read fails. -/
theorem failed_read_moves_position :
    (rec_read memBackend (mem_open [])).1 = MTAR_EREADFAIL ∧
    (rec_read memBackend (mem_open [])).2.2.off = 0 ∧
    (mtar_read_header memBackend ⟨0, zero_header⟩ (mem_open []) zero_header).1
      = MTAR_EREADFAIL ∧
    (mtar_read_header memBackend ⟨0, zero_header⟩ (mem_open []) zero_header).2.2.pos = 512 ∧
    (mtar_read_header memBackend ⟨0, zero_header⟩ (mem_open []) zero_header).2.2.stream.off = 0 ∧
    (mtar_read_header memBackend ⟨0, zero_header⟩
      (mtar_read_header memBackend ⟨0, zero_header⟩ (mem_open []) zero_header).2.2
        zero_header).2.2.last_header = 512 ∧
    (∀ (B : Backend σ) (u : Indet) (tar : mtar_t σ) (h : mtar_header_t),
      (rec_read B tar).1 ≠ MTAR_ESUCCESS → tar.pos < U64 →
      (mtar_read_header B u tar h).1 = (rec_read B tar).1 ∧
      (mtar_read_header B u tar h).2.2.pos = (tar.pos + 512) % U64 ∧
      (mtar_read_header B u tar h).2.2.pos ≠ tar.pos) := by
  refine ⟨rfl, rfl, rfl, rfl, rfl, rfl, ?_⟩
  intro B u tar h hfail hp
  rw [mtar_read_header_read_fails B u tar h hfail]
  refine ⟨rfl, rfl, ?_⟩
  simp only [U64] at *
  omega

/-! ## Records and files the library did not write: claims -/

/-- C18 (find terminates), evaluated on a stream of one record over the
in-memory backend, whose operations all succeed here: `wrap_record` has 512
bytes and a valid checksum and decodes to the size `2 ^ 64 - 512`; at it
`mtar_next` returns `MTAR_ESUCCESS` and leaves the position at 0, since
`round_up(size) + 512` is 0 in 64-bit arithmetic; and `mtar_find` of the name
`"a"` does not return within `fuel` header reads, whatever `fuel` is: no
iteration moves the position. -/
theorem find_does_not_return (u : Indet) (fuel : Nat) :
    wrap_record.length = 512 ∧
    (raw_to_header u.chksum2 u.h wrap_record).1 = MTAR_ESUCCESS ∧
    (raw_to_header u.chksum2 u.h wrap_record).2.size = 2 ^ 64 - 512 ∧
    (round_up (2 ^ 64 - 512) + RAW_SIZE) % U64 = 0 ∧
    mtar_next memBackend u (mem_open wrap_record) = (MTAR_ESUCCESS, mem_open wrap_record) ∧
    mtar_find memBackend u fuel (mem_open wrap_record) [97] = none := by
  have hd := wrap_record_decodes u.chksum2 u.h
  refine ⟨wrap_record_length, hd.1, hd.2.1, by decide, wrap_record_next u, ?_⟩
  have hr : mtar_rewind memBackend (mem_open wrap_record)
      = (MTAR_ESUCCESS, ⟨⟨wrap_record, 0⟩, 0, 0, 0⟩) := by
    simp only [mtar_rewind, mem_open, mtar_seek_mem]
  rw [mtar_find, hr]
  dsimp only
  rw [if_neg (by decide)]
  exact wrap_record_find_loop u fuel u.h

/-- C19 (each numeric field from its own window), evaluated on two records of
512 bytes with valid checksums that agree on the mode window, filled by the
digits `00000644`, and differ in the first byte of the owner field (`'7'` and
`'1'`): `raw_to_header` accepts both and decodes the modes `0o6447` and
`0o6441`, neither of them the value `0o644` of the window: the scan of a field
without terminator runs on into the next field. -/
theorem mode_read_past_its_window (c : Nat) (h0 : mtar_header_t) :
    (full_mode_record 55 [48, 48, 49, 53, 50, 53]).length = 512 ∧
    (full_mode_record 49 [48, 48, 49, 53, 49, 55]).length = 512 ∧
    (raw_to_header c h0 (full_mode_record 55 [48, 48, 49, 53, 50, 53])).1 = MTAR_ESUCCESS ∧
    (raw_to_header c h0 (full_mode_record 49 [48, 48, 49, 53, 49, 55])).1 = MTAR_ESUCCESS ∧
    ((full_mode_record 55 [48, 48, 49, 53, 50, 53]).drop 100).take 8
      = ((full_mode_record 49 [48, 48, 49, 53, 49, 55]).drop 100).take 8 ∧
    octValue (((full_mode_record 55 [48, 48, 49, 53, 50, 53]).drop 100).take 8) = 0o644 ∧
    (raw_to_header c h0 (full_mode_record 55 [48, 48, 49, 53, 50, 53])).2.mode = 0o6447 ∧
    (raw_to_header c h0 (full_mode_record 49 [48, 48, 49, 53, 49, 55])).2.mode = 0o6441 := by
  obtain ⟨a1, a2, a3, a4⟩ := full_mode_decodes c h0 55 [48, 48, 49, 53, 50, 53] (by decide)
    (by decide) (by decide) (by decide)
  obtain ⟨b1, b2, b3, b4⟩ := full_mode_decodes c h0 49 [48, 48, 49, 53, 49, 55] (by decide)
    (by decide) (by decide) (by decide)
  refine ⟨a1, b1, a2, b2, by rw [a4, b4], by rw [a4]; decide, by rw [a3], by rw [b3]⟩

/-- C20 (the reference backend read), evaluated at the end of a file: on the
empty file `fread` of 512 bytes stores nothing and sets the end-of-file flag,
not the error flag, and `file_read` of 512 bytes does not return within `fuel`
calls of `fread`, whatever `fuel` is; the same on a file of three bytes, after
the call that stores them.  The loop leaves only when the count is reached or
the error flag is set.  Where the bytes are there, `file_read` returns
`MTAR_ESUCCESS` with the bytes in the buffer. -/
theorem file_read_loops_at_end_of_file (fuel : Nat) (buf : List Nat) :
    fread ⟨[], 0, false, false, none⟩ 512 = ([], ⟨[], 0, true, false, none⟩) ∧
    file_read fuel ⟨[], 0, false, false, none⟩ buf 512 = none ∧
    file_read fuel ⟨[1, 2, 3], 0, false, false, none⟩ buf 512 = none ∧
    (file_read 2 ⟨[1, 2, 3, 4], 0, false, false, none⟩ [0, 0, 0] 3).map
      (fun r => (r.1, r.2.1, r.2.2.off)) = some (MTAR_ESUCCESS, [1, 2, 3], 3) := by
  have h64 : (512 : Nat) < U64 := by decide
  refine ⟨rfl, ?_, ?_, by decide⟩
  · exact file_read_loop_at_end 512 h64 fuel ⟨[], 0, false, false, none⟩ buf 0 0 MTAR_CHUNK_SIZE
      rfl rfl (by decide) (by decide)
  · cases fuel with
    | zero => rfl
    | succ fuel =>
      have hstep : fread ⟨[1, 2, 3], 0, false, false, none⟩ 512
          = ([1, 2, 3], ⟨[1, 2, 3], 3, true, false, none⟩) := rfl
      have hr : (if (MTAR_CHUNK_SIZE + 0) % U64 > 512 then (512 + U64 - 0) % U64
          else MTAR_CHUNK_SIZE) = 512 := by decide
      rw [file_read, file_read_loop, if_pos (by decide)]
      simp only [hr, hstep]
      rw [if_neg (by decide)]
      exact file_read_loop_at_end 512 h64 fuel ⟨[1, 2, 3], 3, true, false, none⟩ _ _ _ _
        rfl rfl (by decide) (by decide)

end Microtar
